import Mathlib

set_option maxRecDepth 20000

/-!
Verification model of the EmailDetector core (EmailDetector C++ sources,
class definitions of CharacterClassifier, LocalPartValidator,
DomainPartValidator, EmailValidator and EmailScanner).

Bytes are modelled as natural numbers (the value of the C++ unsigned char)
and a text buffer as a `List Nat`.  Indexed reads `text[i]` become
`text.getD i 0`; every read in the C++ code is bounds-guarded, so the
default value never influences a guarded computation.  Loops are modelled
by structural recursion on an explicit fuel argument; every call site
passes a fuel that dominates the loop's iteration count, so fuel
exhaustion is unreachable (except where the fuel models an explicit
iteration cap of the C++ code, as in the scanner and the IPv6 parser).
-/

/-- Byte values of an ASCII string literal (used to state concrete examples). -/
def bytes (s : String) : List Nat := s.toList.map Char.toNat

/-- The contiguous substring `text[s ..< e]` (what `std::string(text.data()+s, e-s)` copies). -/
def subspan (text : List Nat) (s e : Nat) : List Nat := (text.drop s).take (e - s)

namespace CharacterClassifier

/-- The 256-entry classification table `charTable` of `CharacterClassifier`,
transcribed row by row; indices 128-255 are all 0x40. -/
def charTable : List Nat :=
  [0x40, 0x40, 0x40, 0x40, 0x40, 0x40, 0x40, 0x40, 0x40, 0xC0, 0xC0, 0x40, 0x40, 0xC0, 0x40, 0x40,
   0x40, 0x40, 0x40, 0x40, 0x40, 0x40, 0x40, 0x40, 0x40, 0x40, 0x40, 0x40, 0x40, 0x40, 0x40, 0x40,
   0xC0, 0x04, 0x60, 0x04, 0x04, 0x04, 0x04, 0x24, 0xC0, 0xC0, 0x04, 0x04, 0xC0, 0x14, 0x14, 0x04,
   0x1A, 0x1A, 0x1A, 0x1A, 0x1A, 0x1A, 0x1A, 0x1A, 0x1A, 0x1A, 0xC0, 0xC0, 0xC0, 0x04, 0xC0, 0x04,
   0x40, 0x19, 0x19, 0x19, 0x19, 0x19, 0x19, 0x11, 0x11, 0x11, 0x11, 0x11, 0x11, 0x11, 0x11, 0x11,
   0x11, 0x11, 0x11, 0x11, 0x11, 0x11, 0x11, 0x11, 0x11, 0x11, 0x11, 0xC0, 0x40, 0xC0, 0x04, 0x04,
   0x24, 0x19, 0x19, 0x19, 0x19, 0x19, 0x19, 0x11, 0x11, 0x11, 0x11, 0x11, 0x11, 0x11, 0x11, 0x11,
   0x11, 0x11, 0x11, 0x11, 0x11, 0x11, 0x11, 0x11, 0x11, 0x11, 0x11, 0x04, 0x04, 0x04, 0x04, 0x40]
  ++ List.replicate 128 0x40

/-- `charTable[c]` (out-of-range byte values behave like the invalid class 0x40). -/
def tblVal (c : Nat) : Nat := charTable.getD c 0x40

def isAlpha (c : Nat) : Bool := tblVal c &&& 0x01 != 0

def isDigit (c : Nat) : Bool := tblVal c &&& 0x02 != 0

def isAlphaNum (c : Nat) : Bool := tblVal c &&& 0x03 != 0

def isHexDigit (c : Nat) : Bool := tblVal c &&& 0x08 != 0

def isAtext (c : Nat) : Bool := tblVal c &&& 0x07 != 0

def isDomainChar (c : Nat) : Bool := tblVal c &&& 0x10 != 0

def isScanBoundary (c : Nat) : Bool := tblVal c &&& 0x80 != 0

/-- Boundary, or one of `.` `!` `?` (bytes 46, 33, 63). -/
def isScanRightBoundary (c : Nat) : Bool := isScanBoundary c || c == 46 || c == 33 || c == 63

def isInvalidLocalChar (c : Nat) : Bool := tblVal c &&& 0x40 != 0

def isQuoteChar (c : Nat) : Bool := tblVal c &&& 0x20 != 0

/-- Printable ASCII 33-126 excluding backslash (92) and double quote (34). -/
def isQtextOrQpair (c : Nat) : Bool := 33 ≤ c && c ≤ 126 && c != 92 && c != 34

end CharacterClassifier

namespace LocalPartValidator

def MAX_LOCAL_PART : Nat := 64

/-- Character loop of `validateDotAtom`: scans `[i, e)` rejecting doubled
dots and non-atext bytes.  Fuel is `e - i` at the call site. -/
def dotAtomLoop (text : List Nat) (e : Nat) : Nat → Nat → Bool → Bool
  | 0, _, _ => true
  | fuel+1, i, prevDot =>
    if i < e then
      let c := text.getD i 0
      if c == 46 then
        if prevDot then false else dotAtomLoop text e fuel (i+1) true
      else
        if !CharacterClassifier.isAtext c then false
        else dotAtomLoop text e fuel (i+1) false
    else true

def validateDotAtom (text : List Nat) (s e : Nat) : Bool :=
  if s ≥ e || e > text.length || e - s > MAX_LOCAL_PART then false
  else if text.getD s 0 == 46 || text.getD (e-1) 0 == 46 then false
  else dotAtomLoop text e (e - s) s false

/-- Interior loop of `validateQuotedString` over `[i, e1)` where `e1 = end - 1`;
carries the escape flag, and ends by requiring the escape flag clear. -/
def quotedLoop (text : List Nat) (e1 : Nat) : Nat → Nat → Bool → Bool
  | 0, _, escaped => !escaped
  | fuel+1, i, escaped =>
    if i < e1 then
      if i ≥ text.length then false
      else
        let c := text.getD i 0
        if escaped then
          if c > 127 then false else quotedLoop text e1 fuel (i+1) false
        else if c == 92 then quotedLoop text e1 fuel (i+1) true
        else if c == 34 then false
        else if !CharacterClassifier.isQtextOrQpair c && c != 32 && c != 9 then false
        else quotedLoop text e1 fuel (i+1) escaped
    else !escaped

def validateQuotedString (text : List Nat) (s e : Nat) : Bool :=
  if s ≥ e || e > text.length || e - s > MAX_LOCAL_PART + 2 then false
  else if text.getD s 0 != 34 || text.getD (e-1) 0 != 34 then false
  else if e - s < 3 then false
  else quotedLoop text (e-1) (e-1) (s+1) false

/-- Character loop of `validateScanMode` (same test as the dot-atom loop but
with the in-loop defensive bounds check the source carries). -/
def scanModeLoop (text : List Nat) (e : Nat) : Nat → Nat → Bool → Bool
  | 0, _, _ => true
  | fuel+1, i, prevDot =>
    if i < e then
      if i ≥ text.length then false
      else
        let c := text.getD i 0
        if c == 46 then
          if prevDot then false else scanModeLoop text e fuel (i+1) true
        else
          if !CharacterClassifier.isAtext c then false
          else scanModeLoop text e fuel (i+1) false
    else true

def validateScanMode (text : List Nat) (s e : Nat) : Bool :=
  if s ≥ e || e > text.length || e - s > MAX_LOCAL_PART then false
  else if text.getD s 0 == 34 || text.getD s 0 == 46 || text.getD (e-1) 0 == 46 then false
  else scanModeLoop text e (e - s) s false

inductive ValidationMode where
  | EXACT
  | SCAN
deriving DecidableEq

/-- `LocalPartValidator::validate`. -/
def validate (text : List Nat) (s e : Nat) (mode : ValidationMode) : Bool :=
  if s ≥ e || e > text.length then false
  else match mode with
    | .SCAN => validateScanMode text s e
    | .EXACT =>
      if text.getD s 0 == 34 then validateQuotedString text s e
      else validateDotAtom text s e

end LocalPartValidator

namespace DomainPartValidator

def MAX_DOMAIN_PART : Nat := 253

def MAX_LABEL_LENGTH : Nat := 63

/-- First loop of `validateDomainLabels`: rejects consecutive dots
(with the source's defensive in-loop bounds check). -/
def labelsDotLoop (text : List Nat) (e : Nat) : Nat → Nat → Bool → Bool
  | 0, _, _ => true
  | fuel+1, i, prevDot =>
    if i < e then
      if i ≥ text.length then false
      else if text.getD i 0 == 46 then
        if prevDot then false else labelsDotLoop text e fuel (i+1) true
      else labelsDotLoop text e fuel (i+1) false
    else true

/-- Backward scan for the last dot in `[s, iPlus)`; mirrors
`for (size_t i = end; i-- > start;)`. -/
def lastDotLoop (text : List Nat) (s : Nat) : Nat → Nat → Option Nat
  | 0, _ => none
  | fuel+1, iPlus =>
    if iPlus > s then
      let i := iPlus - 1
      if text.getD i 0 == 46 then some i else lastDotLoop text s fuel i
    else none

/-- Per-label character check: every byte of `[j, stop)` alphanumeric or hyphen (45). -/
def labelCharLoop (text : List Nat) (stop : Nat) : Nat → Nat → Bool
  | 0, _ => true
  | fuel+1, j =>
    if j < stop then
      let c := text.getD j 0
      if !CharacterClassifier.isAlphaNum c && c != 45 then false
      else labelCharLoop text stop fuel (j+1)
    else true

/-- Label-splitting loop of `validateDomainLabels` over `i ∈ [s, e]`
(inclusive); returns the label count, `none` on rejection. -/
def labelLoop (text : List Nat) (e : Nat) : Nat → Nat → Nat → Nat → Option Nat
  | 0, _, _, labelCount => some labelCount
  | fuel+1, i, labelStart, labelCount =>
    if i ≤ e then
      if i == e || text.getD i 0 == 46 then
        let labelLen := i - labelStart
        if labelLen == 0 || labelLen > MAX_LABEL_LENGTH then none
        else if labelStart ≥ text.length || labelStart + labelLen > text.length then none
        else if text.getD labelStart 0 == 45 || text.getD (labelStart + labelLen - 1) 0 == 45 then none
        else if !labelCharLoop text (labelStart + labelLen) labelLen labelStart then none
        else labelLoop text e fuel (i+1) (i+1) (labelCount+1)
      else labelLoop text e fuel (i+1) labelStart labelCount
    else some labelCount

/-- TLD check loop: every byte of `[i, e)` alphanumeric. -/
def tldLoop (text : List Nat) (e : Nat) : Nat → Nat → Bool
  | 0, _ => true
  | fuel+1, i =>
    if i < e then
      if !CharacterClassifier.isAlphaNum (text.getD i 0) then false
      else tldLoop text e fuel (i+1)
    else true

/-- `DomainPartValidator::validateDomainLabels`. -/
def validateDomainLabels (text : List Nat) (s e : Nat) : Bool :=
  if s ≥ e || e > text.length || e - s < 1 || e - s > MAX_DOMAIN_PART then false
  else if text.getD s 0 == 46 || text.getD s 0 == 45 ||
          text.getD (e-1) 0 == 46 || text.getD (e-1) 0 == 45 then false
  else if !labelsDotLoop text e (e - s) s false then false
  else
    let lastDotPos := lastDotLoop text s (e - s) e
    match labelLoop text e (e - s + 2) s s 0 with
    | none => false
    | some labelCount =>
      if labelCount < 1 then false
      else
        if labelCount ≥ 2 then
          match lastDotPos with
          | none => true
          | some d =>
            let tldStart := d + 1
            if e - tldStart < 1 then false
            else tldLoop text e (e - tldStart) tldStart
        else true

/-- Digit-accumulation loop of `validateIPv4` over `[j, i)`: rejects
non-digits, a leading zero in a multi-digit group, and accumulator
overflow (`octet > (INT_MAX - digit) / 10` with INT_MAX = 2147483647). -/
def ipv4DigitLoop (text : List Nat) (numStart i : Nat) : Nat → Nat → Nat → Nat → Option Nat
  | 0, _, octet, _ => some octet
  | fuel+1, j, octet, digitCount =>
    if j < i then
      let c := text.getD j 0
      if !CharacterClassifier.isDigit c then none
      else if digitCount == 0 && c == 48 && i - numStart > 1 then none
      else
        let digit := c - 48
        if octet > (2147483647 - digit) / 10 then none
        else ipv4DigitLoop text numStart i fuel (j+1) (octet * 10 + digit) (digitCount+1)
    else some octet

/-- Group loop of `validateIPv4` over `i ∈ [s, e]` while fewer than 4 octets;
returns the final `(octetIdx, numStart)` pair, `none` on rejection. -/
def ipv4Loop (text : List Nat) (e : Nat) : Nat → Nat → Nat → Nat → Option (Nat × Nat)
  | 0, _, octetIdx, numStart => some (octetIdx, numStart)
  | fuel+1, i, octetIdx, numStart =>
    if i ≤ e && octetIdx < 4 then
      if i == e || text.getD i 0 == 46 then
        if i == numStart || octetIdx ≥ 4 then none
        else
          match ipv4DigitLoop text numStart i (i - numStart) numStart 0 0 with
          | none => none
          | some octet =>
            if octet > 255 then none
            else ipv4Loop text e fuel (i+1) (octetIdx+1) (i+1)
      else ipv4Loop text e fuel (i+1) octetIdx numStart
    else some (octetIdx, numStart)

/-- `DomainPartValidator::validateIPv4`. -/
def validateIPv4 (text : List Nat) (s e : Nat) : Bool :=
  if s ≥ e || e > text.length then false
  else
    match ipv4Loop text e (e - s + 2) s 0 s with
    | none => false
    | some (octetIdx, numStart) =>
      if octetIdx != 4 then false
      else if numStart - 1 != e then false
      else true

def MAX_IPV6_ITERATIONS : Nat := 1000

/-- Hex-digit run of the IPv6 loop from `pos`: consumes hex digits,
rejecting a fifth one; returns the new position and the digit count. -/
def ipv6HexRun (text : List Nat) (e : Nat) : Nat → Nat → Nat → Option (Nat × Nat)
  | 0, pos, h => some (pos, h)
  | fuel+1, pos, h =>
    if pos < e && pos < text.length && CharacterClassifier.isHexDigit (text.getD pos 0) then
      if h + 1 > 4 then none
      else ipv6HexRun text e fuel (pos+1) (h+1)
    else some (pos, h)

/-- The checks performed when the IPv6 loop exits: the post-loop iteration
cap test followed by the final group-count test. -/
def ipv6Finish (iter segCount : Nat) (hasComp : Bool) : Bool :=
  if iter ≥ MAX_IPV6_ITERATIONS then false
  else if hasComp then segCount ≤ 7 else segCount == 8

/-- Outcome of the exit test and colon handling at the end of an IPv6 loop
body: either the whole validation resolves to a boolean, or the loop
continues at a new position with a possibly updated compression flag. -/
inductive Ipv6Step where
  | result (b : Bool)
  | again (pos : Nat) (hasComp : Bool)

/-- The tail of the IPv6 loop body: the `pos >= end` break followed by the
colon handling (compression marker detection, colon-without-digits and
trailing-colon rejection). -/
def ipv6ColonStep (text : List Nat) (e iter pos segCount : Nat) (hasComp : Bool)
    (hexDigits : Nat) : Ipv6Step :=
  if pos ≥ e then .result (ipv6Finish iter segCount hasComp)
  else if text.getD pos 0 == 58 then
    let pos1 := pos + 1
    if pos1 < e && pos1 < text.length && text.getD pos1 0 == 58 then
      if hasComp then .result false
      else
        let pos2 := pos1 + 1
        if pos2 ≥ e then .result (ipv6Finish iter segCount true)
        else .again pos2 true
    else if hexDigits == 0 then .result false
    else if pos1 ≥ e then .result false
    else .again pos1 hasComp
  else .result false

/-- Main loop of `validateIPv6`: `iter` is the C++ `iterations` counter
(the loop guard `iterations++ < MAX_IPV6_ITERATIONS` makes the whole call
return false whenever 1000 loop bodies have run, because the post-loop cap
test then fails too).  The structural fuel dominates the counter, so fuel
exhaustion is unreachable from `validateIPv6`. -/
def ipv6Loop (text : List Nat) (e : Nat) : Nat → Nat → Nat → Nat → Bool → Bool
  | fuel, iter, pos, segCount, hasComp =>
    if pos < e then
      match fuel with
      | 0 => false
      | fuel+1 =>
        if iter ≥ MAX_IPV6_ITERATIONS then false
        else
          match ipv6HexRun text e (e + 1) pos 0 with
          | none => false
          | some (pos1, hexDigits) =>
            if hexDigits > 0 then
              let segCount1 := segCount + 1
              if segCount1 > 8 then false
              else if pos1 < e && pos1 < text.length && text.getD pos1 0 == 46 then
                if validateIPv4 text pos e then
                  ipv6Finish (iter+1) (segCount1 - 1 + 2) hasComp
                else false
              else
                match ipv6ColonStep text e (iter+1) pos1 segCount1 hasComp hexDigits with
                | .result b => b
                | .again p hc => ipv6Loop text e fuel (iter+1) p segCount1 hc
            else
              match ipv6ColonStep text e (iter+1) pos1 segCount hasComp hexDigits with
              | .result b => b
              | .again p hc => ipv6Loop text e fuel (iter+1) p segCount hc
    else ipv6Finish iter segCount hasComp

/-- `DomainPartValidator::validateIPv6`. -/
def validateIPv6 (text : List Nat) (s e : Nat) : Bool :=
  if s ≥ e || e > text.length then false
  else
    if s + 1 ≤ e && s + 1 ≤ text.length && text.getD s 0 == 58 && text.getD (s+1) 0 == 58 then
      if s + 2 ≥ e then true
      else ipv6Loop text e (MAX_IPV6_ITERATIONS + 2) 0 (s + 2) 0 true
    else if s < text.length && text.getD s 0 == 58 then false
    else ipv6Loop text e (MAX_IPV6_ITERATIONS + 2) 0 s 0 false

/-- `DomainPartValidator::validateIPLiteral`.  After a failed IPv4 attempt the
source scans the interior for a colon and returns false in either case, so
that tail is simply `false` here. -/
def validateIPLiteral (text : List Nat) (s e : Nat) : Bool :=
  if s ≥ e || e > text.length then false
  else if text.getD s 0 != 91 || text.getD (e-1) 0 != 93 then false
  else
    let ipStart := s + 1
    let ipEnd := e - 1
    if ipStart ≥ ipEnd || ipEnd > text.length then false
    else if e - s > 6 && ipStart + 5 ≤ text.length &&
            (text.getD ipStart 0 ||| 0x20) == 105 &&
            (text.getD (ipStart+1) 0 ||| 0x20) == 112 &&
            (text.getD (ipStart+2) 0 ||| 0x20) == 118 &&
            text.getD (ipStart+3) 0 == 54 &&
            text.getD (ipStart+4) 0 == 58 then
      let addrStart :=
        if ipStart + 5 < ipEnd && ipStart + 5 < text.length && text.getD (ipStart+5) 0 == 58
        then ipStart + 4 else ipStart + 5
      validateIPv6 text addrStart ipEnd
    else if validateIPv4 text ipStart ipEnd then true
    else false

/-- `DomainPartValidator::validate`. -/
def validate (text : List Nat) (s e : Nat) : Bool :=
  if s ≥ e || e > text.length then false
  else if text.getD s 0 == 91 then validateIPLiteral text s e
  else validateDomainLabels text s e

end DomainPartValidator

namespace EmailValidator

def MIN_EMAIL_SIZE : Nat := 5

def MAX_EMAIL_SIZE : Nat := 320

/-- The single left-to-right pass of `EmailValidator::isValid` that finds the
unquoted, unescaped `@` (byte 64): walks the characters carrying the index,
the position found so far, and the quote/escape state; `none` means a second
unquoted `@` was seen (immediate rejection). -/
def atScanLoop : List Nat → Nat → Option Nat → Bool → Bool → Option (Option Nat)
  | [], _, atPos, _, _ => some atPos
  | c :: rest, i, atPos, inQuotes, escaped =>
    if escaped then atScanLoop rest (i+1) atPos inQuotes false
    else if c == 92 && inQuotes then atScanLoop rest (i+1) atPos inQuotes true
    else if c == 34 then atScanLoop rest (i+1) atPos (!inQuotes) escaped
    else if c == 64 && !inQuotes then
      match atPos with
      | some _ => none
      | none => atScanLoop rest (i+1) (some i) inQuotes escaped
    else atScanLoop rest (i+1) atPos inQuotes escaped

/-- `EmailValidator::isValid` (the `data() == nullptr` check of the source
cannot fire for a value-level byte list and has no counterpart here). -/
def isValid (email : List Nat) : Bool :=
  let len := email.length
  if len < MIN_EMAIL_SIZE || len > MAX_EMAIL_SIZE then false
  else
    match atScanLoop email 0 none false false with
    | none => false
    | some none => false
    | some (some atPos) =>
      if atPos == 0 || atPos ≥ len - 1 then false
      else
        LocalPartValidator.validate email 0 atPos .EXACT &&
        DomainPartValidator.validate email (atPos+1) len

end EmailValidator

namespace EmailScanner

def MAX_INPUT_SIZE : Nat := 10 * 1024 * 1024

def MAX_LEFT_SCAN : Nat := 4096

def MAX_EMAILS_EXTRACT : Nat := 10000

def MAX_SCAN_ITERATIONS : Nat := 100000

def MAX_TOTAL_CHARS_SCANNED : Nat := 1000000

/-- The candidate span record `EmailScanner::EmailBoundaries`
(`stop` is the C++ `end`, a reserved word in Lean). -/
structure EmailBoundaries where
  start : Nat
  stop : Nat
  validBoundaries : Bool
  skipTo : Nat
deriving DecidableEq, Repr

/-- `EmailScanner::findFirstAlnum`: first alphanumeric position in
`[pos, min limit len)`, `none` when there is none. -/
def findFirstAlnum (text : List Nat) (limit0 : Nat) : Nat → Nat → Option Nat
  | 0, _ => none
  | fuel+1, pos =>
    let limit := min limit0 text.length
    if pos < limit then
      if CharacterClassifier.isAlphaNum (text.getD pos 0) then some pos
      else findFirstAlnum text limit0 fuel (pos+1)
    else none

/-- `EmailScanner::findFirstAtext`. -/
def findFirstAtext (text : List Nat) (limit0 : Nat) : Nat → Nat → Option Nat
  | 0, _ => none
  | fuel+1, pos =>
    let limit := min limit0 text.length
    if pos < limit then
      if CharacterClassifier.isAtext (text.getD pos 0) then some pos
      else findFirstAtext text limit0 fuel (pos+1)
    else none

/-- `std::memchr(data + pos, at-sign, len - pos)`: position of the first
byte 64 at index `pos` or later. -/
def memchrFrom (text : List Nat) : Nat → Nat → Option Nat
  | 0, _ => none
  | fuel+1, i =>
    if i < text.length then
      if text.getD i 0 == 64 then some i else memchrFrom text fuel (i+1)
    else none

/-- Right-boundary expansion: consume domain characters from `e` on. -/
def domainEndLoop (text : List Nat) : Nat → Nat → Nat
  | 0, e => e
  | fuel+1, e =>
    if e < text.length && CharacterClassifier.isDomainChar (text.getD e 0) then
      domainEndLoop text fuel (e+1)
    else e

/-- Trailing-dot trim: `while (end > atPos+1 && data[end-1] == dot) --end`. -/
def trimDotsLoop (text : List Nat) (lo : Nat) : Nat → Nat → Nat
  | 0, e => e
  | fuel+1, e =>
    if e > lo && text.getD (e-1) 0 == 46 then trimDotsLoop text lo fuel (e-1) else e

/-- Trailing-hyphen trim (applied when the byte at `end` is another at-sign). -/
def trimHyphensLoop (text : List Nat) (lo : Nat) : Nat → Nat → Nat
  | 0, e => e
  | fuel+1, e =>
    if e > lo && text.getD (e-1) 0 == 45 then trimHyphensLoop text lo fuel (e-1) else e

/-- The inner lookback of the left scan's invalid-character branch (the
source guards it by `prevChar == at-sign`, which the earlier break makes
unreachable; it is transcribed for fidelity).  Returns the final
`(validStart, foundValid)` pair. -/
def atLookbackLoop (text : List Nat) (lookbackLimit atPos : Nat) : Nat → Nat → Nat → Bool → (Nat × Bool)
  | 0, _, validStart, foundValid => (validStart, foundValid)
  | fuel+1, lookback, validStart, foundValid =>
    if lookback < lookbackLimit || lookback ≥ atPos || lookback ≥ text.length then
      (validStart, foundValid)
    else
      let c := text.getD lookback 0
      if CharacterClassifier.isAtext c && c != 46 then
        if lookback == lookbackLimit then (lookback, true)
        else atLookbackLoop text lookbackLimit atPos fuel (lookback - 1) lookback true
      else (validStart, foundValid)

/-- Exit value of the backward left-boundary scan: either the final `start`,
or an invalid-character hit at `invalidCharPos` (triggering recovery). -/
inductive LeftScanOut where
  | done (start : Nat)
  | invalid (start invalidCharPos : Nat)
deriving DecidableEq, Repr

/-- The backward left-boundary scan of `findEmailBoundaries` (`e` is the
right boundary already computed; each `continue` of the C++ loop decreases
`start`, so the fuel `atPos + 1` dominates the iteration count). -/
def leftScanLoop (text : List Nat) (atPos effectiveMin e : Nat) : Nat → Nat → LeftScanOut
  | 0, start => .done start
  | fuel+1, start =>
    if start > effectiveMin then
      let prevChar := text.getD (start - 1) 0
      if prevChar == 64 then .done start
      else if prevChar == 46 && start > effectiveMin + 1 && start ≥ 2 &&
              text.getD (start - 2) 0 == 46 then
        .invalid start (start - 1)
      else if CharacterClassifier.isInvalidLocalChar prevChar then
        if prevChar == 64 && start > effectiveMin + 1 then
          let lr := atLookbackLoop text effectiveMin atPos (text.length + 1) (start - 2) (start - 1) false
          if lr.2 then leftScanLoop text atPos effectiveMin e fuel lr.1
          else .invalid start start
        else .invalid start start
      else if CharacterClassifier.isQuoteChar prevChar then
        if start > effectiveMin + 1 && start ≥ 2 && text.getD (start - 2) 0 == prevChar then
          leftScanLoop text atPos effectiveMin e fuel (start - 1)
        else if e < text.length && text.getD e 0 == prevChar then
          if e + 1 < text.length && text.getD (e+1) 0 == prevChar then
            leftScanLoop text atPos effectiveMin e fuel (start - 1)
          else .done start
        else
          if start > effectiveMin + 1 && start ≥ 2 then
            let prevPrevChar := text.getD (start - 2) 0
            if prevPrevChar == 61 || prevPrevChar == 58 ||
               CharacterClassifier.isScanBoundary prevPrevChar ||
               CharacterClassifier.isQuoteChar prevPrevChar then
              leftScanLoop text atPos effectiveMin e fuel (start - 1)
            else leftScanLoop text atPos effectiveMin e fuel (start - 1)
          else if start == effectiveMin + 1 then .done (start - 1)
          else leftScanLoop text atPos effectiveMin e fuel (start - 1)
      else if prevChar == 46 then leftScanLoop text atPos effectiveMin e fuel (start - 1)
      else if CharacterClassifier.isAtext prevChar then leftScanLoop text atPos effectiveMin e fuel (start - 1)
      else .done start
    else .done start

/-- Leading-dot strip after recovery. -/
def leadingDotStrip (text : List Nat) (atPos : Nat) : Nat → Nat → Nat
  | 0, start => start
  | fuel+1, start =>
    if start < atPos && text.getD start 0 == 46 then leadingDotStrip text atPos fuel (start+1)
    else start

/-- Everything of `findEmailBoundaries` after the left scan / recovery
decided a tentative `start0`: leading-dot strip, the advance past an
illegal byte just before `start`, the `start >= atPos` rejection and the
boundary-legality checks. -/
def afterRecovery (text : List Nat) (atPos e3 effectiveMin len start0 : Nat)
    (didRecovery : Bool) : EmailBoundaries :=
  let start1 := leadingDotStrip text atPos (atPos + 1) start0
  let start2 :=
    if start1 < atPos && start1 > effectiveMin && start1 > 0 then
      if CharacterClassifier.isInvalidLocalChar (text.getD (start1 - 1) 0) then
        match findFirstAlnum text atPos (len + 1) start1 with
        | some firstAlnum => firstAlnum
        | none => start1
      else start1
    else start1
  if start2 ≥ atPos then ⟨atPos, atPos, false, min (atPos + 1) len⟩
  else
    let validB :=
      if start2 > effectiveMin && start2 > 0 then
        let prevChar := text.getD (start2 - 1) 0
        let v0 :=
          if didRecovery then !CharacterClassifier.isAlphaNum prevChar
          else if CharacterClassifier.isInvalidLocalChar prevChar then true
          else if !CharacterClassifier.isScanBoundary prevChar &&
                  prevChar != 64 && prevChar != 46 && prevChar != 61 &&
                  prevChar != 39 && prevChar != 96 && prevChar != 34 &&
                  prevChar != 47 then false
          else true
        let v1 :=
          if CharacterClassifier.isQuoteChar prevChar && start2 > effectiveMin + 1 && start2 ≥ 2 then
            let prevPrevChar := text.getD (start2 - 2) 0
            if CharacterClassifier.isScanBoundary prevPrevChar || prevPrevChar == 61 ||
               prevPrevChar == 58 || CharacterClassifier.isQuoteChar prevPrevChar then true
            else v0
          else v0
        let v2 :=
          if prevChar == 47 && start2 > effectiveMin + 1 && start2 ≥ 2 then
            if text.getD (start2 - 2) 0 == 47 then true else v1
          else v1
        v2
      else true
    let validB2 :=
      if e3 < len && validB then
        let nextChar := text.getD e3 0
        if !CharacterClassifier.isScanRightBoundary nextChar &&
           nextChar != 39 && nextChar != 96 && nextChar != 34 &&
           nextChar != 64 && nextChar != 92 && !CharacterClassifier.isAtext nextChar then false
        else validB
      else validB
    ⟨start2, e3, validB2, 0⟩

/-- `EmailScanner::findEmailBoundaries`. -/
def findEmailBoundaries (text : List Nat) (atPos minScannedIndex : Nat) : EmailBoundaries :=
  let len := text.length
  if atPos ≥ len then ⟨atPos, atPos, false, atPos⟩
  else
    let e0 := atPos + 1
    if e0 < len && text.getD e0 0 == 91 then ⟨atPos, atPos, false, atPos + 1⟩
    else
      let e1 := domainEndLoop text len e0
      let e2 := trimDotsLoop text (atPos + 1) e1 e1
      let e3 := if e2 < len && text.getD e2 0 == 64 then trimHyphensLoop text (atPos + 1) e2 e2 else e2
      let effectiveMin := if atPos > MAX_LEFT_SCAN then max minScannedIndex (atPos - MAX_LEFT_SCAN)
                          else minScannedIndex
      match leftScanLoop text atPos effectiveMin e3 (atPos + 1) atPos with
      | .done start0 => afterRecovery text atPos e3 effectiveMin len start0 false
      | .invalid _ invalidCharPos =>
        match findFirstAlnum text atPos (len + 1) (max invalidCharPos effectiveMin) with
        | some recoveryPos => afterRecovery text atPos e3 effectiveMin len recoveryPos true
        | none =>
          match findFirstAtext text atPos (len + 1) (max invalidCharPos effectiveMin) with
          | some recoveryPos => afterRecovery text atPos e3 effectiveMin len recoveryPos true
          | none => ⟨atPos, atPos, false, min (invalidCharPos + 1) len⟩

/-- One iteration of the shared scan-loop body of `contains` and `extract`
(the code from the `memchr` call down to the validation decision is
identical in the two functions). -/
inductive StepRes where
  | stop
  | overflow
  | next (pos chars : Nat)
  | found (atPos s e chars : Nat)
deriving DecidableEq, Repr

def scanStep (text : List Nat) (pos minScannedIndex lastConsumedEnd totalCharsScanned : Nat) : StepRes :=
  let len := text.length
  match memchrFrom text (len + 1) pos with
  | none => .stop
  | some atPos =>
    if atPos < 1 || atPos ≥ len - 3 then .next (atPos + 1) totalCharsScanned
    else if atPos < lastConsumedEnd then .next (atPos + 1) totalCharsScanned
    else
      let b := findEmailBoundaries text atPos minScannedIndex
      let chars := totalCharsScanned + (atPos - b.start) + (b.stop - atPos)
      if chars > MAX_TOTAL_CHARS_SCANNED then .overflow
      else if !b.validBoundaries then
        .next (if b.skipTo > 0 then b.skipTo else atPos + 1) chars
      else if LocalPartValidator.validate text b.start atPos .SCAN &&
              DomainPartValidator.validate text (atPos+1) b.stop then
        .found atPos b.start b.stop chars
      else .next (atPos + 1) chars

/-- The scan loop of `EmailScanner::contains`.  The C++ loop carries no
iteration bound, so the fuel is an observation budget: `none` means the
loop had not finished within `fuel` iterations. -/
def containsLoop (text : List Nat) : Nat → Nat → Nat → Nat → Nat → Option Bool
  | fuel, pos, ms, le, cs =>
    if pos < text.length then
      match fuel with
      | 0 => none
      | fuel+1 =>
        match scanStep text pos ms le cs with
        | .stop => some false
        | .overflow => some false
        | .next p c => containsLoop text fuel p ms le c
        | .found _ _ _ _ => some true
    else some false

/-- `EmailScanner::contains` behind its entry guards; `isNull` models a
`string_view` whose data handle is null (its length is still
`text.length`). -/
def containsFull (fuel : Nat) (isNull : Bool) (text : List Nat) : Option Bool :=
  let len := text.length
  if len > MAX_INPUT_SIZE || len < 5 then some false
  else if isNull && len > 0 then some false
  else containsLoop text fuel 0 0 0 0

/-- `contains` on an ordinary (non-null) buffer. -/
def containsModel (fuel : Nat) (text : List Nat) : Option Bool := containsFull fuel false text

/-- The scan loop of `EmailScanner::extract`; also records the accepted
spans `(start, stop)` alongside the deduplicated strings.  The fuel is the
C++ `iterations` budget (`MAX_SCAN_ITERATIONS` at the entry point): the
loop body runs at most `fuel` times and the accumulated result is returned
when the budget is exhausted.  After an accepted match the source looks
ahead for a nearby at-sign but assigns `pos = boundaries.end` on both
branches, so the next position is simply `e`. -/
def extractLoop (text : List Nat) :
    Nat → Nat → Nat → Nat → Nat → List (List Nat) → List (List Nat) →
    List (Nat × Nat) → Nat → List (List Nat) × List (Nat × Nat)
  | fuel, pos, ms, le, cs, seen, emails, spans, cnt =>
    if pos < text.length then
      match fuel with
      | 0 => (emails, spans)
      | fuel+1 =>
        if cnt ≥ MAX_EMAILS_EXTRACT then (emails, spans)
        else
          match scanStep text pos ms le cs with
          | .stop => (emails, spans)
          | .overflow => (emails, spans)
          | .next p c => extractLoop text fuel p ms le c seen emails spans cnt
          | .found atPos s e c =>
            if s ≥ text.length || e > text.length || s ≥ e then
              extractLoop text fuel (atPos + 1) ms le c seen emails spans cnt
            else
              let m := subspan text s e
              let inserted := !(seen.contains m)
              let seen1 := if inserted then m :: seen else seen
              let emails1 := if inserted then emails ++ [m] else emails
              let spans1 := if inserted then spans ++ [(s, e)] else spans
              let cnt1 := if inserted then cnt + 1 else cnt
              extractLoop text fuel e (max ms s) (max le e) c seen1 emails1 spans1 cnt1
    else (emails, spans)

/-- `EmailScanner::extract` behind its entry guards, returning the strings
together with the recorded spans. -/
def extractFull (isNull : Bool) (text : List Nat) : List (List Nat) × List (Nat × Nat) :=
  let len := text.length
  if len > MAX_INPUT_SIZE || len < 5 then ([], [])
  else if isNull && len > 0 then ([], [])
  else extractLoop text MAX_SCAN_ITERATIONS 0 0 0 0 [] [] [] 0

/-- The string list `extract` returns (non-null buffer). -/
def extractModel (text : List Nat) : List (List Nat) := (extractFull false text).1

/-- The byte spans of the recorded matches (in recording order). -/
def extractSpans (text : List Nat) : List (Nat × Nat) := (extractFull false text).2

end EmailScanner

/-!  ### Theorems about the model  -/

def splitDots : List Nat → List (List Nat)
  | [] => [[]]
  | c :: rest =>
    if c == 46 then [] :: splitDots rest
    else
      match splitDots rest with
      | [] => [[c]]
      | g :: gs => (c :: g) :: gs

/-- Decimal value of a digit group (specification side). -/
def decVal (g : List Nat) : Nat := g.foldl (fun acc c => acc * 10 + (c - 48)) 0

/-- Decimal accumulation from a starting value (used to track the loop). -/
def decValFrom (acc : Nat) (g : List Nat) : Nat :=
  g.foldl (fun a c => a * 10 + (c - 48)) acc

/-- The spec's octet condition: a nonempty run of decimal digits, no
leading zero unless the group is exactly `0`, value at most 255. -/
def specOctet (g : List Nat) : Bool :=
  !g.isEmpty && g.all CharacterClassifier.isDigit &&
  (g.length == 1 || g.headD 0 != 48) && decVal g ≤ 255

/-- The spec's IPv4 condition (C6's wording): splitting on `.` gives
exactly 4 groups, each a valid octet; consuming the whole range is implied
by the split covering the list. -/
def specIPv4 (l : List Nat) : Bool :=
  match splitDots l with
  | [g1, g2, g3, g4] => specOctet g1 && specOctet g2 && specOctet g3 && specOctet g4
  | _ => false

/-- Group-counting form of `specIPv4`, convenient for the loop induction. -/
def specGroups (l : List Nat) (n : Nat) : Bool :=
  (splitDots l).length == n && (splitDots l).all specOctet

def ipv4Post (e : Nat) : Option (Nat × Nat) → Bool
  | none => false
  | some (oi, ns2) => oi == 4 && ns2 - 1 == e

/-- The spec's label condition: 1-63 bytes, only alphanumerics and hyphen
(45), not starting or ending with a hyphen. -/
def specLabel (g : List Nat) : Bool :=
  1 ≤ g.length && g.length ≤ 63 &&
  g.all (fun c => CharacterClassifier.isAlphaNum c || c == 45) &&
  g.headD 0 != 45 && g.getLastD 0 != 45

/-- No two consecutive dots (byte 46) in a byte list. -/
def noConsecDots : List Nat → Bool
  | c1 :: c2 :: rest => !(c1 == 46 && c2 == 46) && noConsecDots (c2 :: rest)
  | _ => true

/-- The spec's dot-labeled domain condition (C5's wording): length 1-253,
not starting or ending with dot or hyphen, no consecutive dots, every
dot-separated label a valid label, and when at least two labels exist the
final label consists of alphanumerics only. -/
def specDomain (l : List Nat) : Bool :=
  1 ≤ l.length && l.length ≤ 253 &&
  (l.headD 0 != 46 && l.headD 0 != 45) &&
  (l.getLastD 0 != 46 && l.getLastD 0 != 45) &&
  noConsecDots l &&
  (splitDots l).all specLabel &&
  ((splitDots l).length == 1 || ((splitDots l).getLastD []).all CharacterClassifier.isAlphaNum)

/-- The spec's reading of scan-mode local-part validation: length 1-64, not
starting with `"` or `.`, not ending with `.`, no consecutive dots, every
byte a dot or an atext byte. -/
def specLocalScan (l : List Nat) : Bool :=
  1 ≤ l.length && l.length ≤ 64 &&
  (l.headD 0 != 34 && l.headD 0 != 46) && l.getLastD 0 != 46 &&
  noConsecDots l &&
  l.all (fun c => c == 46 || CharacterClassifier.isAtext c)

/-- What the scanner guarantees of an accepted candidate span: the returned
string is the span's bytes, the at-sign anchor lies strictly inside it, the
byte after the anchor is not `[`, and the two validators accepted the local
part (scan mode) and the domain part (dot-labeled path). -/
def GoodMatch (text m : List Nat) : Prop :=
  ∃ s atPos e, m = subspan text s e ∧ e ≤ text.length ∧ s < atPos ∧ atPos + 1 < e ∧
    text.getD atPos 0 = 64 ∧ text.getD (atPos + 1) 0 ≠ 91 ∧
    LocalPartValidator.validateScanMode text s atPos = true ∧
    DomainPartValidator.validateDomainLabels text (atPos + 1) e = true

/-- The C1 counterexample text: 100000 at-signs followed by `ab@cd.ef`. -/
def c1text : List Nat := List.replicate 100000 64 ++ bytes "ab@cd.ef"

def unquotedAtPositions : List Nat → Nat → Bool → Bool → List Nat
  | [], _, _, _ => []
  | c :: rest, i, inQuotes, escaped =>
    if escaped then unquotedAtPositions rest (i+1) inQuotes false
    else if c == 92 && inQuotes then unquotedAtPositions rest (i+1) inQuotes true
    else if c == 34 then unquotedAtPositions rest (i+1) (!inQuotes) escaped
    else if c == 64 && !inQuotes then i :: unquotedAtPositions rest (i+1) inQuotes escaped
    else unquotedAtPositions rest (i+1) inQuotes escaped

/-- What the at-scan of `isValid` returns, as a function of the at-sign
position it starts from and the list of unquoted at-sign positions ahead. -/
def atResult (atP : Option Nat) (ps : List Nat) : Option (Option Nat) :=
  match atP, ps with
  | none, [] => some none
  | none, [a] => some (some a)
  | none, _ :: _ :: _ => none
  | some a, [] => some (some a)
  | some _, _ :: _ => none

/-- C9: inputs shorter than 5 bytes or longer than 10 MiB, and null buffers
of nonzero declared length, are rejected at entry: `contains` answers false
and `extract` answers the empty sequence, for every iteration budget (so in
particular before any at-sign scanning happens). -/
theorem C9_entry_rejection (isNull : Bool) (text : List Nat) (fuel : Nat)
    (h : text.length < 5 ∨ text.length > EmailScanner.MAX_INPUT_SIZE ∨
         (isNull = true ∧ 0 < text.length)) :
    EmailScanner.containsFull fuel isNull text = some false ∧
    EmailScanner.extractFull isNull text = ([], []) := by
  unfold EmailScanner.containsFull EmailScanner.extractFull
  by_cases h1 : text.length > EmailScanner.MAX_INPUT_SIZE ∨ text.length < 5
  · have : (text.length > EmailScanner.MAX_INPUT_SIZE || text.length < 5) = true := by
      simp only [Bool.or_eq_true, decide_eq_true_eq]; exact h1
    simp [this]
  · push_neg at h1
    have hg : (text.length > EmailScanner.MAX_INPUT_SIZE || text.length < 5) = false := by
      simp only [Bool.or_eq_false_iff, decide_eq_false_iff_not]
      constructor <;> omega
    rcases h with h | h | ⟨hn, hp⟩
    · omega
    · omega
    · subst hn
      have : (true && decide (0 < text.length)) = true := by simp [hp]
      simp [hg, hp]

/-- C9 witness: a 3-byte input is rejected by both entry points. -/
theorem C9_entry_rejection_witness :
    EmailScanner.containsFull 0 false (bytes "a@b") = some false ∧
    EmailScanner.extractFull false (bytes "a@b") = ([], []) :=
  C9_entry_rejection false (bytes "a@b") 0 (Or.inl (by decide))

/-- C3 as stated is false: on `aa p@q.com#@r.net zz` the scanner records the
spans (3,10) and (5,17), which overlap (the second starts inside the first). -/
theorem C3_counterexample :
    ¬ (∀ text : List Nat,
        (EmailScanner.extractModel text).Nodup ∧
        ((EmailScanner.extractSpans text).Pairwise fun p q => p.2 ≤ q.1) ∧
        ((EmailScanner.extractSpans text).Pairwise fun p q => p.1 ≤ q.1)) := by
  intro h
  have h2 := (h (bytes "aa p@q.com#@r.net zz")).2.1
  rw [show EmailScanner.extractSpans (bytes "aa p@q.com#@r.net zz") = [(3,10),(5,17)] from by decide] at h2
  have := List.rel_of_pairwise_cons h2 (List.mem_singleton.mpr rfl)
  omega

/-!  #### Generic facts about `subspan` -/

theorem subspan_length (text : List Nat) (s e : Nat) (he : e ≤ text.length) :
    (subspan text s e).length = e - s := by
  simp only [subspan, List.length_take, List.length_drop]
  omega

theorem subspan_getD (text : List Nat) (s e i : Nat) (d : Nat)
    (hi : s + i < e) (he : e ≤ text.length) :
    (subspan text s e).getD i d = text.getD (s + i) d := by
  simp only [subspan, List.getD_eq_getElem?_getD, List.getElem?_take, List.getElem?_drop]
  rw [if_pos (by omega)]

theorem mem_subspan (text : List Nat) (s e : Nat) (c : Nat) (he : e ≤ text.length) :
    c ∈ subspan text s e ↔ ∃ t, s ≤ t ∧ t < e ∧ text.getD t 0 = c := by
  rw [List.mem_iff_getElem]
  constructor
  · rintro ⟨n, hn, hc⟩
    rw [subspan_length text s e he] at hn
    refine ⟨s + n, by omega, by omega, ?_⟩
    rw [← subspan_getD text s e n 0 (by omega) he]
    rw [List.getD_eq_getElem?_getD, List.getElem?_eq_getElem (by rw [subspan_length text s e he]; omega)]
    simpa using hc
  · rintro ⟨t, h1, h2, hc⟩
    have hn : t - s < (subspan text s e).length := by rw [subspan_length text s e he]; omega
    refine ⟨t - s, hn, ?_⟩
    have := subspan_getD text s e (t - s) 0 (by omega) he
    rw [List.getD_eq_getElem?_getD, List.getElem?_eq_getElem hn] at this
    simp only [Option.getD_some] at this
    rw [this]
    rw [show s + (t - s) = t by omega]
    exact hc

theorem subspan_split (text : List Nat) (s d e : Nat)
    (hd : s ≤ d) (hde : d < e) (he : e ≤ text.length) :
    subspan text s e = subspan text s d ++ text.getD d 0 :: subspan text (d+1) e := by
  have h1 : e - s = (d - s) + (e - d) := by omega
  simp only [subspan]
  rw [h1, List.take_add]
  congr 1
  rw [List.drop_drop]
  have h2 : s + (d - s) = d := by omega
  rw [h2]
  have h3 : e - d = 1 + (e - (d + 1)) := by omega
  rw [h3, List.take_add]
  have h4 : List.take 1 (List.drop d text) = [text.getD d 0] := by
    have hdl : d < text.length := by omega
    rw [List.getD_eq_getElem?_getD, List.getElem?_eq_getElem hdl]
    rw [List.take_one, List.head?_drop text d, List.getElem?_eq_getElem hdl]
    rfl
  rw [h4, List.drop_drop]
  simp

theorem subspan_snoc (text : List Nat) (s j : Nat) (hs : s ≤ j) (hj : j < text.length) :
    subspan text s (j+1) = subspan text s j ++ [text.getD j 0] := by
  simp only [subspan]
  have h1 : j + 1 - s = (j - s) + 1 := by omega
  rw [h1, List.take_add, List.drop_drop]
  have h2 : s + (j - s) = j := by omega
  rw [h2]
  congr 1
  rw [List.getD_eq_getElem?_getD, List.getElem?_eq_getElem hj, List.take_one, List.head?_drop text j, List.getElem?_eq_getElem hj]
  rfl

theorem subspan_nil (text : List Nat) (s e : Nat) (h : e ≤ s) :
    subspan text s e = [] := by
  simp only [subspan]
  rw [Nat.sub_eq_zero_of_le h]
  rfl

/-!  #### Specification-side dotted-group machinery (for C5/C6)

`splitDots` is the specification's "split on `.`" over a byte list; the
spec predicates below are written from the claims' wording and later
compared against the index-based source loops. -/

theorem splitDots_ne_nil (l : List Nat) : splitDots l ≠ [] := by
  induction l with
  | nil => simp [splitDots]
  | cons c rest ih =>
    simp only [splitDots]
    by_cases h : (c == 46) = true
    · simp [h]
    · rw [Bool.not_eq_true] at h
      simp only [h, Bool.false_eq_true, if_false]
      rcases hs : splitDots rest with _ | ⟨g, gs⟩
      · exact absurd hs ih
      · simp

theorem splitDots_no_dot (l : List Nat) (h : ∀ c ∈ l, c ≠ 46) : splitDots l = [l] := by
  induction l with
  | nil => rfl
  | cons c rest ih =>
    have hc : c ≠ 46 := h c (List.mem_cons_self c rest)
    have hrest := ih (fun x hx => h x (List.mem_cons_of_mem c hx))
    simp only [splitDots]
    rw [if_neg (by simpa using hc), hrest]

theorem splitDots_first_dot (l1 l2 : List Nat) (h : ∀ c ∈ l1, c ≠ 46) :
    splitDots (l1 ++ 46 :: l2) = l1 :: splitDots l2 := by
  induction l1 with
  | nil => simp [splitDots]
  | cons c rest ih =>
    have hc : c ≠ 46 := h c (List.mem_cons_self c rest)
    have hrest := ih (fun x hx => h x (List.mem_cons_of_mem c hx))
    simp only [List.cons_append, splitDots]
    rw [if_neg (by simpa using hc)]
    rw [show List.append rest (46 :: l2) = rest ++ 46 :: l2 from rfl, hrest]

theorem decValFrom_append (acc : Nat) (g1 g2 : List Nat) :
    decValFrom acc (g1 ++ g2) = decValFrom (decValFrom acc g1) g2 := by
  simp [decValFrom, List.foldl_append]

theorem decValFrom_singleton (acc c : Nat) : decValFrom acc [c] = acc * 10 + (c - 48) := rfl

theorem decVal_append (g1 g2 : List Nat) : decVal (g1 ++ g2) = decValFrom (decVal g1) g2 := by
  simp [decVal, decValFrom, List.foldl_append]

theorem decValFrom_le (acc : Nat) (g : List Nat) : acc ≤ decValFrom acc g := by
  induction g generalizing acc with
  | nil => exact le_refl acc
  | cons c rest ih =>
    calc acc ≤ acc * 10 + (c - 48) := by omega
    _ ≤ decValFrom (acc * 10 + (c - 48)) rest := ih _

theorem specIPv4_eq_specGroups (l : List Nat) : specIPv4 l = specGroups l 4 := by
  unfold specIPv4 specGroups
  rcases h : splitDots l with _ | ⟨g1, _ | ⟨g2, _ | ⟨g3, _ | ⟨g4, _ | ⟨g5, t⟩⟩⟩⟩⟩
  · exact absurd h (splitDots_ne_nil l)
  · simp
  · simp
  · simp
  · cases h1 : specOctet g1 <;> cases h2 : specOctet g2 <;> cases h3 : specOctet g3 <;>
      cases h4 : specOctet g4 <;> simp [List.all, h1, h2, h3, h4]
  · simp only [List.length_cons]
    rw [show (t.length + 1 + 1 + 1 + 1 + 1 == 4) = false from by
      simp only [beq_eq_false_iff_ne, ne_eq]; omega]
    simp

theorem subspan_trans (text : List Nat) (s j e : Nat)
    (hs : s ≤ j) (hj : j ≤ e) (he : e ≤ text.length) :
    subspan text s j ++ subspan text j e = subspan text s e := by
  simp only [subspan]
  have h1 : e - s = (j - s) + (e - j) := by omega
  rw [h1, List.take_add, List.drop_drop]
  rw [show s + (j - s) = j from by omega]

theorem subspan_cons (text : List Nat) (j e : Nat) (hj : j < e) (he : e ≤ text.length) :
    subspan text j e = text.getD j 0 :: subspan text (j+1) e := by
  have := subspan_split text j j e (le_refl j) hj he
  rwa [subspan_nil text j j (le_refl j), List.nil_append] at this

/-!  #### Byte-class range facts -/

theorem tblVal_oob (c : Nat) (h : 256 ≤ c) : CharacterClassifier.tblVal c = 0x40 := by
  unfold CharacterClassifier.tblVal
  apply List.getD_eq_default
  rw [show CharacterClassifier.charTable.length = 256 from by decide]
  exact h

theorem isDigit_bounds (c : Nat) (h : CharacterClassifier.isDigit c = true) :
    48 ≤ c ∧ c ≤ 57 := by
  by_cases hc : c < 256
  · exact (by decide :
      ∀ c, c < 256 → CharacterClassifier.isDigit c = true → 48 ≤ c ∧ c ≤ 57) c hc h
  · exfalso
    unfold CharacterClassifier.isDigit at h
    rw [tblVal_oob c (by omega)] at h
    revert h
    decide

/-!  #### The IPv4 parse loop against the spec octet predicate -/

theorem specOctet_iff (g : List Nat) : specOctet g = true ↔
    g ≠ [] ∧ (∀ c ∈ g, CharacterClassifier.isDigit c = true) ∧
    (g.headD 0 = 48 → g.length = 1) ∧ decVal g ≤ 255 := by
  unfold specOctet
  simp only [Bool.and_eq_true, Bool.not_eq_true', List.isEmpty_eq_false,
    List.all_eq_true, Bool.or_eq_true, beq_iff_eq, bne_iff_ne, ne_eq, decide_eq_true_eq]
  constructor
  · rintro ⟨⟨⟨h1, h2⟩, h3⟩, h4⟩
    refine ⟨h1, h2, ?_, h4⟩
    intro hh
    rcases h3 with h3 | h3
    · exact h3
    · exact absurd hh h3
  · rintro ⟨h1, h2, h3, h4⟩
    refine ⟨⟨⟨h1, h2⟩, ?_⟩, h4⟩
    by_cases hh : g.headD 0 = 48
    · exact Or.inl (h3 hh)
    · exact Or.inr hh

theorem ipv4DigitLoop_complete (text : List Nat) (ns i : Nat) (hi : i ≤ text.length)
    (hd : ∀ t, ns ≤ t → t < i → CharacterClassifier.isDigit (text.getD t 0) = true)
    (hz : text.getD ns 0 = 48 → i - ns = 1)
    (hv : decVal (subspan text ns i) ≤ 255) :
    ∀ n j, i - j = n → ns ≤ j → j ≤ i →
      DomainPartValidator.ipv4DigitLoop text ns i (i - j) j (decVal (subspan text ns j)) (j - ns) =
        some (decVal (subspan text ns i)) := by
  intro n
  induction n with
  | zero =>
    intro j h1 h2 h3
    have hji : j = i := by omega
    subst hji
    rw [h1]
    rfl
  | succ n ih =>
    intro j h1 h2 h3
    have hji : j < i := by omega
    rw [h1]
    simp only [DomainPartValidator.ipv4DigitLoop]
    rw [if_pos hji]
    have hdj := hd j h2 hji
    rw [show (!CharacterClassifier.isDigit (text.getD j 0)) = false from by rw [hdj]; rfl]
    simp only [Bool.false_eq_true, if_false]
    have hcrange := isDigit_bounds _ hdj
    -- the leading-zero test is false
    have hzt : (j - ns == 0 && text.getD j 0 == 48 && decide (i - ns > 1)) = false := by
      rw [Bool.eq_false_iff]
      intro hcon
      simp only [Bool.and_eq_true, beq_iff_eq, decide_eq_true_eq] at hcon
      obtain ⟨⟨hc1, hc2⟩, hc3⟩ := hcon
      have hjn : j = ns := by omega
      subst hjn
      have := hz hc2
      omega
    rw [hzt]
    simp only [Bool.false_eq_true, if_false]
    -- no overflow: the running value is a prefix value, hence at most 255
    have hpre : decVal (subspan text ns j) ≤ decVal (subspan text ns i) := by
      rw [← subspan_trans text ns j i h2 (by omega) hi, decVal_append]
      exact decValFrom_le _ _
    rw [if_neg (by omega)]
    have hsnoc : decVal (subspan text ns j) * 10 + (text.getD j 0 - 48) =
        decVal (subspan text ns (j+1)) := by
      rw [subspan_snoc text ns j h2 (by omega), decVal_append, decValFrom_singleton]
    rw [hsnoc]
    rw [show j - ns + 1 = (j + 1) - ns from by omega]
    have := ih (j+1) (by omega) (by omega) (by omega)
    rw [show i - (j+1) = n from by omega] at this
    exact this

theorem ipv4DigitLoop_sound (text : List Nat) (ns i : Nat) (hi : i ≤ text.length) :
    ∀ n j acc v, i - j = n → ns ≤ j → j ≤ i →
      DomainPartValidator.ipv4DigitLoop text ns i (i - j) j acc (j - ns) = some v →
      (∀ t, j ≤ t → t < i → CharacterClassifier.isDigit (text.getD t 0) = true) ∧
      (j = ns → 1 < i - ns → text.getD ns 0 ≠ 48) ∧
      v = decValFrom acc (subspan text j i) := by
  intro n
  induction n with
  | zero =>
    intro j acc v h1 h2 h3 hloop
    have hji : j = i := by omega
    subst hji
    rw [h1] at hloop
    refine ⟨fun t ht1 ht2 => by omega, fun hj hlt => by omega, ?_⟩
    rw [subspan_nil text j j (le_refl j)]
    simpa [DomainPartValidator.ipv4DigitLoop, decValFrom] using hloop.symm
  | succ n ih =>
    intro j acc v h1 h2 h3 hloop
    have hji : j < i := by omega
    rw [h1] at hloop
    simp only [DomainPartValidator.ipv4DigitLoop] at hloop
    rw [if_pos hji] at hloop
    by_cases hdj : CharacterClassifier.isDigit (text.getD j 0) = true
    · rw [show (!CharacterClassifier.isDigit (text.getD j 0)) = false from by rw [hdj]; rfl] at hloop
      simp only [Bool.false_eq_true, if_false] at hloop
      by_cases hzt : (j - ns == 0 && text.getD j 0 == 48 && decide (i - ns > 1)) = true
      · rw [hzt] at hloop; simp at hloop
      · rw [Bool.not_eq_true] at hzt
        rw [hzt] at hloop
        simp only [Bool.false_eq_true, if_false] at hloop
        by_cases hof : acc > (2147483647 - (text.getD j 0 - 48)) / 10
        · rw [if_pos hof] at hloop; simp at hloop
        · rw [if_neg hof] at hloop
          rw [show j - ns + 1 = (j + 1) - ns from by omega] at hloop
          have hloop2 : DomainPartValidator.ipv4DigitLoop text ns i (i - (j+1)) (j+1)
              (acc * 10 + (text.getD j 0 - 48)) ((j+1) - ns) = some v := by
            rw [show i - (j+1) = n from by omega]
            exact hloop
          obtain ⟨ha, _, hc⟩ := ih (j+1) _ v (by omega) (by omega) (by omega) hloop2
          refine ⟨?_, ?_, ?_⟩
          · intro t ht1 ht2
            rcases Nat.eq_or_lt_of_le ht1 with he | he
            · subst he; exact hdj
            · exact ha t he ht2
          · intro hjn hlt
            subst hjn
            intro h48
            apply absurd hzt
            simp only [Bool.not_eq_false, Bool.and_eq_true, beq_iff_eq, decide_eq_true_eq]
            exact ⟨⟨by omega, h48⟩, hlt⟩
          · rw [subspan_cons text j i hji hi]
            rw [hc]
            rfl
    · rw [Bool.not_eq_true] at hdj
      rw [show (!CharacterClassifier.isDigit (text.getD j 0)) = true from by rw [hdj]; rfl] at hloop
      simp at hloop

theorem ipv4_octet_iff (text : List Nat) (ns i : Nat) (hns : ns < i) (hi : i ≤ text.length) :
    (∃ v, DomainPartValidator.ipv4DigitLoop text ns i (i - ns) ns 0 0 = some v ∧ v ≤ 255) ↔
      specOctet (subspan text ns i) = true := by
  have hhead : (subspan text ns i).headD 0 = text.getD ns 0 := by
    rw [subspan_cons text ns i hns hi]
    rfl
  have hlen : (subspan text ns i).length = i - ns := subspan_length text ns i hi
  constructor
  · rintro ⟨v, hloop, hv⟩
    have hloop2 : DomainPartValidator.ipv4DigitLoop text ns i (i - ns) ns 0 (ns - ns) = some v := by
      rw [Nat.sub_self]; exact hloop
    obtain ⟨hdig, hzc, hval⟩ :=
      ipv4DigitLoop_sound text ns i hi (i - ns) ns 0 v rfl (le_refl ns) (by omega) hloop2
    rw [specOctet_iff]
    refine ⟨?_, ?_, ?_, ?_⟩
    · intro hcon
      rw [hcon] at hlen
      simp at hlen
      omega
    · intro c hc
      rw [mem_subspan text ns i c hi] at hc
      obtain ⟨t, ht1, ht2, ht3⟩ := hc
      rw [← ht3]
      exact hdig t ht1 ht2
    · intro h48
      rw [hhead] at h48
      have := hzc rfl
      rw [hlen]
      by_cases hgt : 1 < i - ns
      · exact absurd h48 (this hgt)
      · omega
    · rw [show decVal (subspan text ns i) = decValFrom 0 (subspan text ns i) from rfl, ← hval]
      exact hv
  · intro hspec
    rw [specOctet_iff] at hspec
    obtain ⟨h1, h2, h3, h4⟩ := hspec
    have hd : ∀ t, ns ≤ t → t < i → CharacterClassifier.isDigit (text.getD t 0) = true := by
      intro t ht1 ht2
      exact h2 _ ((mem_subspan text ns i _ hi).mpr ⟨t, ht1, ht2, rfl⟩)
    have hz : text.getD ns 0 = 48 → i - ns = 1 := by
      intro h48
      rw [← hlen]
      exact h3 (by rw [hhead]; exact h48)
    have := ipv4DigitLoop_complete text ns i hi hd hz h4 (i - ns) ns rfl (le_refl ns) (by omega)
    rw [subspan_nil text ns ns (le_refl ns)] at this
    rw [show decVal [] = 0 from rfl, Nat.sub_self] at this
    exact ⟨decVal (subspan text ns i), this, h4⟩

theorem specGroups_zero (l : List Nat) : specGroups l 0 = false := by
  unfold specGroups
  rw [show ((splitDots l).length == 0) = false from by
    simp only [beq_eq_false_iff_ne, ne_eq, List.length_eq_zero]
    exact splitDots_ne_nil l]
  simp

theorem specGroups_nil (n : Nat) : specGroups [] n = false := by
  unfold specGroups
  rw [show splitDots ([] : List Nat) = [[]] from rfl]
  rw [List.all_cons, show specOctet [] = false from rfl]
  simp

theorem specGroups_leading_dot (l2 : List Nat) (n : Nat) : specGroups (46 :: l2) n = false := by
  unfold specGroups
  rw [show splitDots (46 :: l2) = [] :: splitDots l2 from by simp [splitDots]]
  rw [List.all_cons, show specOctet [] = false from rfl]
  simp

theorem specGroups_cons_eq (l1 l2 : List Nat) (n : Nat) (h : ∀ c ∈ l1, c ≠ 46) :
    specGroups (l1 ++ 46 :: l2) n =
      (((splitDots l2).length + 1 == n) && (specOctet l1 && (splitDots l2).all specOctet)) := by
  unfold specGroups
  rw [splitDots_first_dot l1 l2 h, List.length_cons, List.all_cons]

theorem specGroups_no_dot_eq (l : List Nat) (n : Nat) (h : ∀ c ∈ l, c ≠ 46) :
    specGroups l n = ((1 == n) && specOctet l) := by
  unfold specGroups
  rw [splitDots_no_dot l h, List.length_singleton, List.all_cons, List.all_nil, Bool.and_true]

/-- Packaging of the final checks of `validateIPv4`. -/
theorem ipv4Loop_walk (text : List Nat) (e k ns : Nat) (hk : k < 4) :
    ∀ m d j fuel, d - j = m → j ≤ d → d ≤ e →
      (∀ t, j ≤ t → t < d → text.getD t 0 ≠ 46) →
      DomainPartValidator.ipv4Loop text e (fuel + (d - j)) j k ns =
        DomainPartValidator.ipv4Loop text e fuel d k ns := by
  intro m
  induction m with
  | zero =>
    intro d j fuel h1 h2 h3 h4
    have : j = d := by omega
    subst this
    rw [h1]
    rfl
  | succ m ih =>
    intro d j fuel h1 h2 h3 h4
    have hjd : j < d := by omega
    rw [h1, show fuel + (m + 1) = (fuel + m) + 1 from by omega]
    simp only [DomainPartValidator.ipv4Loop]
    rw [if_pos (by simp only [Bool.and_eq_true, decide_eq_true_eq]; omega)]
    rw [if_neg (by
      simp only [Bool.or_eq_true, beq_iff_eq, not_or]
      exact ⟨by omega, h4 j (le_refl j) hjd⟩)]
    have := ih d (j+1) fuel (by omega) (by omega) h3 (fun t ht1 ht2 => h4 t (by omega) ht2)
    rw [show d - (j+1) = m from by omega] at this
    exact this

theorem ipv4Loop_exit (text : List Nat) (e fuel i k ns : Nat)
    (h : ¬(i ≤ e ∧ k < 4)) :
    DomainPartValidator.ipv4Loop text e fuel i k ns = some (k, ns) := by
  cases fuel with
  | zero => rfl
  | succ fuel =>
    simp only [DomainPartValidator.ipv4Loop]
    rw [if_neg (by simp only [Bool.and_eq_true, decide_eq_true_eq]; exact h)]

theorem ipv4Loop_groups (text : List Nat) (e : Nat) (he : e ≤ text.length) (he1 : 1 ≤ e) :
    ∀ N j k, e - j = N → j ≤ e →
      ipv4Post e (DomainPartValidator.ipv4Loop text e (e - j + 2) j k j) =
        specGroups (subspan text j e) (4 - k) := by
  intro N
  induction N using Nat.strong_induction_on with
  | _ N ih =>
    intro j k h1 h2
    by_cases hk : k < 4
    · by_cases hdot : ∃ d, (j ≤ d ∧ d < e) ∧ text.getD d 0 = 46
      · -- there is a dot ahead: take the least one
        have hex : ∃ d, (j ≤ d ∧ d < e) ∧ text.getD d 0 = 46 ∧
            (∀ t, j ≤ t → t < d → text.getD t 0 ≠ 46) := by
          obtain ⟨⟨hg1, hg2⟩, hg3⟩ := Nat.find_spec hdot
          refine ⟨Nat.find hdot, ⟨hg1, hg2⟩, hg3, ?_⟩
          intro t ht1 ht2 hcon
          exact Nat.find_min hdot ht2 ⟨⟨ht1, by omega⟩, hcon⟩
        obtain ⟨d, ⟨hd1, hd2⟩, hd3, hmin⟩ := hex
        obtain ⟨F, hF⟩ : ∃ F, F = e - d + 1 := ⟨_, rfl⟩
        have hwalk := ipv4Loop_walk text e k j hk (d - j) d j (F + 1) rfl hd1 (by omega) hmin
        rw [show e - j + 2 = F + 1 + (d - j) from by omega, hwalk]
        simp only [DomainPartValidator.ipv4Loop]
        rw [if_pos (by simp only [Bool.and_eq_true, decide_eq_true_eq]; omega)]
        rw [if_pos (by simp only [Bool.or_eq_true, beq_iff_eq]; exact Or.inr hd3)]
        rw [subspan_split text j d e hd1 hd2 he, hd3]
        by_cases hjd : j = d
        · -- empty first group
          rw [if_pos (by simp only [Bool.or_eq_true, beq_iff_eq]; exact Or.inl hjd.symm)]
          rw [← hjd, subspan_nil text j j (le_refl j)]
          simp only [List.nil_append]
          rw [specGroups_leading_dot]
          rfl
        · rw [if_neg (by
            simp only [Bool.or_eq_true, beq_iff_eq, decide_eq_true_eq, not_or]
            constructor
            · omega
            · omega)]
          rw [specGroups_cons_eq _ _ _ (by
            intro c hc
            rw [mem_subspan text j d c (by omega)] at hc
            obtain ⟨t, ht1, ht2, ht3⟩ := hc
            rw [← ht3]
            exact hmin t ht1 ht2)]
          by_cases hspec : specOctet (subspan text j d) = true
          · obtain ⟨v, hl, hv⟩ := (ipv4_octet_iff text j d (by omega) (by omega)).mpr hspec
            rw [hl]
            dsimp only
            rw [if_neg (by omega)]
            rw [show F = e - (d + 1) + 2 from by omega]
            have hrec := ih (e - (d+1)) (by omega) (d+1) (k+1) rfl (by omega)
            rw [hrec]
            rw [hspec]
            simp only [Bool.true_and]
            unfold specGroups
            congr 1
            rw [Bool.eq_iff_iff]
            simp only [beq_iff_eq]
            omega
          · rw [Bool.not_eq_true] at hspec
            have hno : ∀ v, DomainPartValidator.ipv4DigitLoop text j d (d - j) j 0 0 = some v → ¬ v ≤ 255 := by
              intro v hl hle
              rw [(ipv4_octet_iff text j d (by omega) (by omega)).mp ⟨v, hl, hle⟩] at hspec
              simp at hspec
            rcases hl : DomainPartValidator.ipv4DigitLoop text j d (d - j) j 0 0 with _ | v
            · dsimp only
              rw [hspec]
              simp [ipv4Post]
            · dsimp only
              rw [if_pos (by have := hno v hl; omega)]
              rw [hspec]
              simp [ipv4Post]
      · -- no dot in [j, e)
        push_neg at hdot
        have hnd : ∀ t, j ≤ t → t < e → text.getD t 0 ≠ 46 := by
          intro t ht1 ht2
          exact hdot t ⟨ht1, ht2⟩
        obtain ⟨F, hF⟩ : ∃ F, F = (1 : Nat) := ⟨_, rfl⟩
        have hwalk := ipv4Loop_walk text e k j hk (e - j) e j (F + 1) rfl h2 (le_refl e) hnd
        rw [show e - j + 2 = F + 1 + (e - j) from by omega, hwalk]
        simp only [DomainPartValidator.ipv4Loop]
        rw [if_pos (by simp only [Bool.and_eq_true, decide_eq_true_eq]; omega)]
        rw [if_pos (by simp)]
        by_cases hje : j = e
        · rw [if_pos (by simp only [Bool.or_eq_true, beq_iff_eq]; exact Or.inl hje.symm)]
          rw [← hje, subspan_nil text j j (le_refl j)]
          rw [specGroups_nil]
          rfl
        · rw [if_neg (by
            simp only [Bool.or_eq_true, beq_iff_eq, decide_eq_true_eq, not_or]
            constructor
            · omega
            · omega)]
          rw [specGroups_no_dot_eq _ _ (by
            intro c hc
            rw [mem_subspan text j e c he] at hc
            obtain ⟨t, ht1, ht2, ht3⟩ := hc
            rw [← ht3]
            exact hnd t ht1 ht2)]
          by_cases hspec : specOctet (subspan text j e) = true
          · obtain ⟨v, hl, hv⟩ := (ipv4_octet_iff text j e (by omega) he).mpr hspec
            rw [hl]
            dsimp only
            rw [if_neg (by omega)]
            rw [ipv4Loop_exit text e F (e+1) (k+1) (e+1) (by omega)]
            rw [hspec]
            simp only [Bool.and_true]
            unfold ipv4Post
            dsimp only
            rw [show (e + 1 - 1 == e) = true from by simp]
            simp only [Bool.and_true]
            rw [Bool.eq_iff_iff]
            simp only [beq_iff_eq]
            omega
          · rw [Bool.not_eq_true] at hspec
            have hno : ∀ v, DomainPartValidator.ipv4DigitLoop text j e (e - j) j 0 0 = some v → ¬ v ≤ 255 := by
              intro v hl hle
              rw [(ipv4_octet_iff text j e (by omega) he).mp ⟨v, hl, hle⟩] at hspec
              simp at hspec
            rcases hl : DomainPartValidator.ipv4DigitLoop text j e (e - j) j 0 0 with _ | v
            · dsimp only
              rw [hspec]
              simp [ipv4Post]
            · dsimp only
              rw [if_pos (by have := hno v hl; omega)]
              rw [hspec]
              simp [ipv4Post]
    · -- k ≥ 4: the loop exits at once and the group count cannot match
      rw [ipv4Loop_exit text e (e - j + 2) j k j (by omega)]
      rw [show 4 - k = 0 from by omega, specGroups_zero]
      unfold ipv4Post
      rw [Bool.eq_false_iff]
      intro hcon
      simp only [Bool.and_eq_true, beq_iff_eq] at hcon
      omega

/-- C6: `validateIPv4` accepts a range exactly when the spec's reading does:
the range splits on `.` into exactly 4 nonempty decimal groups, none with a
leading zero except a lone `0`, each of value at most 255, the whole range
being consumed.  (The overflow guard of the source is reproduced in the
model as the test `octet > (2147483647 - digit) / 10`, which rejects before
the mathematical value can exceed the C++ accumulator range.) -/
theorem C6_validateIPv4_iff (text : List Nat) (s e : Nat) (he : e ≤ text.length) :
    DomainPartValidator.validateIPv4 text s e = specIPv4 (subspan text s e) := by
  rw [specIPv4_eq_specGroups]
  unfold DomainPartValidator.validateIPv4
  by_cases hse : s < e
  · rw [if_neg (by
      simp only [Bool.or_eq_true, decide_eq_true_eq, not_or]
      constructor <;> omega)]
    have := ipv4Loop_groups text e he (by omega) (e - s) s 0 rfl (by omega)
    rw [show (4 : Nat) - 0 = 4 from rfl] at this
    rw [← this]
    unfold ipv4Post
    rcases DomainPartValidator.ipv4Loop text e (e - s + 2) s 0 s with _ | ⟨oi, ns2⟩
    · rfl
    · dsimp only
      by_cases h4 : oi = 4
      · subst h4
        simp only [beq_self_eq_true, Bool.true_and]
        rw [show (4 != 4) = false from rfl]
        simp only [Bool.false_eq_true, if_false]
        by_cases hns : ns2 - 1 = e
        · rw [if_neg (by simpa using hns), show (ns2 - 1 == e) = true from by simpa using hns]
        · rw [if_pos (by simpa using hns), show (ns2 - 1 == e) = false from by simpa using hns]
      · rw [if_pos (by simpa using h4), show (oi == 4) = false from by simpa using h4]
        simp
  · rw [if_pos (by
      simp only [Bool.or_eq_true, decide_eq_true_eq]
      omega)]
    rw [subspan_nil text s e (by omega)]
    rw [show specGroups [] 4 = false from by decide]

/-- C6 witness: `192.168.1.1` parses on both sides, `999.168.1.1` on neither. -/
theorem C6_validateIPv4_iff_witness :
    DomainPartValidator.validateIPv4 (bytes "192.168.1.1") 0 11 =
      specIPv4 (subspan (bytes "192.168.1.1") 0 11) ∧
    DomainPartValidator.validateIPv4 (bytes "999.168.1.1") 0 11 =
      specIPv4 (subspan (bytes "999.168.1.1") 0 11) :=
  ⟨C6_validateIPv4_iff (bytes "192.168.1.1") 0 11 (by decide),
   C6_validateIPv4_iff (bytes "999.168.1.1") 0 11 (by decide)⟩

/-!  #### C5: the dot-labeled domain path against the spec predicate -/

theorem subspan_headD (text : List Nat) (s e : Nat) (h : s < e) (he : e ≤ text.length) :
    (subspan text s e).headD 0 = text.getD s 0 := by
  rw [subspan_cons text s e h he]
  rfl

theorem subspan_getLastD (text : List Nat) (s e : Nat) (h : s < e) (he : e ≤ text.length) :
    (subspan text s e).getLastD 0 = text.getD (e-1) 0 := by
  have h2 : subspan text s e = subspan text s (e-1) ++ [text.getD (e-1) 0] := by
    have := subspan_snoc text s (e-1) (by omega) (by omega)
    rw [show e - 1 + 1 = e from by omega] at this
    exact this
  rw [h2, List.getLastD_concat]

theorem noConsecDots_iff (l : List Nat) : noConsecDots l = true ↔
    ∀ idx, idx + 1 < l.length → ¬(l.getD idx 0 = 46 ∧ l.getD (idx + 1) 0 = 46) := by
  induction l with
  | nil => simp [noConsecDots]
  | cons c1 rest ih =>
    cases rest with
    | nil =>
      simp only [noConsecDots, List.length_cons, List.length_nil]
      constructor
      · intro _ idx hidx
        omega
      · intro _
        trivial
    | cons c2 rest2 =>
      rw [show noConsecDots (c1 :: c2 :: rest2) =
          (!(c1 == 46 && c2 == 46) && noConsecDots (c2 :: rest2)) from rfl]
      rw [Bool.and_eq_true, ih]
      constructor
      · rintro ⟨h1, h2⟩ idx hidx
        cases idx with
        | zero =>
          intro ⟨ha, hb⟩
          rw [show (c1 :: c2 :: rest2).getD 0 0 = c1 from rfl] at ha
          rw [show (c1 :: c2 :: rest2).getD 1 0 = c2 from rfl] at hb
          subst ha
          subst hb
          simp at h1
        | succ idx =>
          intro ⟨ha, hb⟩
          refine h2 idx (by simpa using hidx) ⟨?_, ?_⟩
          · simpa using ha
          · simpa using hb
      · intro h
        constructor
        · have h0 := h 0 (by simp only [List.length_cons]; omega)
          rw [Bool.not_eq_true']
          rw [Bool.and_eq_false_iff]
          by_cases hc1 : c1 = 46
          · by_cases hc2 : c2 = 46
            · exfalso
              refine h0 ⟨?_, ?_⟩
              · simpa [List.getD_cons_zero] using hc1
              · simpa [List.getD_cons_succ, List.getD_cons_zero] using hc2
            · exact Or.inr (by simpa using hc2)
          · exact Or.inl (by simpa using hc1)
        · intro idx hidx
          intro ⟨ha, hb⟩
          refine h (idx + 1) (by simpa using hidx) ⟨?_, ?_⟩
          · simpa using ha
          · simpa using hb

/-- `splitDots` of a list whose final segment (after the last dot) is
dot-free: the split is the split of the front followed by that segment. -/
theorem splitDots_last_dot (l1 l2 : List Nat) (h : ∀ c ∈ l2, c ≠ 46) :
    splitDots (l1 ++ 46 :: l2) = splitDots l1 ++ [l2] := by
  induction l1 with
  | nil =>
    simp only [List.nil_append, splitDots]
    rw [if_pos (by simp)]
    rw [splitDots_no_dot l2 h]
    rfl
  | cons c rest ih =>
    simp only [List.cons_append, splitDots]
    by_cases hc : (c == 46) = true
    · rw [if_pos hc, if_pos hc]
      rw [show List.append rest (46 :: l2) = rest ++ 46 :: l2 from rfl, ih]
      rfl
    · rw [if_neg hc, if_neg hc]
      rw [show List.append rest (46 :: l2) = rest ++ 46 :: l2 from rfl, ih]
      rcases hs : splitDots rest with _ | ⟨g, gs⟩
      · exact absurd hs (splitDots_ne_nil rest)
      · rfl

theorem labelCharLoop_iff (text : List Nat) (stop : Nat) :
    ∀ n jj, stop - jj = n →
      (DomainPartValidator.labelCharLoop text stop (stop - jj) jj = true ↔
        ∀ t, jj ≤ t → t < stop →
          (CharacterClassifier.isAlphaNum (text.getD t 0) || text.getD t 0 == 45) = true) := by
  intro n
  induction n with
  | zero =>
    intro jj h1
    rw [h1]
    simp only [DomainPartValidator.labelCharLoop]
    constructor
    · intro _ t ht1 ht2
      omega
    · intro _
      trivial
  | succ n ih =>
    intro jj h1
    rw [h1]
    simp only [DomainPartValidator.labelCharLoop]
    rw [if_pos (by omega)]
    by_cases hc : (!CharacterClassifier.isAlphaNum (text.getD jj 0) && text.getD jj 0 != 45) = true
    · rw [if_pos hc]
      constructor
      · intro hcon
        exact absurd hcon (by simp)
      · intro h
        have := h jj (le_refl jj) (by omega)
        simp only [Bool.and_eq_true, Bool.not_eq_true', bne_iff_ne, ne_eq] at hc
        simp only [Bool.or_eq_true, beq_iff_eq] at this
        rcases this with hx | hx
        · rw [hc.1] at hx
          exact absurd hx (by simp)
        · exact absurd hx hc.2
    · rw [Bool.not_eq_true] at hc
      rw [hc]
      simp only [Bool.false_eq_true, if_false]
      have hih := ih (jj + 1) (by omega)
      rw [show stop - (jj + 1) = n from by omega] at hih
      rw [hih]
      simp only [Bool.and_eq_false_iff, bne_eq_false_iff_eq] at hc
      constructor
      · intro h t ht1 ht2
        rcases Nat.eq_or_lt_of_le ht1 with he | he
        · subst he
          rcases hc with hx | hx
          · have halnum : CharacterClassifier.isAlphaNum (text.getD jj 0) = true := by
              revert hx
              cases CharacterClassifier.isAlphaNum (text.getD jj 0) <;> simp
            rw [halnum, Bool.true_or]
          · rw [hx]
            decide
        · exact h t he ht2
      · intro h t ht1 ht2
        exact h t (by omega) ht2

theorem tldLoop_iff (text : List Nat) (e : Nat) :
    ∀ n jj, e - jj = n →
      (DomainPartValidator.tldLoop text e (e - jj) jj = true ↔
        ∀ t, jj ≤ t → t < e → CharacterClassifier.isAlphaNum (text.getD t 0) = true) := by
  intro n
  induction n with
  | zero =>
    intro jj h1
    rw [h1]
    simp only [DomainPartValidator.tldLoop]
    constructor
    · intro _ t ht1 ht2
      omega
    · intro _
      trivial
  | succ n ih =>
    intro jj h1
    rw [h1]
    simp only [DomainPartValidator.tldLoop]
    rw [if_pos (by omega)]
    by_cases hc : CharacterClassifier.isAlphaNum (text.getD jj 0) = true
    · rw [show (!CharacterClassifier.isAlphaNum (text.getD jj 0)) = false from by rw [hc]; rfl]
      simp only [Bool.false_eq_true, if_false]
      have hih := ih (jj + 1) (by omega)
      rw [show e - (jj + 1) = n from by omega] at hih
      rw [hih]
      constructor
      · intro h t ht1 ht2
        rcases Nat.eq_or_lt_of_le ht1 with hx | hx
        · subst hx
          exact hc
        · exact h t hx ht2
      · intro h t ht1 ht2
        exact h t (by omega) ht2
    · rw [Bool.not_eq_true] at hc
      rw [show (!CharacterClassifier.isAlphaNum (text.getD jj 0)) = true from by rw [hc]; rfl]
      simp only [if_true]
      constructor
      · intro hcon
        exact absurd hcon (by simp)
      · intro h
        have := h jj (le_refl jj) (by omega)
        rw [hc] at this
        exact absurd this (by simp)

theorem specLabel_iff (g : List Nat) : specLabel g = true ↔
    1 ≤ g.length ∧ g.length ≤ 63 ∧
    (∀ c ∈ g, (CharacterClassifier.isAlphaNum c || c == 45) = true) ∧
    g.headD 0 ≠ 45 ∧ g.getLastD 0 ≠ 45 := by
  unfold specLabel
  simp only [Bool.and_eq_true, List.all_eq_true, bne_iff_ne, ne_eq, decide_eq_true_eq]
  tauto

theorem labelsDotLoop_iff (text : List Nat) (e : Nat) (he : e ≤ text.length) :
    ∀ n i prevDot, e - i = n →
      (DomainPartValidator.labelsDotLoop text e (e - i) i prevDot = true ↔
        ((prevDot = true → i < e → text.getD i 0 ≠ 46) ∧
         ∀ t, i ≤ t → t + 1 < e → ¬(text.getD t 0 = 46 ∧ text.getD (t+1) 0 = 46))) := by
  intro n
  induction n with
  | zero =>
    intro i prevDot h1
    rw [h1]
    simp only [DomainPartValidator.labelsDotLoop]
    constructor
    · intro _
      exact ⟨fun _ hlt => by omega, fun t ht1 ht2 => by omega⟩
    · intro _
      trivial
  | succ n ih =>
    intro i prevDot h1
    rw [h1]
    simp only [DomainPartValidator.labelsDotLoop]
    rw [if_pos (by omega), if_neg (by omega)]
    have hih := ih (i+1)
    by_cases hdot : text.getD i 0 = 46
    · rw [if_pos (by simpa using hdot)]
      cases prevDot with
      | true =>
        rw [if_pos rfl]
        constructor
        · intro hcon
          exact absurd hcon (by simp)
        · rintro ⟨hp, _⟩
          exact absurd hdot (hp rfl (by omega))
      | false =>
        rw [if_neg (by simp)]
        have := hih true (by omega)
        rw [show e - (i+1) = n from by omega] at this
        rw [this]
        constructor
        · rintro ⟨hp, hpairs⟩
          refine ⟨fun hcon _ => by simp at hcon, ?_⟩
          intro t ht1 ht2
          rcases Nat.eq_or_lt_of_le ht1 with hx | hx
          · subst hx
            rintro ⟨_, hb⟩
            exact hp rfl (by omega) hb
          · exact hpairs t hx ht2
        · rintro ⟨_, hpairs⟩
          refine ⟨fun _ hlt hcon => hpairs i (le_refl i) (by omega) ⟨hdot, hcon⟩, ?_⟩
          intro t ht1 ht2
          exact hpairs t (by omega) ht2
    · rw [if_neg (by simpa using hdot)]
      have := hih false (by omega)
      rw [show e - (i+1) = n from by omega] at this
      rw [this]
      constructor
      · rintro ⟨_, hpairs⟩
        refine ⟨fun _ _ => hdot, ?_⟩
        intro t ht1 ht2
        rcases Nat.eq_or_lt_of_le ht1 with hx | hx
        · subst hx
          rintro ⟨ha, _⟩
          exact hdot ha
        · exact hpairs t hx ht2
      · rintro ⟨_, hpairs⟩
        refine ⟨fun hcon _ => by simp at hcon, ?_⟩
        intro t ht1 ht2
        exact hpairs t (by omega) ht2

theorem lastDotLoop_none (text : List Nat) (s : Nat) :
    ∀ n iPlus, iPlus - s = n →
      (∀ t, s ≤ t → t < iPlus → text.getD t 0 ≠ 46) →
      DomainPartValidator.lastDotLoop text s (iPlus - s) iPlus = none := by
  intro n
  induction n with
  | zero =>
    intro iPlus h1 _
    rw [h1]
    rfl
  | succ n ih =>
    intro iPlus h1 hnd
    rw [h1]
    simp only [DomainPartValidator.lastDotLoop]
    rw [if_pos (by omega)]
    rw [if_neg (by
      simp only [beq_iff_eq]
      exact hnd (iPlus - 1) (by omega) (by omega))]
    have := ih (iPlus - 1) (by omega) (fun t ht1 ht2 => hnd t ht1 (by omega))
    rw [show iPlus - 1 - s = n from by omega] at this
    exact this

theorem lastDotLoop_some (text : List Nat) (s d : Nat) (hd : text.getD d 0 = 46) (hsd : s ≤ d) :
    ∀ n iPlus, iPlus - s = n → d < iPlus →
      (∀ t, d < t → t < iPlus → text.getD t 0 ≠ 46) →
      DomainPartValidator.lastDotLoop text s (iPlus - s) iPlus = some d := by
  intro n
  induction n with
  | zero =>
    intro iPlus h1 h2 _
    omega
  | succ n ih =>
    intro iPlus h1 h2 hnd
    rw [h1]
    simp only [DomainPartValidator.lastDotLoop]
    rw [if_pos (by omega)]
    by_cases hx : iPlus - 1 = d
    · rw [if_pos (by rw [hx]; simpa using hd)]
      rw [hx]
    · rw [if_neg (by
        simp only [beq_iff_eq]
        exact hnd (iPlus - 1) (by omega) (by omega))]
      have := ih (iPlus - 1) (by omega) (by omega) (fun t ht1 ht2 => hnd t ht1 (by omega))
      rw [show iPlus - 1 - s = n from by omega] at this
      exact this

theorem labelLoop_exit (text : List Nat) (e fuel i ls cnt : Nat) (h : e < i) :
    DomainPartValidator.labelLoop text e fuel i ls cnt = some cnt := by
  cases fuel with
  | zero => rfl
  | succ fuel =>
    simp only [DomainPartValidator.labelLoop]
    rw [if_neg (by omega)]

theorem labelLoop_walk (text : List Nat) (e ls cnt : Nat) :
    ∀ m d i fuel, d - i = m → i ≤ d → d ≤ e →
      (∀ t, i ≤ t → t < d → text.getD t 0 ≠ 46) →
      DomainPartValidator.labelLoop text e (fuel + (d - i)) i ls cnt =
        DomainPartValidator.labelLoop text e fuel d ls cnt := by
  intro m
  induction m with
  | zero =>
    intro d i fuel h1 h2 h3 h4
    have : i = d := by omega
    subst this
    rw [h1]
    rfl
  | succ m ih =>
    intro d i fuel h1 h2 h3 h4
    have hid : i < d := by omega
    rw [h1, show fuel + (m + 1) = (fuel + m) + 1 from by omega]
    simp only [DomainPartValidator.labelLoop]
    rw [if_pos (by omega)]
    rw [if_neg (by
      simp only [Bool.or_eq_true, beq_iff_eq, not_or]
      exact ⟨by omega, h4 i (le_refl i) hid⟩)]
    have := ih d (i+1) fuel (by omega) (by omega) h3 (fun t ht1 ht2 => h4 t (by omega) ht2)
    rw [show d - (i+1) = m from by omega] at this
    exact this

theorem specLabel_subspan (text : List Nat) (j d : Nat) (hjd : j < d) (hd : d ≤ text.length) :
    specLabel (subspan text j d) = true ↔
      (d - j ≤ 63 ∧ text.getD j 0 ≠ 45 ∧ text.getD (d-1) 0 ≠ 45 ∧
       DomainPartValidator.labelCharLoop text d (d - j) j = true) := by
  rw [specLabel_iff]
  rw [subspan_length text j d hd, subspan_headD text j d hjd hd, subspan_getLastD text j d hjd hd]
  have hchar := labelCharLoop_iff text d (d - j) j rfl
  constructor
  · rintro ⟨h1, h2, h3, h4, h5⟩
    refine ⟨h2, h4, h5, ?_⟩
    rw [hchar]
    intro t ht1 ht2
    refine h3 _ ?_
    rw [mem_subspan text j d _ hd]
    exact ⟨t, ht1, ht2, rfl⟩
  · rintro ⟨h1, h2, h3, h4⟩
    refine ⟨by omega, h1, ?_, h2, h3⟩
    intro c hc
    rw [mem_subspan text j d c hd] at hc
    obtain ⟨t, ht1, ht2, ht3⟩ := hc
    rw [← ht3]
    exact (hchar.mp h4) t ht1 ht2

theorem labelLoop_groups (text : List Nat) (e : Nat) (he : e ≤ text.length) :
    ∀ N j cnt, e - j = N → j ≤ e →
      DomainPartValidator.labelLoop text e (e - j + 2) j j cnt =
        (if (splitDots (subspan text j e)).all specLabel then
            some (cnt + (splitDots (subspan text j e)).length)
          else none) := by
  intro N
  induction N using Nat.strong_induction_on with
  | _ N ih =>
    intro j cnt h1 h2
    by_cases hdot : ∃ d, (j ≤ d ∧ d < e) ∧ text.getD d 0 = 46
    · have hex : ∃ d, (j ≤ d ∧ d < e) ∧ text.getD d 0 = 46 ∧
          (∀ t, j ≤ t → t < d → text.getD t 0 ≠ 46) := by
        obtain ⟨⟨hg1, hg2⟩, hg3⟩ := Nat.find_spec hdot
        refine ⟨Nat.find hdot, ⟨hg1, hg2⟩, hg3, ?_⟩
        intro t ht1 ht2 hcon
        exact Nat.find_min hdot ht2 ⟨⟨ht1, by omega⟩, hcon⟩
      obtain ⟨d, ⟨hd1, hd2⟩, hd3, hmin⟩ := hex
      obtain ⟨F, hF⟩ : ∃ F, F = e - d + 1 := ⟨_, rfl⟩
      have hwalk := labelLoop_walk text e j cnt (d - j) d j (F + 1) rfl hd1 (by omega) hmin
      rw [show e - j + 2 = F + 1 + (d - j) from by omega, hwalk]
      simp only [DomainPartValidator.labelLoop]
      rw [if_pos (by omega : d ≤ e)]
      rw [if_pos (by simp only [Bool.or_eq_true, beq_iff_eq]; exact Or.inr hd3)]
      rw [show j + (d - j) = d from by omega]
      have hnodot1 : ∀ c ∈ subspan text j d, c ≠ 46 := by
        intro c hc
        rw [mem_subspan text j d c (by omega)] at hc
        obtain ⟨t, ht1, ht2, ht3⟩ := hc
        rw [← ht3]
        exact hmin t ht1 ht2
      rw [subspan_split text j d e hd1 hd2 he, hd3, splitDots_first_dot _ _ hnodot1]
      by_cases hjd : j = d
      · rw [if_pos (by
          simp only [Bool.or_eq_true, beq_iff_eq, decide_eq_true_eq,
            DomainPartValidator.MAX_LABEL_LENGTH]
          omega)]
        rw [show subspan text j d = ([] : List Nat) from by
          rw [← hjd]; exact subspan_nil text j j (le_refl j)]
        rw [List.all_cons, show specLabel ([] : List Nat) = false from rfl, Bool.false_and]
        rw [if_neg (by simp)]
      · have hjd2 : j < d := by omega
        by_cases h63 : d - j > 63
        · rw [if_pos (by
            simp only [Bool.or_eq_true, beq_iff_eq, decide_eq_true_eq,
              DomainPartValidator.MAX_LABEL_LENGTH]
            omega)]
          have hfalse : specLabel (subspan text j d) = false := by
            rw [Bool.eq_false_iff]
            intro hcon
            obtain ⟨_, hlen, _⟩ := (specLabel_iff _).mp hcon
            rw [subspan_length text j d (by omega)] at hlen
            omega
          rw [List.all_cons, hfalse, Bool.false_and]
          rw [if_neg (by simp)]
        · rw [if_neg (by
            simp only [Bool.or_eq_true, beq_iff_eq, decide_eq_true_eq, not_or,
              DomainPartValidator.MAX_LABEL_LENGTH]
            omega)]
          rw [if_neg (by
            simp only [Bool.or_eq_true, decide_eq_true_eq, not_or]
            omega)]
          by_cases hhy : text.getD j 0 = 45 ∨ text.getD (d-1) 0 = 45
          · rw [if_pos (by
              simp only [Bool.or_eq_true, beq_iff_eq]
              exact hhy)]
            have hfalse : specLabel (subspan text j d) = false := by
              rw [Bool.eq_false_iff]
              intro hcon
              obtain ⟨_, h2c, h3c, _⟩ := (specLabel_subspan text j d hjd2 (by omega)).mp hcon
              tauto
            rw [List.all_cons, hfalse, Bool.false_and]
            rw [if_neg (by simp)]
          · rw [if_neg (by
              simp only [Bool.or_eq_true, beq_iff_eq]
              exact hhy)]
            push_neg at hhy
            obtain ⟨h45a, h45b⟩ := hhy
            by_cases hch : DomainPartValidator.labelCharLoop text d (d - j) j = true
            · rw [if_neg (by rw [hch]; decide)]
              rw [show F = e - (d+1) + 2 from by omega]
              have hrec := ih (e - (d+1)) (by omega) (d+1) (cnt+1) rfl (by omega)
              rw [hrec]
              have hg1 : specLabel (subspan text j d) = true := by
                rw [specLabel_subspan text j d hjd2 (by omega)]
                exact ⟨by omega, h45a, h45b, hch⟩
              rw [List.all_cons, hg1, Bool.true_and, List.length_cons]
              by_cases hall : (splitDots (subspan text (d+1) e)).all specLabel = true
              · rw [hall, if_pos rfl, if_pos rfl]
                exact congrArg some (by omega)
              · rw [Bool.not_eq_true] at hall
                rw [hall, if_neg (by simp), if_neg (by simp)]
            · rw [Bool.not_eq_true] at hch
              rw [if_pos (by rw [hch]; decide)]
              have hfalse : specLabel (subspan text j d) = false := by
                rw [Bool.eq_false_iff]
                intro hcon
                obtain ⟨_, _, _, h4c⟩ := (specLabel_subspan text j d hjd2 (by omega)).mp hcon
                rw [hch] at h4c
                exact absurd h4c (by simp)
              rw [List.all_cons, hfalse, Bool.false_and]
              rw [if_neg (by simp)]
    · push_neg at hdot
      have hnd : ∀ t, j ≤ t → t < e → text.getD t 0 ≠ 46 := by
        intro t ht1 ht2
        exact hdot t ⟨ht1, ht2⟩
      obtain ⟨F, hF⟩ : ∃ F, F = (1 : Nat) := ⟨_, rfl⟩
      have hwalk := labelLoop_walk text e j cnt (e - j) e j (F + 1) rfl h2 (le_refl e) hnd
      rw [show e - j + 2 = F + 1 + (e - j) from by omega, hwalk]
      simp only [DomainPartValidator.labelLoop]
      rw [if_pos (le_refl e)]
      rw [if_pos (by simp)]
      rw [show j + (e - j) = e from by omega]
      have hnodot1 : ∀ c ∈ subspan text j e, c ≠ 46 := by
        intro c hc
        rw [mem_subspan text j e c he] at hc
        obtain ⟨t, ht1, ht2, ht3⟩ := hc
        rw [← ht3]
        exact hnd t ht1 ht2
      rw [splitDots_no_dot _ hnodot1]
      by_cases hje : j = e
      · rw [if_pos (by
          simp only [Bool.or_eq_true, beq_iff_eq, decide_eq_true_eq,
            DomainPartValidator.MAX_LABEL_LENGTH]
          omega)]
        rw [show subspan text j e = ([] : List Nat) from by
          rw [hje]; exact subspan_nil text e e (le_refl e)]
        rw [if_neg (by decide)]
      · have hje2 : j < e := by omega
        by_cases h63 : e - j > 63
        · rw [if_pos (by
            simp only [Bool.or_eq_true, beq_iff_eq, decide_eq_true_eq,
              DomainPartValidator.MAX_LABEL_LENGTH]
            omega)]
          have hfalse : specLabel (subspan text j e) = false := by
            rw [Bool.eq_false_iff]
            intro hcon
            obtain ⟨_, hlen, _⟩ := (specLabel_iff _).mp hcon
            rw [subspan_length text j e he] at hlen
            omega
          rw [List.all_cons, hfalse, Bool.false_and]
          rw [if_neg (by simp)]
        · rw [if_neg (by
            simp only [Bool.or_eq_true, beq_iff_eq, decide_eq_true_eq, not_or,
              DomainPartValidator.MAX_LABEL_LENGTH]
            omega)]
          rw [if_neg (by
            simp only [Bool.or_eq_true, decide_eq_true_eq, not_or]
            omega)]
          by_cases hhy : text.getD j 0 = 45 ∨ text.getD (e-1) 0 = 45
          · rw [if_pos (by
              simp only [Bool.or_eq_true, beq_iff_eq]
              exact hhy)]
            have hfalse : specLabel (subspan text j e) = false := by
              rw [Bool.eq_false_iff]
              intro hcon
              obtain ⟨_, h2c, h3c, _⟩ := (specLabel_subspan text j e hje2 he).mp hcon
              tauto
            rw [List.all_cons, hfalse, Bool.false_and]
            rw [if_neg (by simp)]
          · rw [if_neg (by
              simp only [Bool.or_eq_true, beq_iff_eq]
              exact hhy)]
            push_neg at hhy
            obtain ⟨h45a, h45b⟩ := hhy
            by_cases hch : DomainPartValidator.labelCharLoop text e (e - j) j = true
            · rw [if_neg (by rw [hch]; decide)]
              rw [labelLoop_exit text e F (e+1) (e+1) (cnt+1) (by omega)]
              have hg1 : specLabel (subspan text j e) = true := by
                rw [specLabel_subspan text j e hje2 he]
                exact ⟨by omega, h45a, h45b, hch⟩
              rw [List.all_cons, hg1, Bool.true_and]
              simp
            · rw [Bool.not_eq_true] at hch
              rw [if_pos (by rw [hch]; decide)]
              have hfalse : specLabel (subspan text j e) = false := by
                rw [Bool.eq_false_iff]
                intro hcon
                obtain ⟨_, _, _, h4c⟩ := (specLabel_subspan text j e hje2 he).mp hcon
                rw [hch] at h4c
                exact absurd h4c (by simp)
              rw [List.all_cons, hfalse, Bool.false_and]
              rw [if_neg (by simp)]

theorem specDomain_iff (l : List Nat) : specDomain l = true ↔
    (1 ≤ l.length ∧ l.length ≤ 253 ∧
     l.headD 0 ≠ 46 ∧ l.headD 0 ≠ 45 ∧ l.getLastD 0 ≠ 46 ∧ l.getLastD 0 ≠ 45 ∧
     noConsecDots l = true ∧ (splitDots l).all specLabel = true ∧
     ((splitDots l).length = 1 ∨
      ((splitDots l).getLastD []).all CharacterClassifier.isAlphaNum = true)) := by
  unfold specDomain
  simp only [Bool.and_eq_true, Bool.or_eq_true, bne_iff_ne, ne_eq, decide_eq_true_eq,
    beq_iff_eq]
  tauto

theorem labelsDot_eq_noConsecDots (text : List Nat) (s e : Nat) (he : e ≤ text.length) :
    DomainPartValidator.labelsDotLoop text e (e - s) s false =
      noConsecDots (subspan text s e) := by
  rw [Bool.eq_iff_iff, labelsDotLoop_iff text e he (e - s) s false rfl, noConsecDots_iff]
  constructor
  · rintro ⟨_, hp⟩ idx hidx
    rw [subspan_length text s e he] at hidx
    rw [subspan_getD text s e idx 0 (by omega) he,
        subspan_getD text s e (idx+1) 0 (by omega) he]
    rintro ⟨ha, hb⟩
    refine hp (s + idx) (by omega) (by omega) ⟨ha, ?_⟩
    rw [show s + idx + 1 = s + (idx + 1) from by omega]
    exact hb
  · intro hp
    refine ⟨fun hcon => by simp at hcon, ?_⟩
    rintro t ht1 ht2 ⟨ha, hb⟩
    have := hp (t - s) (by rw [subspan_length text s e he]; omega)
    rw [subspan_getD text s e (t-s) 0 (by omega) he,
        subspan_getD text s e (t-s+1) 0 (by omega) he,
        show s + (t - s) = t from by omega,
        show s + (t - s + 1) = t + 1 from by omega] at this
    exact this ⟨ha, hb⟩

theorem validateDomainLabels_eq_specDomain (text : List Nat) (s e : Nat)
    (hse : s < e) (he : e ≤ text.length) :
    DomainPartValidator.validateDomainLabels text s e = specDomain (subspan text s e) := by
  simp only [DomainPartValidator.validateDomainLabels]
  by_cases h253 : e - s > 253
  · rw [if_pos (by
      simp only [Bool.or_eq_true, decide_eq_true_eq, DomainPartValidator.MAX_DOMAIN_PART]
      omega)]
    symm
    rw [Bool.eq_false_iff]
    intro hcon
    obtain ⟨_, hlen, _⟩ := (specDomain_iff _).mp hcon
    rw [subspan_length text s e he] at hlen
    omega
  · rw [if_neg (by
      simp only [Bool.or_eq_true, decide_eq_true_eq, DomainPartValidator.MAX_DOMAIN_PART,
        not_or]
      omega)]
    have hH := subspan_headD text s e hse he
    have hL := subspan_getLastD text s e hse he
    by_cases hends : text.getD s 0 = 46 ∨ text.getD s 0 = 45 ∨
        text.getD (e-1) 0 = 46 ∨ text.getD (e-1) 0 = 45
    · rw [if_pos (by simp only [Bool.or_eq_true, beq_iff_eq]; tauto)]
      symm
      rw [Bool.eq_false_iff]
      intro hcon
      obtain ⟨_, _, h46a, h45a, h46b, h45b, _⟩ := (specDomain_iff _).mp hcon
      rw [hH] at h46a h45a
      rw [hL] at h46b h45b
      tauto
    · rw [if_neg (by simp only [Bool.or_eq_true, beq_iff_eq]; tauto)]
      push_neg at hends
      obtain ⟨hs46, hs45, he46, he45⟩ := hends
      have hbridge := labelsDot_eq_noConsecDots text s e he
      by_cases hncb : noConsecDots (subspan text s e) = true
      · rw [if_neg (by rw [hbridge, hncb]; decide)]
        have hgroups := labelLoop_groups text e he (e - s) s 0 rfl (by omega)
        have hL1 : (splitDots (subspan text s e)).length ≠ 0 := by
          intro hcon
          exact splitDots_ne_nil _ (List.eq_nil_of_length_eq_zero hcon)
        by_cases hall : (splitDots (subspan text s e)).all specLabel = true
        · rw [hall, if_pos rfl] at hgroups
          rw [hgroups]
          dsimp only
          rw [if_neg (by omega)]
          by_cases h2 : (splitDots (subspan text s e)).length ≥ 2
          · rw [if_pos (by omega)]
            have hdotex : ∃ t0, s ≤ t0 ∧ t0 < e ∧ text.getD t0 0 = 46 := by
              by_contra hno
              push_neg at hno
              have hnd : ∀ c ∈ subspan text s e, c ≠ 46 := by
                intro c hc
                obtain ⟨t, ht1, ht2, ht3⟩ := (mem_subspan text s e c he).mp hc
                rw [← ht3]
                exact hno t ht1 ht2
              rw [splitDots_no_dot _ hnd] at h2
              simp only [List.length_singleton] at h2
              omega
            obtain ⟨t0, ht0a, ht0b, ht0c⟩ := hdotex
            have hPg := Nat.findGreatest_spec
              (P := fun t => s ≤ t ∧ t < e ∧ text.getD t 0 = 46)
              (show t0 ≤ e - 1 from by omega) ⟨ht0a, ht0b, ht0c⟩
            obtain ⟨d, hdef⟩ : ∃ d, d = Nat.findGreatest
                (fun t => s ≤ t ∧ t < e ∧ text.getD t 0 = 46) (e - 1) := ⟨_, rfl⟩
            rw [← hdef] at hPg
            obtain ⟨hd1, hd2, hd3⟩ := hPg
            have hdmax : ∀ t, d < t → t < e → text.getD t 0 ≠ 46 := by
              intro t h1x h2x hcon
              rw [hdef] at h1x
              exact Nat.findGreatest_is_greatest h1x (show t ≤ e - 1 from by omega)
                ⟨by omega, h2x, hcon⟩
            have hd1e : d + 1 < e := by
              rcases Nat.lt_or_ge (d+1) e with h | h
              · exact h
              · exfalso
                have hde : d = e - 1 := by omega
                rw [hde] at hd3
                exact he46 hd3
            have hld := lastDotLoop_some text s d hd3 hd1 (e - s) e rfl hd2 hdmax
            rw [hld]
            dsimp only
            rw [if_neg (by omega)]
            have hsplit : splitDots (subspan text s e) =
                splitDots (subspan text s d) ++ [subspan text (d+1) e] := by
              rw [subspan_split text s d e hd1 hd2 he, hd3]
              refine splitDots_last_dot _ _ ?_
              intro c hc
              obtain ⟨t, ht1, ht2, ht3⟩ := (mem_subspan text (d+1) e c he).mp hc
              rw [← ht3]
              exact hdmax t (by omega) ht2
            have halnum_iff : (subspan text (d+1) e).all CharacterClassifier.isAlphaNum
                = true ↔ ∀ t, d+1 ≤ t → t < e →
                  CharacterClassifier.isAlphaNum (text.getD t 0) = true := by
              rw [List.all_eq_true]
              constructor
              · intro h t ht1 ht2
                exact h _ ((mem_subspan text (d+1) e _ he).mpr ⟨t, ht1, ht2, rfl⟩)
              · intro h c hc
                obtain ⟨t, ht1, ht2, ht3⟩ := (mem_subspan text (d+1) e c he).mp hc
                rw [← ht3]
                exact h t ht1 ht2
            have htld := tldLoop_iff text e (e - (d+1)) (d+1) rfl
            rw [Bool.eq_iff_iff, htld, specDomain_iff]
            constructor
            · intro h
              refine ⟨by rw [subspan_length text s e he]; omega,
                      by rw [subspan_length text s e he]; omega,
                      by rw [hH]; exact hs46, by rw [hH]; exact hs45,
                      by rw [hL]; exact he46, by rw [hL]; exact he45,
                      hncb, hall, Or.inr ?_⟩
              rw [hsplit, List.getLastD_concat, halnum_iff]
              exact h
            · rintro ⟨_, _, _, _, _, _, _, _, hor⟩
              rcases hor with hone | halnum
              · omega
              · rw [hsplit, List.getLastD_concat] at halnum
                exact halnum_iff.mp halnum
          · rw [if_neg (by omega)]
            symm
            rw [specDomain_iff]
            refine ⟨by rw [subspan_length text s e he]; omega,
                    by rw [subspan_length text s e he]; omega,
                    by rw [hH]; exact hs46, by rw [hH]; exact hs45,
                    by rw [hL]; exact he46, by rw [hL]; exact he45,
                    hncb, hall, Or.inl (by omega)⟩
        · rw [Bool.not_eq_true] at hall
          rw [hall, if_neg (by simp)] at hgroups
          rw [hgroups]
          symm
          rw [Bool.eq_false_iff]
          intro hcon
          obtain ⟨_, _, _, _, _, _, _, hallc, _⟩ := (specDomain_iff _).mp hcon
          rw [hall] at hallc
          exact absurd hallc (by simp)
      · rw [Bool.not_eq_true] at hncb
        rw [if_pos (by rw [hbridge, hncb]; decide)]
        symm
        rw [Bool.eq_false_iff]
        intro hcon
        obtain ⟨_, _, _, _, _, _, hncc, _⟩ := (specDomain_iff _).mp hcon
        rw [hncb] at hncc
        exact absurd hncc (by simp)

/-- C5: for every text and in-bounds range `[s, e)` whose first byte is not
`[` (91), `DomainPartValidator::validate` returns true exactly when the
spec's reading holds of the range: length 1-253, not starting or ending
with `.` or `-`, no two consecutive dots, every dot-separated label 1-63
bytes of alphanumerics and hyphens not starting or ending with a hyphen,
and, when at least two labels exist, the final label alphanumeric only
(single-label ranges being accepted). -/
theorem C5_validate_eq_specDomain (text : List Nat) (s e : Nat)
    (he : e ≤ text.length) (hbr : text.getD s 0 ≠ 91) :
    DomainPartValidator.validate text s e = specDomain (subspan text s e) := by
  unfold DomainPartValidator.validate
  by_cases hse : s < e
  · rw [if_neg (by simp only [Bool.or_eq_true, decide_eq_true_eq, not_or]; omega)]
    rw [if_neg (by simpa using hbr)]
    exact validateDomainLabels_eq_specDomain text s e hse he
  · rw [if_pos (by simp only [Bool.or_eq_true, decide_eq_true_eq]; left; omega)]
    rw [subspan_nil text s e (by omega)]
    decide

theorem C5_validate_eq_specDomain_witness :
    (11 ≤ (bytes "example.com").length ∧ (bytes "example.com").getD 0 0 ≠ 91) ∧
    DomainPartValidator.validate (bytes "example.com") 0 11 =
      specDomain (subspan (bytes "example.com") 0 11) :=
  ⟨⟨by decide, by decide⟩,
   C5_validate_eq_specDomain (bytes "example.com") 0 11 (by decide) (by decide)⟩

theorem ipv6HexRun_le (text : List Nat) (e : Nat) :
    ∀ fuel pos h p2 h2, h ≤ 4 →
      DomainPartValidator.ipv6HexRun text e fuel pos h = some (p2, h2) → h2 ≤ 4 := by
  intro fuel
  induction fuel with
  | zero =>
    intro pos h p2 h2 hh heq
    simp only [DomainPartValidator.ipv6HexRun] at heq
    obtain ⟨_, h2eq⟩ := Prod.mk.injEq .. ▸ Option.some.injEq .. ▸ heq
    omega
  | succ fuel ih =>
    intro pos h p2 h2 hh heq
    simp only [DomainPartValidator.ipv6HexRun] at heq
    by_cases hc : (pos < e ∧ pos < text.length) ∧
        CharacterClassifier.isHexDigit (text.getD pos 0) = true
    · rw [if_pos (by
        simp only [Bool.and_eq_true, decide_eq_true_eq]
        exact ⟨⟨hc.1.1, hc.1.2⟩, hc.2⟩)] at heq
      by_cases h4 : h + 1 > 4
      · rw [if_pos h4] at heq
        exact absurd heq (by simp)
      · rw [if_neg h4] at heq
        exact ih (pos+1) (h+1) p2 h2 (by omega) heq
    · rw [if_neg (by
        simp only [Bool.and_eq_true, decide_eq_true_eq]
        intro hcon
        exact hc ⟨⟨hcon.1.1, hcon.1.2⟩, hcon.2⟩)] at heq
      obtain ⟨_, h2eq⟩ := Prod.mk.injEq .. ▸ Option.some.injEq .. ▸ heq
      omega

theorem ipv6HexRun_ge (text : List Nat) (e : Nat) :
    ∀ fuel pos h p2 h2,
      DomainPartValidator.ipv6HexRun text e fuel pos h = some (p2, h2) → h ≤ h2 := by
  intro fuel
  induction fuel with
  | zero =>
    intro pos h p2 h2 heq
    simp only [DomainPartValidator.ipv6HexRun] at heq
    obtain ⟨_, h2eq⟩ := Prod.mk.injEq .. ▸ Option.some.injEq .. ▸ heq
    omega
  | succ fuel ih =>
    intro pos h p2 h2 heq
    simp only [DomainPartValidator.ipv6HexRun] at heq
    by_cases hc : (pos < e ∧ pos < text.length) ∧
        CharacterClassifier.isHexDigit (text.getD pos 0) = true
    · rw [if_pos (by
        simp only [Bool.and_eq_true, decide_eq_true_eq]
        exact ⟨⟨hc.1.1, hc.1.2⟩, hc.2⟩)] at heq
      by_cases h4 : h + 1 > 4
      · rw [if_pos h4] at heq
        exact absurd heq (by simp)
      · rw [if_neg h4] at heq
        have := ih (pos+1) (h+1) p2 h2 heq
        omega
    · rw [if_neg (by
        simp only [Bool.and_eq_true, decide_eq_true_eq]
        intro hcon
        exact hc ⟨⟨hcon.1.1, hcon.1.2⟩, hcon.2⟩)] at heq
      obtain ⟨_, h2eq⟩ := Prod.mk.injEq .. ▸ Option.some.injEq .. ▸ heq
      omega

theorem ipv6HexRun_none (text : List Nat) (e : Nat) :
    ∀ fuel pos h, h ≤ 4 →
      (∀ k, k < 5 - h → CharacterClassifier.isHexDigit (text.getD (pos+k) 0) = true) →
      pos + (5 - h) ≤ e → pos + (5 - h) ≤ text.length → 5 - h ≤ fuel →
      DomainPartValidator.ipv6HexRun text e fuel pos h = none := by
  intro fuel
  induction fuel with
  | zero =>
    intro pos h hh _ _ _ hf
    omega
  | succ fuel ih =>
    intro pos h hh hdig hpe hpl hf
    simp only [DomainPartValidator.ipv6HexRun]
    rw [if_pos (by
      simp only [Bool.and_eq_true, decide_eq_true_eq]
      refine ⟨⟨by omega, by omega⟩, ?_⟩
      have := hdig 0 (by omega)
      simpa using this)]
    by_cases h4 : h + 1 > 4
    · rw [if_pos h4]
    · rw [if_neg h4]
      refine ih (pos+1) (h+1) (by omega) ?_ (by omega) (by omega) (by omega)
      intro k hk
      have := hdig (k+1) (by omega)
      rw [show pos + 1 + k = pos + (k + 1) from by omega]
      exact this

/-- C7: the behaviours of `validateIPv6` listed by the claim, each stated of
the component of the source it is implemented by: (1) a hextet run never
reports more than 4 hex digits and (2) a run of five hex digits is rejected
outright; (3) a rejected run makes the enclosing loop return false; (4) a
ninth hextet group makes the loop return false; (5) a second `::`
compression marker resolves the validation to false, and (6) such a
resolution is what the loop returns; (7) the final group-count test accepts
exactly 8 groups without compression and at most 7 with one (under the
iteration cap); (8) an embedded trailing IPv4 literal that validates makes
the loop finish with the current groups counted as two slots; (9) once the
iteration counter reaches the fixed cap of 1000 the loop returns false
rather than iterating. -/
theorem C7_validateIPv6_properties :
    (∀ text e fuel pos h p2 h2, h ≤ 4 →
       DomainPartValidator.ipv6HexRun text e fuel pos h = some (p2, h2) → h2 ≤ 4) ∧
    (∀ text e fuel pos,
       (∀ k, k < 5 → CharacterClassifier.isHexDigit (text.getD (pos+k) 0) = true) →
       pos + 5 ≤ e → pos + 5 ≤ text.length → 5 ≤ fuel →
       DomainPartValidator.ipv6HexRun text e fuel pos 0 = none) ∧
    (∀ text e fuel iter pos segCount hasComp, pos < e → iter < 1000 →
       DomainPartValidator.ipv6HexRun text e (e+1) pos 0 = none →
       DomainPartValidator.ipv6Loop text e (fuel+1) iter pos segCount hasComp = false) ∧
    (∀ text e fuel iter pos segCount hasComp, pos < e → iter < 1000 → 8 ≤ segCount →
       pos < text.length → CharacterClassifier.isHexDigit (text.getD pos 0) = true →
       DomainPartValidator.ipv6Loop text e (fuel+1) iter pos segCount hasComp = false) ∧
    (∀ text e iter pos segCount hexDigits, pos < e → text.getD pos 0 = 58 →
       pos + 1 < e → pos + 1 < text.length → text.getD (pos+1) 0 = 58 →
       DomainPartValidator.ipv6ColonStep text e iter pos segCount true hexDigits =
         .result false) ∧
    (∀ text e fuel iter pos segCount hasComp pos1 h b, pos < e → iter < 1000 →
       DomainPartValidator.ipv6HexRun text e (e+1) pos 0 = some (pos1, h) → 0 < h →
       segCount + 1 ≤ 8 →
       ¬(pos1 < e ∧ pos1 < text.length ∧ text.getD pos1 0 = 46) →
       DomainPartValidator.ipv6ColonStep text e (iter+1) pos1 (segCount+1) hasComp h =
         .result b →
       DomainPartValidator.ipv6Loop text e (fuel+1) iter pos segCount hasComp = b) ∧
    (∀ iter segCount hasComp, DomainPartValidator.ipv6Finish iter segCount hasComp = true ↔
       (iter < 1000 ∧ (hasComp = true → segCount ≤ 7) ∧
        (hasComp = false → segCount = 8))) ∧
    (∀ text e fuel iter pos segCount hasComp pos1 h, pos < e → iter < 1000 →
       DomainPartValidator.ipv6HexRun text e (e+1) pos 0 = some (pos1, h) → 0 < h →
       segCount + 1 ≤ 8 → pos1 < e → pos1 < text.length → text.getD pos1 0 = 46 →
       DomainPartValidator.validateIPv4 text pos e = true →
       DomainPartValidator.ipv6Loop text e (fuel+1) iter pos segCount hasComp =
         DomainPartValidator.ipv6Finish (iter+1) (segCount + 2) hasComp) ∧
    (∀ text e fuel iter pos segCount hasComp, 1000 ≤ iter → pos < e →
       DomainPartValidator.ipv6Loop text e fuel iter pos segCount hasComp = false) := by
  refine ⟨?_, ?_, ?_, ?_, ?_, ?_, ?_, ?_, ?_⟩
  · intro text e fuel pos h p2 h2 hh heq
    exact ipv6HexRun_le text e fuel pos h p2 h2 hh heq
  · intro text e fuel pos hdig hpe hpl hf
    exact ipv6HexRun_none text e fuel pos 0 (by omega) (by simpa using hdig)
      (by omega) (by omega) (by omega)
  · intro text e fuel iter pos segCount hasComp hpe hit hrun
    simp only [DomainPartValidator.ipv6Loop]
    rw [if_pos hpe, if_neg (by simp only [DomainPartValidator.MAX_IPV6_ITERATIONS]; omega),
      hrun]
  · intro text e fuel iter pos segCount hasComp hpe hit hseg hpl hhex
    simp only [DomainPartValidator.ipv6Loop]
    rw [if_pos hpe, if_neg (by simp only [DomainPartValidator.MAX_IPV6_ITERATIONS]; omega)]
    rcases hrun : DomainPartValidator.ipv6HexRun text e (e+1) pos 0 with _ | ⟨pos1, h⟩
    · rfl
    · have hge : 1 ≤ h := by
        have hstep : DomainPartValidator.ipv6HexRun text e (e+1) pos 0 =
            DomainPartValidator.ipv6HexRun text e e (pos+1) 1 := by
          rw [show e + 1 = e + 1 from rfl]
          simp only [DomainPartValidator.ipv6HexRun]
          rw [if_pos (by
            simp only [Bool.and_eq_true, decide_eq_true_eq]
            exact ⟨⟨hpe, hpl⟩, hhex⟩)]
          rw [if_neg (by omega)]
        rw [hstep] at hrun
        exact ipv6HexRun_ge text e e (pos+1) 1 pos1 h hrun
      dsimp only
      rw [if_pos (by simpa using hge)]
      rw [if_pos (by omega)]
  · intro text e iter pos segCount hexDigits hpe hc hp1e hp1l hc2
    simp only [DomainPartValidator.ipv6ColonStep]
    rw [if_neg (by omega), if_pos (by simpa using hc)]
    rw [if_pos (by
      simp only [Bool.and_eq_true, decide_eq_true_eq, beq_iff_eq]
      exact ⟨⟨hp1e, hp1l⟩, hc2⟩)]
    rw [if_pos trivial]
  · intro text e fuel iter pos segCount hasComp pos1 h b hpe hit hrun hh hseg hnodot hstep
    simp only [DomainPartValidator.ipv6Loop]
    rw [if_pos hpe, if_neg (by simp only [DomainPartValidator.MAX_IPV6_ITERATIONS]; omega),
      hrun]
    dsimp only
    rw [if_pos (by simpa using hh)]
    rw [if_neg (by omega)]
    rw [if_neg (by
      simp only [Bool.and_eq_true, decide_eq_true_eq, beq_iff_eq]
      intro hcon
      exact hnodot ⟨hcon.1.1, hcon.1.2, hcon.2⟩)]
    rw [hstep]
  · intro iter segCount hasComp
    unfold DomainPartValidator.ipv6Finish
    simp only [DomainPartValidator.MAX_IPV6_ITERATIONS]
    by_cases hit : iter ≥ 1000
    · rw [if_pos hit]
      constructor
      · intro hcon
        exact absurd hcon (by simp)
      · intro ⟨h1, _⟩
        omega
    · rw [if_neg hit]
      cases hasComp with
      | false =>
        simp only [if_neg (by simp : ¬(false = true)), beq_iff_eq]
        constructor
        · intro h1
          exact ⟨by omega, fun hcon => by simp at hcon, fun _ => h1⟩
        · intro ⟨_, _, h3⟩
          exact h3 (by trivial)
      | true =>
        rw [if_pos (by trivial)]
        simp only [decide_eq_true_eq]
        constructor
        · intro h1
          exact ⟨by omega, fun _ => h1, fun hcon => by simp at hcon⟩
        · intro ⟨_, h2, _⟩
          exact h2 (by trivial)
  · intro text e fuel iter pos segCount hasComp pos1 h hpe hit hrun hh hseg hp1e hp1l hdot hv4
    simp only [DomainPartValidator.ipv6Loop]
    rw [if_pos hpe, if_neg (by simp only [DomainPartValidator.MAX_IPV6_ITERATIONS]; omega),
      hrun]
    dsimp only
    rw [if_pos (by simpa using hh)]
    rw [if_neg (by omega)]
    rw [if_pos (by
      simp only [Bool.and_eq_true, decide_eq_true_eq, beq_iff_eq]
      exact ⟨⟨hp1e, hp1l⟩, hdot⟩)]
    rw [if_pos hv4]
    rw [show segCount + 1 - 1 + 2 = segCount + 2 from by omega]
  · intro text e fuel iter pos segCount hasComp hit hpe
    cases fuel with
    | zero =>
      simp only [DomainPartValidator.ipv6Loop]
      rw [if_pos hpe]
    | succ fuel =>
      simp only [DomainPartValidator.ipv6Loop]
      rw [if_pos hpe,
        if_pos (by simp only [DomainPartValidator.MAX_IPV6_ITERATIONS]; omega)]

theorem C7_validateIPv6_properties_witness :
    (1000 ≤ 1000 ∧ 0 < 5) ∧
    DomainPartValidator.ipv6Loop [49] 5 3 1000 0 0 false = false :=
  ⟨⟨by decide, by decide⟩,
   C7_validateIPv6_properties.2.2.2.2.2.2.2.2 [49] 5 3 1000 0 0 false
     (by decide) (by decide)⟩

theorem specLocalScan_iff (l : List Nat) : specLocalScan l = true ↔
    (1 ≤ l.length ∧ l.length ≤ 64 ∧ l.headD 0 ≠ 34 ∧ l.headD 0 ≠ 46 ∧
     l.getLastD 0 ≠ 46 ∧ noConsecDots l = true ∧
     ∀ c ∈ l, (c == 46 || CharacterClassifier.isAtext c) = true) := by
  unfold specLocalScan
  simp only [Bool.and_eq_true, Bool.or_eq_true, bne_iff_ne, ne_eq, decide_eq_true_eq,
    List.all_eq_true]
  tauto

theorem scanModeLoop_iff (text : List Nat) (e : Nat) (he : e ≤ text.length) :
    ∀ n i prevDot, e - i = n →
      (LocalPartValidator.scanModeLoop text e (e - i) i prevDot = true ↔
        ((prevDot = true → i < e → text.getD i 0 ≠ 46) ∧
         (∀ t, i ≤ t → t < e →
           (text.getD t 0 == 46 || CharacterClassifier.isAtext (text.getD t 0)) = true) ∧
         (∀ t, i ≤ t → t + 1 < e →
           ¬(text.getD t 0 = 46 ∧ text.getD (t+1) 0 = 46)))) := by
  intro n
  induction n with
  | zero =>
    intro i prevDot h1
    rw [h1]
    simp only [LocalPartValidator.scanModeLoop]
    constructor
    · intro _
      exact ⟨fun _ hlt => by omega, fun t ht1 ht2 => by omega, fun t ht1 ht2 => by omega⟩
    · intro _
      trivial
  | succ n ih =>
    intro i prevDot h1
    rw [h1]
    simp only [LocalPartValidator.scanModeLoop]
    rw [if_pos (by omega), if_neg (by omega)]
    by_cases hdot : text.getD i 0 = 46
    · rw [if_pos (by simpa using hdot)]
      cases prevDot with
      | true =>
        rw [if_pos rfl]
        constructor
        · intro hcon
          exact absurd hcon (by simp)
        · rintro ⟨hp, _⟩
          exact absurd hdot (hp rfl (by omega))
      | false =>
        rw [if_neg (by simp)]
        have := ih (i+1) true (by omega)
        rw [show e - (i+1) = n from by omega] at this
        rw [this]
        constructor
        · rintro ⟨hp, hall, hpairs⟩
          refine ⟨fun hcon _ => by simp at hcon, ?_, ?_⟩
          · intro t ht1 ht2
            rcases Nat.eq_or_lt_of_le ht1 with hx | hx
            · rw [← hx, hdot]
              decide
            · exact hall t hx ht2
          · intro t ht1 ht2
            rcases Nat.eq_or_lt_of_le ht1 with hx | hx
            · rintro ⟨_, hb⟩
              rw [← hx] at hb
              exact hp rfl (by omega) hb
            · exact hpairs t hx ht2
        · rintro ⟨_, hall, hpairs⟩
          refine ⟨fun _ hlt hcon => hpairs i (le_refl i) (by omega) ⟨hdot, hcon⟩,
                  fun t ht1 ht2 => hall t (by omega) ht2,
                  fun t ht1 ht2 => hpairs t (by omega) ht2⟩
    · rw [if_neg (by simpa using hdot)]
      by_cases hat : CharacterClassifier.isAtext (text.getD i 0) = true
      · rw [if_neg (by rw [hat]; decide)]
        have := ih (i+1) false (by omega)
        rw [show e - (i+1) = n from by omega] at this
        rw [this]
        constructor
        · rintro ⟨_, hall, hpairs⟩
          refine ⟨fun _ _ => hdot, ?_, ?_⟩
          · intro t ht1 ht2
            rcases Nat.eq_or_lt_of_le ht1 with hx | hx
            · rw [← hx, hat]
              simp
            · exact hall t hx ht2
          · intro t ht1 ht2
            rcases Nat.eq_or_lt_of_le ht1 with hx | hx
            · rintro ⟨ha, _⟩
              rw [← hx] at ha
              exact hdot ha
            · exact hpairs t hx ht2
        · rintro ⟨_, hall, hpairs⟩
          refine ⟨fun hcon _ => by simp at hcon,
                  fun t ht1 ht2 => hall t (by omega) ht2,
                  fun t ht1 ht2 => hpairs t (by omega) ht2⟩
      · rw [Bool.not_eq_true] at hat
        rw [if_pos (by rw [hat]; decide)]
        constructor
        · intro hcon
          exact absurd hcon (by simp)
        · rintro ⟨_, hall, _⟩
          have := hall i (le_refl i) (by omega)
          rw [hat] at this
          simp only [Bool.or_eq_true, beq_iff_eq] at this
          rcases this with h | h
          · exact absurd h hdot
          · exact absurd h (by simp)

theorem validateScanMode_eq (text : List Nat) (s e : Nat) (he : e ≤ text.length) :
    LocalPartValidator.validateScanMode text s e = specLocalScan (subspan text s e) := by
  unfold LocalPartValidator.validateScanMode
  by_cases hse : s < e
  · by_cases h64 : e - s > 64
    · rw [if_pos (by
        simp only [Bool.or_eq_true, decide_eq_true_eq, LocalPartValidator.MAX_LOCAL_PART]
        omega)]
      symm
      rw [Bool.eq_false_iff]
      intro hcon
      obtain ⟨_, hlen, _⟩ := (specLocalScan_iff _).mp hcon
      rw [subspan_length text s e he] at hlen
      omega
    · rw [if_neg (by
        simp only [Bool.or_eq_true, decide_eq_true_eq, LocalPartValidator.MAX_LOCAL_PART,
          not_or]
        omega)]
      have hH := subspan_headD text s e hse he
      have hL := subspan_getLastD text s e hse he
      by_cases hends : text.getD s 0 = 34 ∨ text.getD s 0 = 46 ∨ text.getD (e-1) 0 = 46
      · rw [if_pos (by simp only [Bool.or_eq_true, beq_iff_eq]; tauto)]
        symm
        rw [Bool.eq_false_iff]
        intro hcon
        obtain ⟨_, _, h34, h46a, h46b, _⟩ := (specLocalScan_iff _).mp hcon
        rw [hH] at h34 h46a
        rw [hL] at h46b
        tauto
      · rw [if_neg (by simp only [Bool.or_eq_true, beq_iff_eq]; tauto)]
        push_neg at hends
        obtain ⟨hs34, hs46, he46⟩ := hends
        have hloop := scanModeLoop_iff text e he (e - s) s false rfl
        rw [Bool.eq_iff_iff, hloop, specLocalScan_iff]
        constructor
        · rintro ⟨_, hall, hpairs⟩
          refine ⟨by rw [subspan_length text s e he]; omega,
                  by rw [subspan_length text s e he]; omega,
                  by rw [hH]; exact hs34, by rw [hH]; exact hs46,
                  by rw [hL]; exact he46, ?_, ?_⟩
          · rw [noConsecDots_iff]
            intro idx hidx
            rw [subspan_length text s e he] at hidx
            rw [subspan_getD text s e idx 0 (by omega) he,
                subspan_getD text s e (idx+1) 0 (by omega) he]
            rintro ⟨ha, hb⟩
            refine hpairs (s + idx) (by omega) (by omega) ⟨ha, ?_⟩
            rw [show s + idx + 1 = s + (idx + 1) from by omega]
            exact hb
          · intro c hc
            obtain ⟨t, ht1, ht2, ht3⟩ := (mem_subspan text s e c he).mp hc
            rw [← ht3]
            exact hall t ht1 ht2
        · rintro ⟨_, _, _, _, _, hnc, hall⟩
          refine ⟨fun hcon _ => by simp at hcon, ?_, ?_⟩
          · intro t ht1 ht2
            exact hall _ ((mem_subspan text s e _ he).mpr ⟨t, ht1, ht2, rfl⟩)
          · rw [noConsecDots_iff] at hnc
            rintro t ht1 ht2 ⟨ha, hb⟩
            have := hnc (t - s) (by rw [subspan_length text s e he]; omega)
            rw [subspan_getD text s e (t-s) 0 (by omega) he,
                subspan_getD text s e (t-s+1) 0 (by omega) he,
                show s + (t - s) = t from by omega,
                show s + (t - s + 1) = t + 1 from by omega] at this
            exact this ⟨ha, hb⟩
  · rw [if_pos (by simp only [Bool.or_eq_true, decide_eq_true_eq]; left; omega)]
    rw [subspan_nil text s e (by omega)]
    decide

theorem validate_SCAN_eq (text : List Nat) (s e : Nat) :
    LocalPartValidator.validate text s e .SCAN =
      LocalPartValidator.validateScanMode text s e := by
  unfold LocalPartValidator.validate
  by_cases hg : s ≥ e ∨ e > text.length
  · rw [if_pos (by simp only [Bool.or_eq_true, decide_eq_true_eq]; exact hg)]
    unfold LocalPartValidator.validateScanMode
    rw [if_pos (by
      simp only [Bool.or_eq_true, decide_eq_true_eq]
      exact Or.inl hg)]
  · rw [if_neg (by simp only [Bool.or_eq_true, decide_eq_true_eq]; exact hg)]

theorem subspan_subspan (text : List Nat) (s e j k : Nat) (hk : k ≤ e - s) :
    subspan (subspan text s e) j k = subspan text (s+j) (s+k) := by
  simp only [subspan, List.drop_take, List.take_take]
  rw [List.drop_drop]
  congr 1
  omega

theorem subspan_full (l : List Nat) : subspan l 0 l.length = l := by
  simp [subspan]

theorem charFacts : ∀ c, c < 256 →
    (CharacterClassifier.isAtext c = true →
      c ≠ 64 ∧ CharacterClassifier.isInvalidLocalChar c = false) ∧
    (CharacterClassifier.isAlphaNum c = true →
      CharacterClassifier.isDomainChar c = true ∧ c ≠ 64) := by decide

theorem isAtext_oob (c : Nat) (h : 256 ≤ c) : CharacterClassifier.isAtext c = false := by
  unfold CharacterClassifier.isAtext
  rw [tblVal_oob c h]
  decide

theorem isAlphaNum_oob (c : Nat) (h : 256 ≤ c) :
    CharacterClassifier.isAlphaNum c = false := by
  unfold CharacterClassifier.isAlphaNum
  rw [tblVal_oob c h]
  decide

theorem atext_ne_64 (c : Nat) (h : CharacterClassifier.isAtext c = true) : c ≠ 64 := by
  by_cases hc : c < 256
  · exact ((charFacts c hc).1 h).1
  · exact fun hcon => by omega

theorem atext_not_invalid (c : Nat) (h : CharacterClassifier.isAtext c = true) :
    CharacterClassifier.isInvalidLocalChar c = false := by
  by_cases hc : c < 256
  · exact ((charFacts c hc).1 h).2
  · rw [isAtext_oob c (by omega)] at h
    exact absurd h (by simp)

theorem alnum_domainChar (c : Nat) (h : CharacterClassifier.isAlphaNum c = true) :
    CharacterClassifier.isDomainChar c = true := by
  by_cases hc : c < 256
  · exact ((charFacts c hc).2 h).1
  · rw [isAlphaNum_oob c (by omega)] at h
    exact absurd h (by simp)

theorem alnum_ne_64 (c : Nat) (h : CharacterClassifier.isAlphaNum c = true) : c ≠ 64 := by
  by_cases hc : c < 256
  · exact ((charFacts c hc).2 h).2
  · exact fun hcon => by omega

theorem splitDots_mem (l : List Nat) (c : Nat) (hc : c ∈ l) :
    c = 46 ∨ ∃ g ∈ splitDots l, c ∈ g := by
  induction l with
  | nil => cases hc
  | cons x rest ih =>
    rcases List.mem_cons.mp hc with hx | hx
    · by_cases h46 : x = 46
      · exact Or.inl (hx.trans h46)
      · right
        simp only [splitDots]
        rw [if_neg (by simpa using h46)]
        rcases hs : splitDots rest with _ | ⟨g0, gs⟩
        · exact absurd hs (splitDots_ne_nil rest)
        · exact ⟨x :: g0, by simp, by rw [hx]; simp⟩
    · rcases ih hx with h46 | ⟨g, hg, hcg⟩
      · exact Or.inl h46
      · right
        simp only [splitDots]
        by_cases hx46 : x = 46
        · rw [if_pos (by simpa using hx46)]
          exact ⟨g, by simp [hg], hcg⟩
        · rw [if_neg (by simpa using hx46)]
          rcases hs : splitDots rest with _ | ⟨g0, gs⟩
          · exact absurd hs (splitDots_ne_nil rest)
          · rw [hs] at hg
            rcases List.mem_cons.mp hg with hgg | hgg
            · refine ⟨x :: g0, by simp, ?_⟩
              rw [hgg] at hcg
              simp [hcg]
            · exact ⟨g, by simp [hgg], hcg⟩

theorem specDomain_chars (l : List Nat) (h : specDomain l = true) :
    ∀ c ∈ l, CharacterClassifier.isAlphaNum c = true ∨ c = 45 ∨ c = 46 := by
  obtain ⟨_, _, _, _, _, _, _, hall, _⟩ := (specDomain_iff l).mp h
  intro c hc
  rcases splitDots_mem l c hc with h46 | ⟨g, hg, hcg⟩
  · exact Or.inr (Or.inr h46)
  · have hlab := List.all_eq_true.mp hall g hg
    obtain ⟨_, _, hchars, _⟩ := (specLabel_iff g).mp hlab
    have := hchars c hcg
    simp only [Bool.or_eq_true, beq_iff_eq] at this
    rcases this with h1 | h1
    · exact Or.inl h1
    · exact Or.inr (Or.inl h1)

theorem specLocalScan_chars (l : List Nat) (h : specLocalScan l = true) :
    ∀ c ∈ l, c = 46 ∨ CharacterClassifier.isAtext c = true := by
  obtain ⟨_, _, _, _, _, _, hall⟩ := (specLocalScan_iff l).mp h
  intro c hc
  have := hall c hc
  simp only [Bool.or_eq_true, beq_iff_eq] at this
  exact this

theorem count64_one (l1 l2 : List Nat)
    (h1 : ∀ c ∈ l1, c ≠ 64) (h2 : ∀ c ∈ l2, c ≠ 64) :
    (l1 ++ 64 :: l2).count 64 = 1 := by
  have hc1 : l1.count 64 = 0 := List.count_eq_zero.mpr (fun hc => h1 64 hc rfl)
  have hc2 : l2.count 64 = 0 := List.count_eq_zero.mpr (fun hc => h2 64 hc rfl)
  rw [List.count_append, hc1, List.count_cons_self, hc2]

theorem memchrFrom_sound (text : List Nat) :
    ∀ fuel i j, EmailScanner.memchrFrom text fuel i = some j →
      i ≤ j ∧ j < text.length ∧ text.getD j 0 = 64 ∧
      (∀ t, i ≤ t → t < j → text.getD t 0 ≠ 64) := by
  intro fuel
  induction fuel with
  | zero =>
    intro i j heq
    exact absurd heq (by simp [EmailScanner.memchrFrom])
  | succ fuel ih =>
    intro i j heq
    simp only [EmailScanner.memchrFrom] at heq
    by_cases hlen : i < text.length
    · rw [if_pos hlen] at heq
      by_cases h64 : text.getD i 0 = 64
      · rw [if_pos (by simpa using h64)] at heq
        obtain rfl : i = j := by simpa using heq
        exact ⟨le_refl i, hlen, h64, fun t ht1 ht2 => by omega⟩
      · rw [if_neg (by simpa using h64)] at heq
        obtain ⟨ha, hb, hc, hd⟩ := ih (i+1) j heq
        refine ⟨by omega, hb, hc, ?_⟩
        intro t ht1 ht2
        rcases Nat.eq_or_lt_of_le ht1 with hx | hx
        · rw [← hx]
          exact h64
        · exact hd t hx ht2
    · rw [if_neg hlen] at heq
      exact absurd heq (by simp)

theorem memchrFrom_complete (text : List Nat) (j : Nat) (hj : j < text.length)
    (h64 : text.getD j 0 = 64) :
    ∀ n i, j - i = n → i ≤ j → (∀ t, i ≤ t → t < j → text.getD t 0 ≠ 64) →
      ∀ fuel, j - i < fuel →
        EmailScanner.memchrFrom text fuel i = some j := by
  intro n
  induction n with
  | zero =>
    intro i h1 h2 _ fuel hf
    obtain rfl : i = j := by omega
    cases fuel with
    | zero => omega
    | succ fuel =>
      simp only [EmailScanner.memchrFrom]
      rw [if_pos hj, if_pos (by simpa using h64)]
  | succ n ih =>
    intro i h1 h2 hno fuel hf
    cases fuel with
    | zero => omega
    | succ fuel =>
      simp only [EmailScanner.memchrFrom]
      rw [if_pos (by omega), if_neg (by
        simp only [beq_iff_eq]
        exact hno i (le_refl i) (by omega))]
      exact ih (i+1) (by omega) (by omega) (fun t ht1 ht2 => hno t (by omega) ht2)
        fuel (by omega)

theorem findFirstAlnum_ge (text : List Nat) (limit0 : Nat) :
    ∀ fuel pos j, EmailScanner.findFirstAlnum text limit0 fuel pos = some j → pos ≤ j := by
  intro fuel
  induction fuel with
  | zero =>
    intro pos j heq
    exact absurd heq (by simp [EmailScanner.findFirstAlnum])
  | succ fuel ih =>
    intro pos j heq
    simp only [EmailScanner.findFirstAlnum] at heq
    by_cases h1 : pos < min limit0 text.length
    · rw [if_pos h1] at heq
      by_cases h2 : CharacterClassifier.isAlphaNum (text.getD pos 0) = true
      · rw [if_pos h2] at heq
        obtain rfl : pos = j := by simpa using heq
        exact le_refl pos
      · rw [if_neg h2] at heq
        have := ih (pos+1) j heq
        omega
    · rw [if_neg h1] at heq
      exact absurd heq (by simp)

theorem findFirstAtext_ge (text : List Nat) (limit0 : Nat) :
    ∀ fuel pos j, EmailScanner.findFirstAtext text limit0 fuel pos = some j → pos ≤ j := by
  intro fuel
  induction fuel with
  | zero =>
    intro pos j heq
    exact absurd heq (by simp [EmailScanner.findFirstAtext])
  | succ fuel ih =>
    intro pos j heq
    simp only [EmailScanner.findFirstAtext] at heq
    by_cases h1 : pos < min limit0 text.length
    · rw [if_pos h1] at heq
      by_cases h2 : CharacterClassifier.isAtext (text.getD pos 0) = true
      · rw [if_pos h2] at heq
        obtain rfl : pos = j := by simpa using heq
        exact le_refl pos
      · rw [if_neg h2] at heq
        have := ih (pos+1) j heq
        omega
    · rw [if_neg h1] at heq
      exact absurd heq (by simp)

theorem atLookbackLoop_ge (text : List Nat) (lookbackLimit atPos : Nat) :
    ∀ fuel lookback validStart foundValid, lookbackLimit ≤ validStart →
      lookbackLimit ≤
        (EmailScanner.atLookbackLoop text lookbackLimit atPos fuel
          lookback validStart foundValid).1 := by
  intro fuel
  induction fuel with
  | zero =>
    intro lookback validStart foundValid hv
    simpa [EmailScanner.atLookbackLoop] using hv
  | succ fuel ih =>
    intro lookback validStart foundValid hv
    simp only [EmailScanner.atLookbackLoop]
    by_cases h1 : lookback < lookbackLimit ∨ lookback ≥ atPos ∨ lookback ≥ text.length
    · rw [if_pos (by simp only [Bool.or_eq_true, decide_eq_true_eq]; tauto)]
      exact hv
    · rw [if_neg (by simp only [Bool.or_eq_true, decide_eq_true_eq]; tauto)]
      push_neg at h1
      obtain ⟨hl1, _, _⟩ := h1
      by_cases h2 : (CharacterClassifier.isAtext (text.getD lookback 0) &&
          (text.getD lookback 0 != 46)) = true
      · rw [if_pos h2]
        by_cases h3 : lookback = lookbackLimit
        · rw [if_pos (by simpa using h3)]
          omega
        · rw [if_neg (by simpa using h3)]
          exact ih (lookback - 1) lookback true (by omega)
      · rw [if_neg h2]
        exact hv

theorem leftScanLoop_ge (text : List Nat) (atPos effectiveMin e : Nat) :
    ∀ fuel start, effectiveMin ≤ start →
      (∀ s, EmailScanner.leftScanLoop text atPos effectiveMin e fuel start = .done s →
        effectiveMin ≤ s) ∧
      (∀ s ic, EmailScanner.leftScanLoop text atPos effectiveMin e fuel start =
          .invalid s ic → effectiveMin ≤ ic) := by
  intro fuel
  induction fuel with
  | zero =>
    intro start hs
    constructor
    · intro s heq
      obtain rfl : start = s := by
        simpa [EmailScanner.leftScanLoop] using heq
      exact hs
    · intro s ic heq
      exact absurd heq (by simp [EmailScanner.leftScanLoop])
  | succ fuel ih =>
    intro start hs
    simp only [EmailScanner.leftScanLoop]
    by_cases h1 : start > effectiveMin
    · rw [if_pos h1]
      by_cases h2 : text.getD (start - 1) 0 = 64
      · rw [if_pos (by simpa using h2)]
        refine ⟨fun s heq => ?_, fun s ic heq => absurd heq (by simp)⟩
        obtain rfl : start = s := by simpa using heq
        exact hs
      · rw [if_neg (by simpa using h2)]
        by_cases h3 : (text.getD (start - 1) 0 = 46 ∧ start > effectiveMin + 1 ∧
            start ≥ 2 ∧ text.getD (start - 2) 0 = 46)
        · rw [if_pos (by
            simp only [Bool.and_eq_true, beq_iff_eq, decide_eq_true_eq]
            tauto)]
          refine ⟨fun s heq => absurd heq (by simp), fun s ic heq => ?_⟩
          obtain ⟨rfl, rfl⟩ : start = s ∧ start - 1 = ic := by
            constructor <;> [skip; skip] <;> cases heq <;> rfl
          omega
        · rw [if_neg (by
            simp only [Bool.and_eq_true, beq_iff_eq, decide_eq_true_eq]
            tauto)]
          by_cases h4 : CharacterClassifier.isInvalidLocalChar (text.getD (start - 1) 0) = true
          · rw [if_pos h4]
            by_cases h5 : text.getD (start - 1) 0 = 64 ∧ start > effectiveMin + 1
            · rw [if_pos (by
                simp only [Bool.and_eq_true, beq_iff_eq, decide_eq_true_eq]
                tauto)]
              by_cases h6 : (EmailScanner.atLookbackLoop text effectiveMin atPos
                  (text.length + 1) (start - 2) (start - 1) false).2 = true
              · rw [if_pos h6]
                exact ih _ (atLookbackLoop_ge text effectiveMin atPos
                  (text.length + 1) (start - 2) (start - 1) false (by omega))
              · rw [if_neg h6]
                refine ⟨fun s heq => absurd heq (by simp), fun s ic heq => ?_⟩
                obtain ⟨rfl, rfl⟩ : start = s ∧ start = ic := by
                  constructor <;> cases heq <;> rfl
                omega
            · rw [if_neg (by
                simp only [Bool.and_eq_true, beq_iff_eq, decide_eq_true_eq]
                tauto)]
              refine ⟨fun s heq => absurd heq (by simp), fun s ic heq => ?_⟩
              obtain ⟨rfl, rfl⟩ : start = s ∧ start = ic := by
                constructor <;> cases heq <;> rfl
              omega
          · rw [if_neg h4]
            by_cases h7 : CharacterClassifier.isQuoteChar (text.getD (start - 1) 0) = true
            · rw [if_pos h7]
              by_cases h8 : start > effectiveMin + 1 ∧ start ≥ 2 ∧
                  text.getD (start - 2) 0 = text.getD (start - 1) 0
              · rw [if_pos (by
                  simp only [Bool.and_eq_true, beq_iff_eq, decide_eq_true_eq]
                  tauto)]
                exact ih (start - 1) (by omega)
              · rw [if_neg (by
                  simp only [Bool.and_eq_true, beq_iff_eq, decide_eq_true_eq]
                  tauto)]
                by_cases h9 : e < text.length ∧ text.getD e 0 = text.getD (start - 1) 0
                · rw [if_pos (by
                    simp only [Bool.and_eq_true, beq_iff_eq, decide_eq_true_eq]
                    tauto)]
                  by_cases h10 : e + 1 < text.length ∧
                      text.getD (e+1) 0 = text.getD (start - 1) 0
                  · rw [if_pos (by
                      simp only [Bool.and_eq_true, beq_iff_eq, decide_eq_true_eq]
                      tauto)]
                    exact ih (start - 1) (by omega)
                  · rw [if_neg (by
                      simp only [Bool.and_eq_true, beq_iff_eq, decide_eq_true_eq]
                      tauto)]
                    exact ⟨fun s heq => by
                        obtain rfl : start = s := by simpa using heq
                        exact hs,
                      fun s ic heq => absurd heq (by simp)⟩
                · rw [if_neg (by
                    simp only [Bool.and_eq_true, beq_iff_eq, decide_eq_true_eq]
                    tauto)]
                  by_cases h11 : start > effectiveMin + 1 ∧ start ≥ 2
                  · rw [if_pos (by
                      simp only [Bool.and_eq_true, decide_eq_true_eq]
                      tauto)]
                    by_cases h12 : (text.getD (start - 2) 0 == 61 ||
                        text.getD (start - 2) 0 == 58 ||
                        CharacterClassifier.isScanBoundary (text.getD (start - 2) 0) ||
                        CharacterClassifier.isQuoteChar (text.getD (start - 2) 0)) = true
                    · rw [if_pos h12]
                      exact ih (start - 1) (by omega)
                    · rw [if_neg h12]
                      exact ih (start - 1) (by omega)
                  · rw [if_neg (by
                      simp only [Bool.and_eq_true, decide_eq_true_eq]
                      tauto)]
                    by_cases h13 : start = effectiveMin + 1
                    · rw [if_pos (by simpa using h13)]
                      exact ⟨fun s heq => by
                          obtain rfl : start - 1 = s := by simpa using heq
                          omega,
                        fun s ic heq => absurd heq (by simp)⟩
                    · rw [if_neg (by simpa using h13)]
                      exact ih (start - 1) (by omega)
            · rw [if_neg h7]
              by_cases h14 : text.getD (start - 1) 0 = 46
              · rw [if_pos (by simpa using h14)]
                exact ih (start - 1) (by omega)
              · rw [if_neg (by simpa using h14)]
                by_cases h15 : CharacterClassifier.isAtext (text.getD (start - 1) 0) = true
                · rw [if_pos h15]
                  exact ih (start - 1) (by omega)
                · rw [if_neg h15]
                  exact ⟨fun s heq => by
                      obtain rfl : start = s := by simpa using heq
                      exact hs,
                    fun s ic heq => absurd heq (by simp)⟩
    · rw [if_neg h1]
      exact ⟨fun s heq => by
          obtain rfl : start = s := by simpa using heq
          exact hs,
        fun s ic heq => absurd heq (by simp)⟩

theorem leadingDotStrip_ge (text : List Nat) (atPos : Nat) :
    ∀ fuel start, start ≤ EmailScanner.leadingDotStrip text atPos fuel start := by
  intro fuel
  induction fuel with
  | zero =>
    intro start
    exact le_refl start
  | succ fuel ih =>
    intro start
    simp only [EmailScanner.leadingDotStrip]
    by_cases h1 : start < atPos ∧ text.getD start 0 = 46
    · rw [if_pos (by
        simp only [Bool.and_eq_true, beq_iff_eq, decide_eq_true_eq]
        tauto)]
      have := ih (start + 1)
      omega
    · rw [if_neg (by
        simp only [Bool.and_eq_true, beq_iff_eq, decide_eq_true_eq]
        tauto)]

theorem afterRecovery_start_ge (text : List Nat) (atPos e3 effectiveMin len start0 : Nat)
    (dr : Bool) (h0 : effectiveMin ≤ start0)
    (hvb : (EmailScanner.afterRecovery text atPos e3 effectiveMin len start0
      dr).validBoundaries = true) :
    effectiveMin ≤
      (EmailScanner.afterRecovery text atPos e3 effectiveMin len start0 dr).start := by
  simp only [EmailScanner.afterRecovery] at hvb ⊢
  have hst1 : effectiveMin ≤ EmailScanner.leadingDotStrip text atPos (atPos + 1) start0 :=
    le_trans h0 (leadingDotStrip_ge text atPos (atPos + 1) start0)
  obtain ⟨st1, hdef1⟩ : ∃ x, EmailScanner.leadingDotStrip text atPos (atPos + 1) start0 = x :=
    ⟨_, rfl⟩
  rw [hdef1] at hvb hst1 ⊢
  by_cases hc : st1 < atPos ∧ st1 > effectiveMin ∧ st1 > 0
  · rw [if_pos (show (decide (st1 < atPos) && decide (st1 > effectiveMin) &&
        decide (st1 > 0)) = true by
      simp only [Bool.and_eq_true, decide_eq_true_eq]
      omega)] at hvb ⊢
    by_cases hinv : CharacterClassifier.isInvalidLocalChar (text.getD (st1 - 1) 0) = true
    · rw [if_pos hinv] at hvb ⊢
      rcases hfa : EmailScanner.findFirstAlnum text atPos (len + 1) st1 with _ | fa
      · rw [hfa] at hvb
        dsimp only at hvb ⊢
        by_cases hge : st1 ≥ atPos
        · rw [if_pos hge] at hvb
          simp at hvb
        · rw [if_neg hge] at hvb ⊢
          exact hst1
      · rw [hfa] at hvb
        dsimp only at hvb ⊢
        have hfage := findFirstAlnum_ge text atPos (len + 1) st1 fa hfa
        by_cases hge : fa ≥ atPos
        · rw [if_pos hge] at hvb
          simp at hvb
        · rw [if_neg hge] at hvb ⊢
          exact le_trans hst1 hfage
    · rw [if_neg hinv] at hvb ⊢
      by_cases hge : st1 ≥ atPos
      · rw [if_pos hge] at hvb
        simp at hvb
      · rw [if_neg hge] at hvb ⊢
        exact hst1
  · rw [if_neg (show ¬(decide (st1 < atPos) && decide (st1 > effectiveMin) &&
        decide (st1 > 0)) = true by
      simp only [Bool.and_eq_true, decide_eq_true_eq]
      omega)] at hvb ⊢
    by_cases hge : st1 ≥ atPos
    · rw [if_pos hge] at hvb
      simp at hvb
    · rw [if_neg hge] at hvb ⊢
      exact hst1

theorem atLookbackLoop_le (text : List Nat) (lookbackLimit atPos : Nat) :
    ∀ fuel lookback validStart foundValid, lookback ≤ validStart →
      (EmailScanner.atLookbackLoop text lookbackLimit atPos fuel
        lookback validStart foundValid).1 ≤ validStart := by
  intro fuel
  induction fuel with
  | zero =>
    intro lookback validStart foundValid _
    exact le_refl _
  | succ fuel ih =>
    intro lookback validStart foundValid hv
    simp only [EmailScanner.atLookbackLoop]
    by_cases h1 : lookback < lookbackLimit ∨ lookback ≥ atPos ∨ lookback ≥ text.length
    · rw [if_pos (by simp only [Bool.or_eq_true, decide_eq_true_eq]; tauto)]
    · rw [if_neg (by simp only [Bool.or_eq_true, decide_eq_true_eq]; tauto)]
      by_cases h2 : (CharacterClassifier.isAtext (text.getD lookback 0) &&
          (text.getD lookback 0 != 46)) = true
      · rw [if_pos h2]
        by_cases h3 : lookback = lookbackLimit
        · rw [if_pos (by simpa using h3)]
          exact hv
        · rw [if_neg (by simpa using h3)]
          exact le_trans (ih (lookback - 1) lookback true (by omega)) hv
      · rw [if_neg h2]

theorem leftScanLoop_le (text : List Nat) (atPos effectiveMin e : Nat) :
    ∀ fuel start,
      (∀ s, EmailScanner.leftScanLoop text atPos effectiveMin e fuel start = .done s →
        s ≤ start) ∧
      (∀ s ic, EmailScanner.leftScanLoop text atPos effectiveMin e fuel start =
          .invalid s ic → ic ≤ start) := by
  intro fuel
  induction fuel with
  | zero =>
    intro start
    constructor
    · intro s heq
      obtain rfl : start = s := by simpa [EmailScanner.leftScanLoop] using heq
      exact le_refl _
    · intro s ic heq
      exact absurd heq (by simp [EmailScanner.leftScanLoop])
  | succ fuel ih =>
    intro start
    have step : ∀ st2, st2 ≤ start →
        (∀ s, EmailScanner.leftScanLoop text atPos effectiveMin e fuel st2 = .done s →
          s ≤ start) ∧
        (∀ s ic, EmailScanner.leftScanLoop text atPos effectiveMin e fuel st2 =
            .invalid s ic → ic ≤ start) := by
      intro st2 hst2
      exact ⟨fun s heq => le_trans ((ih st2).1 s heq) hst2,
             fun s ic heq => le_trans ((ih st2).2 s ic heq) hst2⟩
    simp only [EmailScanner.leftScanLoop]
    by_cases h1 : start > effectiveMin
    · rw [if_pos h1]
      by_cases h2 : text.getD (start - 1) 0 = 64
      · rw [if_pos (by simpa using h2)]
        refine ⟨fun s heq => ?_, fun s ic heq => absurd heq (by simp)⟩
        obtain rfl : start = s := by simpa using heq
        exact le_refl _
      · rw [if_neg (by simpa using h2)]
        by_cases h3 : (text.getD (start - 1) 0 = 46 ∧ start > effectiveMin + 1 ∧
            start ≥ 2 ∧ text.getD (start - 2) 0 = 46)
        · rw [if_pos (by
            simp only [Bool.and_eq_true, beq_iff_eq, decide_eq_true_eq]
            tauto)]
          refine ⟨fun s heq => absurd heq (by simp), fun s ic heq => ?_⟩
          obtain ⟨rfl, rfl⟩ : start = s ∧ start - 1 = ic := by
            constructor <;> cases heq <;> rfl
          omega
        · rw [if_neg (by
            simp only [Bool.and_eq_true, beq_iff_eq, decide_eq_true_eq]
            tauto)]
          by_cases h4 : CharacterClassifier.isInvalidLocalChar (text.getD (start - 1) 0) = true
          · rw [if_pos h4]
            by_cases h5 : text.getD (start - 1) 0 = 64 ∧ start > effectiveMin + 1
            · rw [if_pos (by
                simp only [Bool.and_eq_true, beq_iff_eq, decide_eq_true_eq]
                tauto)]
              by_cases h6 : (EmailScanner.atLookbackLoop text effectiveMin atPos
                  (text.length + 1) (start - 2) (start - 1) false).2 = true
              · rw [if_pos h6]
                refine step _ ?_
                have := atLookbackLoop_le text effectiveMin atPos
                  (text.length + 1) (start - 2) (start - 1) false (by omega)
                omega
              · rw [if_neg h6]
                refine ⟨fun s heq => absurd heq (by simp), fun s ic heq => ?_⟩
                obtain ⟨rfl, rfl⟩ : start = s ∧ start = ic := by
                  constructor <;> cases heq <;> rfl
                exact le_refl _
            · rw [if_neg (by
                simp only [Bool.and_eq_true, beq_iff_eq, decide_eq_true_eq]
                tauto)]
              refine ⟨fun s heq => absurd heq (by simp), fun s ic heq => ?_⟩
              obtain ⟨rfl, rfl⟩ : start = s ∧ start = ic := by
                constructor <;> cases heq <;> rfl
              exact le_refl _
          · rw [if_neg h4]
            by_cases h7 : CharacterClassifier.isQuoteChar (text.getD (start - 1) 0) = true
            · rw [if_pos h7]
              by_cases h8 : start > effectiveMin + 1 ∧ start ≥ 2 ∧
                  text.getD (start - 2) 0 = text.getD (start - 1) 0
              · rw [if_pos (by
                  simp only [Bool.and_eq_true, beq_iff_eq, decide_eq_true_eq]
                  tauto)]
                exact step (start - 1) (by omega)
              · rw [if_neg (by
                  simp only [Bool.and_eq_true, beq_iff_eq, decide_eq_true_eq]
                  tauto)]
                by_cases h9 : e < text.length ∧ text.getD e 0 = text.getD (start - 1) 0
                · rw [if_pos (by
                    simp only [Bool.and_eq_true, beq_iff_eq, decide_eq_true_eq]
                    tauto)]
                  by_cases h10 : e + 1 < text.length ∧
                      text.getD (e+1) 0 = text.getD (start - 1) 0
                  · rw [if_pos (by
                      simp only [Bool.and_eq_true, beq_iff_eq, decide_eq_true_eq]
                      tauto)]
                    exact step (start - 1) (by omega)
                  · rw [if_neg (by
                      simp only [Bool.and_eq_true, beq_iff_eq, decide_eq_true_eq]
                      tauto)]
                    refine ⟨fun s heq => ?_, fun s ic heq => absurd heq (by simp)⟩
                    obtain rfl : start = s := by simpa using heq
                    exact le_refl _
                · rw [if_neg (by
                    simp only [Bool.and_eq_true, beq_iff_eq, decide_eq_true_eq]
                    tauto)]
                  by_cases h11 : start > effectiveMin + 1 ∧ start ≥ 2
                  · rw [if_pos (by
                      simp only [Bool.and_eq_true, decide_eq_true_eq]
                      tauto)]
                    by_cases h12 : (text.getD (start - 2) 0 == 61 ||
                        text.getD (start - 2) 0 == 58 ||
                        CharacterClassifier.isScanBoundary (text.getD (start - 2) 0) ||
                        CharacterClassifier.isQuoteChar (text.getD (start - 2) 0)) = true
                    · rw [if_pos h12]
                      exact step (start - 1) (by omega)
                    · rw [if_neg h12]
                      exact step (start - 1) (by omega)
                  · rw [if_neg (by
                      simp only [Bool.and_eq_true, decide_eq_true_eq]
                      tauto)]
                    by_cases h13 : start = effectiveMin + 1
                    · rw [if_pos (by simpa using h13)]
                      refine ⟨fun s heq => ?_, fun s ic heq => absurd heq (by simp)⟩
                      obtain rfl : start - 1 = s := by simpa using heq
                      omega
                    · rw [if_neg (by simpa using h13)]
                      exact step (start - 1) (by omega)
            · rw [if_neg h7]
              by_cases h14 : text.getD (start - 1) 0 = 46
              · rw [if_pos (by simpa using h14)]
                exact step (start - 1) (by omega)
              · rw [if_neg (by simpa using h14)]
                by_cases h15 : CharacterClassifier.isAtext (text.getD (start - 1) 0) = true
                · rw [if_pos h15]
                  exact step (start - 1) (by omega)
                · rw [if_neg h15]
                  refine ⟨fun s heq => ?_, fun s ic heq => absurd heq (by simp)⟩
                  obtain rfl : start = s := by simpa using heq
                  exact le_refl _
    · rw [if_neg h1]
      refine ⟨fun s heq => ?_, fun s ic heq => absurd heq (by simp)⟩
      obtain rfl : start = s := by simpa using heq
      exact le_refl _

theorem afterRecovery_skipTo (text : List Nat) (atPos e3 effectiveMin len start0 : Nat)
    (dr : Bool) :
    (EmailScanner.afterRecovery text atPos e3 effectiveMin len start0 dr).skipTo =
        min (atPos + 1) len ∨
      (EmailScanner.afterRecovery text atPos e3 effectiveMin len start0 dr).skipTo = 0 := by
  simp only [EmailScanner.afterRecovery]
  by_cases hge : (if (decide (EmailScanner.leadingDotStrip text atPos (atPos + 1) start0
      < atPos) && decide (EmailScanner.leadingDotStrip text atPos (atPos + 1) start0 >
      effectiveMin) && decide (EmailScanner.leadingDotStrip text atPos (atPos + 1) start0
      > 0)) = true then
        if CharacterClassifier.isInvalidLocalChar
            (text.getD (EmailScanner.leadingDotStrip text atPos (atPos + 1) start0 - 1) 0)
            = true then
          match EmailScanner.findFirstAlnum text atPos (len + 1)
              (EmailScanner.leadingDotStrip text atPos (atPos + 1) start0) with
          | some firstAlnum => firstAlnum
          | none => EmailScanner.leadingDotStrip text atPos (atPos + 1) start0
        else EmailScanner.leadingDotStrip text atPos (atPos + 1) start0
      else EmailScanner.leadingDotStrip text atPos (atPos + 1) start0) ≥ atPos
  · rw [if_pos hge]
    left
    rfl
  · rw [if_neg hge]
    right
    rfl

theorem fe_nobracket (text : List Nat) (atPos ms : Nat) (h1 : atPos + 1 < text.length)
    (hvb : (EmailScanner.findEmailBoundaries text atPos ms).validBoundaries = true) :
    text.getD (atPos + 1) 0 ≠ 91 := by
  intro hcon
  simp only [EmailScanner.findEmailBoundaries] at hvb
  rw [if_neg (by omega)] at hvb
  rw [if_pos (by
    simp only [Bool.and_eq_true, beq_iff_eq, decide_eq_true_eq]
    exact ⟨h1, hcon⟩)] at hvb
  simp at hvb

theorem fe_tail (text : List Nat) (atPos EM E3 ms : Nat) (hms : ms ≤ EM)
    (hEM : EM ≤ atPos) (hlen : atPos < text.length) (r : EmailScanner.EmailBoundaries)
    (hr : r = match EmailScanner.leftScanLoop text atPos EM E3 (atPos + 1) atPos with
      | .done start0 =>
        EmailScanner.afterRecovery text atPos E3 EM text.length start0 false
      | .invalid _ invalidCharPos =>
        match EmailScanner.findFirstAlnum text atPos (text.length + 1)
            (max invalidCharPos EM) with
        | some recoveryPos =>
          EmailScanner.afterRecovery text atPos E3 EM text.length recoveryPos true
        | none =>
          match EmailScanner.findFirstAtext text atPos (text.length + 1)
              (max invalidCharPos EM) with
          | some recoveryPos =>
            EmailScanner.afterRecovery text atPos E3 EM text.length recoveryPos true
          | none => ⟨atPos, atPos, false, min (invalidCharPos + 1) text.length⟩) :
    (r.validBoundaries = true → ms ≤ r.start) ∧ (ms ≤ r.skipTo ∨ r.skipTo = 0) := by
  rcases hls : EmailScanner.leftScanLoop text atPos EM E3 (atPos + 1) atPos with start0 | ⟨s0, icp⟩
  · rw [hls] at hr
    dsimp only at hr
    subst hr
    have hge0 : EM ≤ start0 :=
      (leftScanLoop_ge text atPos EM E3 (atPos+1) atPos hEM).1 start0 hls
    constructor
    · intro hvb
      exact le_trans hms
        (afterRecovery_start_ge text atPos E3 EM text.length start0 false hge0 hvb)
    · rcases afterRecovery_skipTo text atPos E3 EM text.length start0 false with h | h
      · left
        rw [h]
        omega
      · right
        exact h
  · rw [hls] at hr
    dsimp only at hr
    have hicp_ge : EM ≤ icp :=
      (leftScanLoop_ge text atPos EM E3 (atPos+1) atPos hEM).2 s0 icp hls
    have hicp_le : icp ≤ atPos :=
      (leftScanLoop_le text atPos EM E3 (atPos+1) atPos).2 s0 icp hls
    rcases hfa : EmailScanner.findFirstAlnum text atPos (text.length + 1)
        (max icp EM) with _ | rp
    · rw [hfa] at hr
      dsimp only at hr
      rcases hfx : EmailScanner.findFirstAtext text atPos (text.length + 1)
          (max icp EM) with _ | rp2
      · rw [hfx] at hr
        dsimp only at hr
        subst hr
        refine ⟨fun hvb => by simp at hvb, Or.inl ?_⟩
        dsimp only
        omega
      · rw [hfx] at hr
        dsimp only at hr
        subst hr
        have hrp : max icp EM ≤ rp2 :=
          findFirstAtext_ge text atPos (text.length + 1) (max icp EM) rp2 hfx
        constructor
        · intro hvb
          exact le_trans hms (afterRecovery_start_ge text atPos E3 EM text.length rp2 true
            (by omega) hvb)
        · rcases afterRecovery_skipTo text atPos E3 EM text.length rp2 true with h | h
          · left
            rw [h]
            omega
          · right
            exact h
    · rw [hfa] at hr
      dsimp only at hr
      subst hr
      have hrp : max icp EM ≤ rp :=
        findFirstAlnum_ge text atPos (text.length + 1) (max icp EM) rp hfa
      constructor
      · intro hvb
        exact le_trans hms (afterRecovery_start_ge text atPos E3 EM text.length rp true
          (by omega) hvb)
      · rcases afterRecovery_skipTo text atPos E3 EM text.length rp true with h | h
        · left
          rw [h]
          omega
        · right
          exact h

theorem findEmailBoundaries_facts (text : List Nat) (atPos ms : Nat) (hma : ms ≤ atPos) :
    ((EmailScanner.findEmailBoundaries text atPos ms).validBoundaries = true →
      ms ≤ (EmailScanner.findEmailBoundaries text atPos ms).start) ∧
    (ms ≤ (EmailScanner.findEmailBoundaries text atPos ms).skipTo ∨
      (EmailScanner.findEmailBoundaries text atPos ms).skipTo = 0) := by
  simp only [EmailScanner.findEmailBoundaries]
  by_cases h1 : atPos ≥ text.length
  · rw [if_pos h1]
    exact ⟨fun hvb => by simp at hvb, Or.inl hma⟩
  · rw [if_neg h1]
    by_cases h2 : atPos + 1 < text.length ∧ text.getD (atPos + 1) 0 = 91
    · rw [if_pos (by
        simp only [Bool.and_eq_true, beq_iff_eq, decide_eq_true_eq]
        tauto)]
      exact ⟨fun hvb => by simp at hvb, Or.inl (show ms ≤ atPos + 1 by omega)⟩
    · rw [if_neg (by
        simp only [Bool.and_eq_true, beq_iff_eq, decide_eq_true_eq]
        tauto)]
      refine fe_tail text atPos _ _ ms ?_ ?_ (by omega) _ rfl
      · by_cases hb : atPos > EmailScanner.MAX_LEFT_SCAN
        · rw [if_pos hb]
          omega
        · rw [if_neg hb]
      · by_cases hb : atPos > EmailScanner.MAX_LEFT_SCAN
        · rw [if_pos hb]
          simp only [EmailScanner.MAX_LEFT_SCAN] at hb ⊢
          omega
        · rw [if_neg hb]
          exact hma

theorem validateScanMode_bounds (text : List Nat) (s e : Nat)
    (h : LocalPartValidator.validateScanMode text s e = true) :
    s < e ∧ e ≤ text.length ∧ e - s ≤ 64 := by
  unfold LocalPartValidator.validateScanMode at h
  by_cases hg : s ≥ e ∨ e > text.length ∨ e - s > LocalPartValidator.MAX_LOCAL_PART
  · rw [if_pos (by simp only [Bool.or_eq_true, decide_eq_true_eq]; tauto)] at h
    exact absurd h (by simp)
  · push_neg at hg
    simp only [LocalPartValidator.MAX_LOCAL_PART] at hg
    omega

theorem validateDomainLabels_bounds (text : List Nat) (s e : Nat)
    (h : DomainPartValidator.validateDomainLabels text s e = true) :
    s < e ∧ e ≤ text.length ∧ e - s ≤ 253 := by
  unfold DomainPartValidator.validateDomainLabels at h
  by_cases hg : s ≥ e ∨ e > text.length ∨ e - s < 1 ∨ e - s > DomainPartValidator.MAX_DOMAIN_PART
  · rw [if_pos (by simp only [Bool.or_eq_true, decide_eq_true_eq]; tauto)] at h
    exact absurd h (by simp)
  · push_neg at hg
    simp only [DomainPartValidator.MAX_DOMAIN_PART] at hg
    omega

theorem validateDomain_true_elim (text : List Nat) (s e : Nat)
    (h : DomainPartValidator.validate text s e = true) (h91 : text.getD s 0 ≠ 91) :
    s < e ∧ e ≤ text.length ∧
      DomainPartValidator.validateDomainLabels text s e = true := by
  unfold DomainPartValidator.validate at h
  by_cases hg : s ≥ e ∨ e > text.length
  · rw [if_pos (by simp only [Bool.or_eq_true, decide_eq_true_eq]; tauto)] at h
    exact absurd h (by simp)
  · rw [if_neg (by simp only [Bool.or_eq_true, decide_eq_true_eq]; tauto)] at h
    rw [if_neg (by simpa using h91)] at h
    push_neg at hg
    exact ⟨by omega, by omega, h⟩

theorem scanStep_cases (text : List Nat) (pos ms le cs : Nat) (hmp : ms ≤ pos) :
    (∀ p c, EmailScanner.scanStep text pos ms le cs = .next p c → ms ≤ p) ∧
    (∀ atPos s e c, EmailScanner.scanStep text pos ms le cs = .found atPos s e c →
       text.getD atPos 0 = 64 ∧ ms ≤ s ∧ s < atPos ∧ atPos + 1 < e ∧ e ≤ text.length ∧
       1 ≤ atPos ∧ le ≤ atPos ∧ pos ≤ atPos ∧ text.getD (atPos + 1) 0 ≠ 91 ∧
       LocalPartValidator.validateScanMode text s atPos = true ∧
       DomainPartValidator.validateDomainLabels text (atPos + 1) e = true) := by
  simp only [EmailScanner.scanStep]
  rcases hmc : EmailScanner.memchrFrom text (text.length + 1) pos with _ | atPos0
  · exact ⟨fun p c heq => absurd heq (by simp), fun a s e c heq => absurd heq (by simp)⟩
  · obtain ⟨hpa, hal, h64, _⟩ := memchrFrom_sound text (text.length + 1) pos atPos0 hmc
    dsimp only
    by_cases hg1 : atPos0 < 1 ∨ atPos0 ≥ text.length - 3
    · rw [if_pos (by simp only [Bool.or_eq_true, decide_eq_true_eq]; tauto)]
      refine ⟨fun p c heq => ?_, fun a s e c heq => absurd heq (by simp)⟩
      obtain ⟨rfl, rfl⟩ : atPos0 + 1 = p ∧ cs = c := by
        constructor <;> cases heq <;> rfl
      omega
    · rw [if_neg (by simp only [Bool.or_eq_true, decide_eq_true_eq]; tauto)]
      push_neg at hg1
      by_cases hg2 : atPos0 < le
      · rw [if_pos hg2]
        refine ⟨fun p c heq => ?_, fun a s e c heq => absurd heq (by simp)⟩
        obtain ⟨rfl, rfl⟩ : atPos0 + 1 = p ∧ cs = c := by
          constructor <;> cases heq <;> rfl
        omega
      · rw [if_neg hg2]
        push_neg at hg2
        have hfe := findEmailBoundaries_facts text atPos0 ms (by omega)
        by_cases hov : cs + (atPos0 - (EmailScanner.findEmailBoundaries text atPos0 ms).start)
            + ((EmailScanner.findEmailBoundaries text atPos0 ms).stop - atPos0) >
            EmailScanner.MAX_TOTAL_CHARS_SCANNED
        · rw [if_pos hov]
          exact ⟨fun p c heq => absurd heq (by simp),
                 fun a s e c heq => absurd heq (by simp)⟩
        · rw [if_neg hov]
          by_cases hvb : (EmailScanner.findEmailBoundaries text atPos0 ms).validBoundaries
              = true
          · rw [if_neg (by rw [hvb]; decide)]
            by_cases hval : (LocalPartValidator.validate text
                (EmailScanner.findEmailBoundaries text atPos0 ms).start atPos0 .SCAN &&
               DomainPartValidator.validate text (atPos0 + 1)
                (EmailScanner.findEmailBoundaries text atPos0 ms).stop) = true
            · rw [if_pos hval]
              refine ⟨fun p c heq => absurd heq (by simp), fun a s e c heq => ?_⟩
              obtain ⟨rfl, rfl, rfl, rfl⟩ : atPos0 = a ∧
                  (EmailScanner.findEmailBoundaries text atPos0 ms).start = s ∧
                  (EmailScanner.findEmailBoundaries text atPos0 ms).stop = e ∧
                  cs + (atPos0 - (EmailScanner.findEmailBoundaries text atPos0 ms).start)
                    + ((EmailScanner.findEmailBoundaries text atPos0 ms).stop - atPos0)
                    = c := by
                refine ⟨?_, ?_, ?_, ?_⟩ <;> cases heq <;> rfl
              simp only [Bool.and_eq_true] at hval
              obtain ⟨hvloc, hvdom⟩ := hval
              rw [validate_SCAN_eq] at hvloc
              have hbr : text.getD (atPos0 + 1) 0 ≠ 91 :=
                fe_nobracket text atPos0 ms (by omega) hvb
              obtain ⟨hd1, hd2, hd3⟩ := validateDomain_true_elim text (atPos0 + 1)
                (EmailScanner.findEmailBoundaries text atPos0 ms).stop hvdom hbr
              obtain ⟨hl1, hl2, _⟩ := validateScanMode_bounds text
                (EmailScanner.findEmailBoundaries text atPos0 ms).start atPos0 hvloc
              exact ⟨h64, hfe.1 hvb, hl1, hd1, hd2, by omega, by omega, hpa, hbr,
                hvloc, hd3⟩
            · rw [if_neg hval]
              refine ⟨fun p c heq => ?_, fun a s e c heq => absurd heq (by simp)⟩
              obtain ⟨rfl, rfl⟩ : atPos0 + 1 = p ∧
                  cs + (atPos0 - (EmailScanner.findEmailBoundaries text atPos0 ms).start)
                    + ((EmailScanner.findEmailBoundaries text atPos0 ms).stop - atPos0)
                    = c := by
                constructor <;> cases heq <;> rfl
              omega
          · rw [Bool.not_eq_true] at hvb
            rw [if_pos (by rw [hvb]; decide)]
            refine ⟨fun p c heq => ?_, fun a s e c heq => absurd heq (by simp)⟩
            obtain ⟨rfl, rfl⟩ : (if (EmailScanner.findEmailBoundaries text atPos0 ms).skipTo
                > 0 then (EmailScanner.findEmailBoundaries text atPos0 ms).skipTo
                else atPos0 + 1) = p ∧
                cs + (atPos0 - (EmailScanner.findEmailBoundaries text atPos0 ms).start)
                  + ((EmailScanner.findEmailBoundaries text atPos0 ms).stop - atPos0)
                  = c := by
              constructor <;> cases heq <;> rfl
            by_cases hsk : (EmailScanner.findEmailBoundaries text atPos0 ms).skipTo > 0
            · rw [if_pos hsk]
              rcases hfe.2 with h | h
              · exact h
              · omega
            · rw [if_neg hsk]
              omega

theorem subspan_isInfix (text : List Nat) (s e : Nat) : subspan text s e <:+: text :=
  ((List.take_prefix _ _).isInfix).trans ((List.drop_suffix _ _).isInfix)

theorem extractLoop_inv (text : List Nat) :
    ∀ fuel pos ms le cs seen emails spans cnt,
      ms ≤ pos →
      emails.Nodup →
      (∀ m ∈ emails, m ∈ seen) →
      (∀ p ∈ spans, p.1 ≤ ms) →
      spans.Pairwise (fun p q : Nat × Nat => p.1 ≤ q.1) →
      (∀ m ∈ emails, GoodMatch text m) →
      (EmailScanner.extractLoop text fuel pos ms le cs seen emails spans cnt).1.Nodup ∧
      (EmailScanner.extractLoop text fuel pos ms le cs seen emails spans
        cnt).2.Pairwise (fun p q => p.1 ≤ q.1) ∧
      (∀ m ∈ (EmailScanner.extractLoop text fuel pos ms le cs seen emails spans cnt).1,
        GoodMatch text m) := by
  intro fuel
  induction fuel with
  | zero =>
    intro pos ms le cs seen emails spans cnt h1 h2 h3 h4 h5 h6
    simp only [EmailScanner.extractLoop]
    by_cases hp : pos < text.length
    · rw [if_pos hp]
      exact ⟨h2, h5, h6⟩
    · rw [if_neg hp]
      exact ⟨h2, h5, h6⟩
  | succ fuel ih =>
    intro pos ms le cs seen emails spans cnt h1 h2 h3 h4 h5 h6
    simp only [EmailScanner.extractLoop]
    by_cases hp : pos < text.length
    · rw [if_pos hp]
      by_cases hcnt : cnt ≥ EmailScanner.MAX_EMAILS_EXTRACT
      · rw [if_pos hcnt]
        exact ⟨h2, h5, h6⟩
      · rw [if_neg hcnt]
        have hsc := scanStep_cases text pos ms le cs h1
        rcases hstep : EmailScanner.scanStep text pos ms le cs with _ | _ | ⟨p, c⟩ |
          ⟨atPos, s, e, c⟩
        · dsimp only
          exact ⟨h2, h5, h6⟩
        · dsimp only
          exact ⟨h2, h5, h6⟩
        · dsimp only
          exact ih p ms le c seen emails spans cnt (hsc.1 p c hstep) h2 h3 h4 h5 h6
        · dsimp only
          obtain ⟨h64, hms_s, hs_a, ha_e, he_len, ha1, hle_a, hpos_a, hbr, hvloc, hvdom⟩ :=
            hsc.2 atPos s e c hstep
          rw [if_neg (by
            simp only [Bool.or_eq_true, decide_eq_true_eq]
            push_neg
            omega)]
          by_cases hseen : List.contains seen (subspan text s e) = true
          · simp only [hseen, Bool.not_true, Bool.false_eq_true, if_false]
            exact ih e (max ms s) (max le e) c seen emails spans cnt (by omega) h2 h3
              (fun p hp2 => le_trans (h4 p hp2) (le_max_left ms s)) h5 h6
          · rw [Bool.not_eq_true] at hseen
            have hnm : subspan text s e ∉ seen := by simpa using hseen
            simp only [hseen, Bool.not_false, if_true]
            refine ih e (max ms s) (max le e) c (subspan text s e :: seen)
              (emails ++ [subspan text s e]) (spans ++ [(s, e)]) (cnt + 1)
              (by omega) ?_ ?_ ?_ ?_ ?_
            · rw [List.nodup_append]
              refine ⟨h2, List.nodup_singleton _, ?_⟩
              intro a ha hb
              rw [List.mem_singleton] at hb
              rw [hb] at ha
              exact hnm (h3 _ ha)
            · intro m hm
              rw [List.mem_append] at hm
              rcases hm with hm | hm
              · exact List.mem_cons_of_mem _ (h3 m hm)
              · rw [List.mem_singleton] at hm
                rw [hm]
                exact List.mem_cons_self _ _
            · intro p hp2
              rw [List.mem_append] at hp2
              rcases hp2 with hp2 | hp2
              · exact le_trans (h4 p hp2) (le_max_left ms s)
              · rw [List.mem_singleton] at hp2
                rw [hp2]
                exact le_max_right ms s
            · rw [List.pairwise_append]
              refine ⟨h5, List.pairwise_singleton _ _, ?_⟩
              intro a ha b hb
              rw [List.mem_singleton] at hb
              rw [hb]
              exact le_trans (h4 a ha) hms_s
            · intro m hm
              rw [List.mem_append] at hm
              rcases hm with hm | hm
              · exact h6 m hm
              · rw [List.mem_singleton] at hm
                rw [hm]
                exact ⟨s, atPos, e, rfl, he_len, hs_a, ha_e, h64, hbr, hvloc, hvdom⟩
    · rw [if_neg hp]
      exact ⟨h2, h5, h6⟩

theorem extract_mem_good (text m : List Nat)
    (hm : m ∈ EmailScanner.extractModel text) : GoodMatch text m := by
  unfold EmailScanner.extractModel EmailScanner.extractFull at hm
  by_cases hg1 : text.length > EmailScanner.MAX_INPUT_SIZE ∨ text.length < 5
  · rw [if_pos (by simp only [Bool.or_eq_true, decide_eq_true_eq]; tauto)] at hm
    simp at hm
  · rw [if_neg (by simp only [Bool.or_eq_true, decide_eq_true_eq]; tauto)] at hm
    rw [if_neg (by simp)] at hm
    exact (extractLoop_inv text EmailScanner.MAX_SCAN_ITERATIONS 0 0 0 0 [] [] [] 0
      (le_refl 0) List.nodup_nil (fun m hm2 => absurd hm2 (by simp))
      (fun p hp => absurd hp (by simp)) List.Pairwise.nil
      (fun m hm2 => absurd hm2 (by simp))).2.2 m hm

theorem goodMatch_props (text m : List Nat) (h : GoodMatch text m) :
    ∃ a, 1 ≤ a ∧ a ≤ 64 ∧ a + 1 < m.length ∧ m.length ≤ 318 ∧
      m.getD a 0 = 64 ∧ m.count 64 = 1 ∧
      (∀ i, i < m.length → m.getD i 0 = 64 → i = a) ∧
      m.getD (a + 1) 0 ≠ 91 ∧
      LocalPartValidator.validateScanMode m 0 a = true ∧
      DomainPartValidator.validateDomainLabels m (a + 1) m.length = true := by
  obtain ⟨s, atPos, e, hm, he, hsa, hae, h64, hbr, hvloc, hvdom⟩ := h
  obtain ⟨_, _, hl64⟩ := validateScanMode_bounds text s atPos hvloc
  obtain ⟨_, _, hd253⟩ := validateDomainLabels_bounds text (atPos + 1) e hvdom
  have hmlen : m.length = e - s := by rw [hm]; exact subspan_length text s e he
  refine ⟨atPos - s, by omega, by omega, by omega, by omega, ?_, ?_, ?_, ?_, ?_, ?_⟩
  · rw [hm, subspan_getD text s e (atPos - s) 0 (by omega) he,
      show s + (atPos - s) = atPos from by omega]
    exact h64
  · -- exactly one at-sign: split at the anchor and show the two sides have none
    have hsplit : m = subspan text s atPos ++ 64 :: subspan text (atPos + 1) e := by
      rw [hm, subspan_split text s atPos e (by omega) (by omega) he, h64]
    rw [hsplit]
    refine count64_one _ _ ?_ ?_
    · intro cc hcc
      have hspec : specLocalScan (subspan text s atPos) = true := by
        rw [← validateScanMode_eq text s atPos (by omega)]
        exact hvloc
      rcases specLocalScan_chars _ hspec cc hcc with h46 | hat
      · omega
      · exact atext_ne_64 cc hat
    · intro cc hcc
      have hspec : specDomain (subspan text (atPos + 1) e) = true := by
        rw [← validateDomainLabels_eq_specDomain text (atPos + 1) e (by omega) he]
        exact hvdom
      rcases specDomain_chars _ hspec cc hcc with hal | h45 | h46
      · exact alnum_ne_64 cc hal
      · omega
      · omega
  · intro i hi hi64
    by_cases hcmp : i < atPos - s
    · exfalso
      have hmem : text.getD (s + i) 0 ∈ subspan text s atPos := by
        rw [mem_subspan text s atPos _ (by omega)]
        exact ⟨s + i, by omega, by omega, rfl⟩
      have hspec : specLocalScan (subspan text s atPos) = true := by
        rw [← validateScanMode_eq text s atPos (by omega)]
        exact hvloc
      rw [hm, subspan_getD text s e i 0 (by omega) he] at hi64
      rcases specLocalScan_chars _ hspec _ hmem with h46 | hat
      · omega
      · exact atext_ne_64 _ hat hi64
    · by_cases hcmp2 : i = atPos - s
      · exact hcmp2
      · exfalso
        have hmem : text.getD (s + i) 0 ∈ subspan text (atPos + 1) e := by
          rw [mem_subspan text (atPos + 1) e _ he]
          exact ⟨s + i, by omega, by omega, rfl⟩
        have hspec : specDomain (subspan text (atPos + 1) e) = true := by
          rw [← validateDomainLabels_eq_specDomain text (atPos + 1) e (by omega) he]
          exact hvdom
        rw [hm, subspan_getD text s e i 0 (by omega) he] at hi64
        rcases specDomain_chars _ hspec _ hmem with hal | h45 | h46
        · exact alnum_ne_64 _ hal hi64
        · omega
        · omega
  · rw [hm, subspan_getD text s e (atPos - s + 1) 0 (by omega) he,
      show s + (atPos - s + 1) = atPos + 1 from by omega]
    exact hbr
  · rw [validateScanMode_eq m 0 (atPos - s) (by omega)]
    rw [hm, subspan_subspan text s e 0 (atPos - s) (by omega),
      show s + 0 = s from by omega, show s + (atPos - s) = atPos from by omega]
    rw [← validateScanMode_eq text s atPos (by omega)]
    exact hvloc
  · rw [validateDomainLabels_eq_specDomain m (atPos - s + 1) m.length (by omega)
      (le_refl m.length)]
    rw [hmlen]
    rw [hm, subspan_subspan text s e (atPos - s + 1) (e - s) (by omega),
      show s + (atPos - s + 1) = atPos + 1 from by omega,
      show s + (e - s) = e from by omega]
    rw [← validateDomainLabels_eq_specDomain text (atPos + 1) e (by omega) he]
    exact hvdom

/-- C3 (amended): `extract` never returns two equal strings, and the spans it
records appear in non-decreasing start order (first-occurrence order); the
original claim's non-overlap of spans is refuted by `C3_counterexample`. -/
theorem C3_extract_nodup_ordered (text : List Nat) :
    (EmailScanner.extractModel text).Nodup ∧
    (EmailScanner.extractSpans text).Pairwise (fun p q => p.1 ≤ q.1) := by
  unfold EmailScanner.extractModel EmailScanner.extractSpans EmailScanner.extractFull
  by_cases hg1 : text.length > EmailScanner.MAX_INPUT_SIZE ∨ text.length < 5
  · rw [if_pos (by simp only [Bool.or_eq_true, decide_eq_true_eq]; tauto)]
    exact ⟨List.nodup_nil, List.Pairwise.nil⟩
  · rw [if_neg (by simp only [Bool.or_eq_true, decide_eq_true_eq]; tauto)]
    rw [if_neg (by simp)]
    have h := extractLoop_inv text EmailScanner.MAX_SCAN_ITERATIONS 0 0 0 0 [] [] [] 0
      (le_refl 0) List.nodup_nil (fun m hm2 => absurd hm2 (by simp))
      (fun p hp => absurd hp (by simp)) List.Pairwise.nil
      (fun m hm2 => absurd hm2 (by simp))
    exact ⟨h.1, h.2.1⟩

/-- C10: every string `m` returned by `extract` is a contiguous substring of
the input containing exactly one at-sign byte; the at-sign sits at a
position `a` with 1 ≤ a ≤ 64, the prefix `m[0, a)` passes scan-mode
local-part validation (so it is 1-64 bytes, does not begin with `"` or `.`,
does not end with `.`, has no consecutive dots and consists of atext bytes
and dots), and the suffix `m[a+1, |m|)` passes domain-part validation. -/
theorem C10_extract_invariant (text m : List Nat)
    (hm : m ∈ EmailScanner.extractModel text) :
    m <:+: text ∧
    ∃ a, 1 ≤ a ∧ a ≤ 64 ∧ a + 1 < m.length ∧
      m.getD a 0 = 64 ∧ m.count 64 = 1 ∧
      LocalPartValidator.validateScanMode m 0 a = true ∧
      DomainPartValidator.validate m (a + 1) m.length = true := by
  have hg := extract_mem_good text m hm
  constructor
  · obtain ⟨s, atPos, e, hmeq, _⟩ := hg
    rw [hmeq]
    exact subspan_isInfix text s e
  · obtain ⟨a, ha1, ha64, halen, _, hat, hcount, _, hbr, hvloc, hvdom⟩ :=
      goodMatch_props text m hg
    refine ⟨a, ha1, ha64, halen, hat, hcount, hvloc, ?_⟩
    unfold DomainPartValidator.validate
    rw [if_neg (by
      simp only [Bool.or_eq_true, decide_eq_true_eq]
      push_neg
      omega)]
    rw [if_neg (by simpa using hbr)]
    exact hvdom

theorem C10_extract_invariant_witness :
    bytes "a@b.co" ∈ EmailScanner.extractModel (bytes "xx a@b.co xx") ∧
    (bytes "a@b.co" <:+: bytes "xx a@b.co xx" ∧
     ∃ a, 1 ≤ a ∧ a ≤ 64 ∧ a + 1 < (bytes "a@b.co").length ∧
       (bytes "a@b.co").getD a 0 = 64 ∧ (bytes "a@b.co").count 64 = 1 ∧
       LocalPartValidator.validateScanMode (bytes "a@b.co") 0 a = true ∧
       DomainPartValidator.validate (bytes "a@b.co") (a + 1)
         (bytes "a@b.co").length = true) :=
  ⟨by decide, C10_extract_invariant (bytes "xx a@b.co xx") (bytes "a@b.co") (by decide)⟩

/-- C8: an at-sign anchor immediately followed by `[` never yields a scanner
match (the shared per-iteration scan step of `contains` and `extract` only
reports a match when the byte after the anchor is not `[`), and no string
returned by `extract` contains the two-byte sequence `@[`. -/
theorem C8_no_bracket_match :
    (∀ text pos ms le cs atPos s e c,
       EmailScanner.scanStep text pos ms le cs = .found atPos s e c →
       text.getD (atPos + 1) 0 ≠ 91) ∧
    (∀ text m, m ∈ EmailScanner.extractModel text →
       ∀ i, i + 1 < m.length → ¬(m.getD i 0 = 64 ∧ m.getD (i + 1) 0 = 91)) := by
  constructor
  · intro text pos ms le cs atPos s e c heq
    simp only [EmailScanner.scanStep] at heq
    rcases hmc : EmailScanner.memchrFrom text (text.length + 1) pos with _ | atPos0
    · rw [hmc] at heq
      exact absurd heq (by simp)
    · rw [hmc] at heq
      dsimp only at heq
      by_cases hg1 : atPos0 < 1 ∨ atPos0 ≥ text.length - 3
      · rw [if_pos (by simp only [Bool.or_eq_true, decide_eq_true_eq]; tauto)] at heq
        exact absurd heq (by simp)
      · rw [if_neg (by simp only [Bool.or_eq_true, decide_eq_true_eq]; tauto)] at heq
        push_neg at hg1
        by_cases hg2 : atPos0 < le
        · rw [if_pos hg2] at heq
          exact absurd heq (by simp)
        · rw [if_neg hg2] at heq
          by_cases hov : cs + (atPos0 - (EmailScanner.findEmailBoundaries text atPos0
              ms).start) + ((EmailScanner.findEmailBoundaries text atPos0 ms).stop -
              atPos0) > EmailScanner.MAX_TOTAL_CHARS_SCANNED
          · rw [if_pos hov] at heq
            exact absurd heq (by simp)
          · rw [if_neg hov] at heq
            by_cases hvb : (EmailScanner.findEmailBoundaries text atPos0
                ms).validBoundaries = true
            · rw [if_neg (by rw [hvb]; decide)] at heq
              by_cases hval : (LocalPartValidator.validate text
                  (EmailScanner.findEmailBoundaries text atPos0 ms).start atPos0 .SCAN &&
                 DomainPartValidator.validate text (atPos0 + 1)
                  (EmailScanner.findEmailBoundaries text atPos0 ms).stop) = true
              · rw [if_pos hval] at heq
                obtain rfl : atPos0 = atPos := by cases heq <;> rfl
                exact fe_nobracket text atPos0 ms (by omega) hvb
              · rw [if_neg hval] at heq
                exact absurd heq (by simp)
            · rw [Bool.not_eq_true] at hvb
              rw [if_pos (by rw [hvb]; decide)] at heq
              exact absurd heq (by simp)
  · intro text m hm i hilen ⟨hi64, hi91⟩
    have hg := extract_mem_good text m hm
    obtain ⟨a, _, _, _, _, _, _, huniq, hbr, _, _⟩ := goodMatch_props text m hg
    have : i = a := huniq i (by omega) hi64
    rw [this] at hi91
    exact hbr hi91

theorem C8_no_bracket_match_witness :
    (bytes "a@b.co" ∈ EmailScanner.extractModel (bytes "xx a@b.co xx") ∧
     1 + 1 < (bytes "a@b.co").length) ∧
    ¬((bytes "a@b.co").getD 1 0 = 64 ∧ (bytes "a@b.co").getD 2 0 = 91) :=
  ⟨⟨by decide, by decide⟩,
   C8_no_bracket_match.2 (bytes "xx a@b.co xx") (bytes "a@b.co") (by decide) 1
     (by decide)⟩

theorem domainEndLoop_stop (text : List Nat) (fuel e : Nat)
    (h : (decide (e < text.length) &&
      CharacterClassifier.isDomainChar (text.getD e 0)) = false) :
    EmailScanner.domainEndLoop text (fuel+1) e = e := by
  simp only [EmailScanner.domainEndLoop]
  rw [if_neg (by rw [h]; decide)]

theorem domainEndLoop_step (text : List Nat) (fuel e : Nat) (h1 : e < text.length)
    (h2 : CharacterClassifier.isDomainChar (text.getD e 0) = true) :
    EmailScanner.domainEndLoop text (fuel+1) e =
      EmailScanner.domainEndLoop text fuel (e+1) := by
  simp only [EmailScanner.domainEndLoop]
  rw [if_pos (by
    simp only [Bool.and_eq_true, decide_eq_true_eq]
    exact ⟨h1, h2⟩)]

theorem trimDotsLoop_stop (text : List Nat) (lo fuel e : Nat)
    (h : (decide (e > lo) && (text.getD (e-1) 0 == 46)) = false) :
    EmailScanner.trimDotsLoop text lo (fuel+1) e = e := by
  simp only [EmailScanner.trimDotsLoop]
  rw [if_neg (by rw [h]; decide)]

theorem trimHyphensLoop_stop (text : List Nat) (lo fuel e : Nat)
    (h : (decide (e > lo) && (text.getD (e-1) 0 == 45)) = false) :
    EmailScanner.trimHyphensLoop text lo (fuel+1) e = e := by
  simp only [EmailScanner.trimHyphensLoop]
  rw [if_neg (by rw [h]; decide)]

theorem leadingDotStrip_stop (text : List Nat) (atPos fuel start : Nat)
    (h : (decide (start < atPos) && (text.getD start 0 == 46)) = false) :
    EmailScanner.leadingDotStrip text atPos (fuel+1) start = start := by
  simp only [EmailScanner.leadingDotStrip]
  rw [if_neg (by rw [h]; decide)]

theorem leftScan_done64 (text : List Nat) (atPos effectiveMin e fuel start : Nat)
    (h1 : start > effectiveMin) (h2 : text.getD (start - 1) 0 = 64) :
    EmailScanner.leftScanLoop text atPos effectiveMin e (fuel+1) start = .done start := by
  simp only [EmailScanner.leftScanLoop]
  rw [if_pos h1, if_pos (by simpa using h2)]

theorem leftScan_atext_step (text : List Nat) (atPos effectiveMin e fuel start : Nat)
    (h1 : start > effectiveMin)
    (h2 : CharacterClassifier.isAtext (text.getD (start - 1) 0) = true)
    (h3 : text.getD (start - 1) 0 ≠ 46)
    (h4 : CharacterClassifier.isQuoteChar (text.getD (start - 1) 0) = false) :
    EmailScanner.leftScanLoop text atPos effectiveMin e (fuel+1) start =
      EmailScanner.leftScanLoop text atPos effectiveMin e fuel (start - 1) := by
  simp only [EmailScanner.leftScanLoop]
  rw [if_pos h1]
  rw [if_neg (by
    simp only [beq_iff_eq]
    exact atext_ne_64 _ h2)]
  rw [if_neg (by
    simp only [Bool.and_eq_true, beq_iff_eq, decide_eq_true_eq]
    rintro ⟨⟨⟨hcon, _⟩, _⟩, _⟩
    exact h3 hcon)]
  rw [if_neg (by rw [atext_not_invalid _ h2]; decide)]
  rw [if_neg (by rw [h4]; decide)]
  rw [if_neg (by simpa using h3)]
  rw [if_pos h2]

theorem c1text_length : c1text.length = 100008 := by
  unfold c1text
  rw [List.length_append, List.length_replicate]
  decide

theorem c1text_getD_low (j : Nat) (hj : j < 100000) : c1text.getD j 0 = 64 := by
  unfold c1text
  rw [List.getD_eq_getElem?_getD, List.getElem?_append]
  rw [if_pos (by rw [List.length_replicate]; omega)]
  rw [List.getElem?_replicate, if_pos hj]
  rfl

theorem c1text_getD_hi (k : Nat) :
    c1text.getD (100000 + k) 0 = (bytes "ab@cd.ef").getD k 0 := by
  unfold c1text
  rw [List.getD_eq_getElem?_getD,
    List.getElem?_append_right (by rw [List.length_replicate]; omega)]
  rw [List.length_replicate, show 100000 + k - 100000 = k from by omega]
  rw [← List.getD_eq_getElem?_getD]

theorem c1text_vals :
    c1text.getD 100000 0 = 97 ∧ c1text.getD 100001 0 = 98 ∧
    c1text.getD 100002 0 = 64 ∧ c1text.getD 100003 0 = 99 ∧
    c1text.getD 100004 0 = 100 ∧ c1text.getD 100005 0 = 46 ∧
    c1text.getD 100006 0 = 101 ∧ c1text.getD 100007 0 = 102 := by
  refine ⟨?_, ?_, ?_, ?_, ?_, ?_, ?_, ?_⟩
  · rw [show (100000 : Nat) = 100000 + 0 from rfl, c1text_getD_hi]
    decide
  · rw [show (100001 : Nat) = 100000 + 1 from rfl, c1text_getD_hi]
    decide
  · rw [show (100002 : Nat) = 100000 + 2 from rfl, c1text_getD_hi]
    decide
  · rw [show (100003 : Nat) = 100000 + 3 from rfl, c1text_getD_hi]
    decide
  · rw [show (100004 : Nat) = 100000 + 4 from rfl, c1text_getD_hi]
    decide
  · rw [show (100005 : Nat) = 100000 + 5 from rfl, c1text_getD_hi]
    decide
  · rw [show (100006 : Nat) = 100000 + 6 from rfl, c1text_getD_hi]
    decide
  · rw [show (100007 : Nat) = 100000 + 7 from rfl, c1text_getD_hi]
    decide

theorem domainEndLoop_stop2 (text : List Nat) (fuel e : Nat)
    (h : (decide (e < text.length) &&
      CharacterClassifier.isDomainChar (text.getD e 0)) = false) :
    EmailScanner.domainEndLoop text fuel e = e := by
  cases fuel with
  | zero => rfl
  | succ fuel => exact domainEndLoop_stop text fuel e h

theorem domainEndLoop_step2 (text : List Nat) (fuel e : Nat) (hf : fuel ≠ 0)
    (h1 : e < text.length)
    (h2 : CharacterClassifier.isDomainChar (text.getD e 0) = true) :
    EmailScanner.domainEndLoop text fuel e =
      EmailScanner.domainEndLoop text (fuel - 1) (e+1) := by
  cases fuel with
  | zero => exact absurd rfl hf
  | succ fuel =>
    rw [domainEndLoop_step text fuel e h1 h2]
    congr 1

theorem trimDotsLoop_stop2 (text : List Nat) (lo fuel e : Nat)
    (h : (decide (e > lo) && (text.getD (e-1) 0 == 46)) = false) :
    EmailScanner.trimDotsLoop text lo fuel e = e := by
  cases fuel with
  | zero => rfl
  | succ fuel => exact trimDotsLoop_stop text lo fuel e h

theorem trimHyphensLoop_stop2 (text : List Nat) (lo fuel e : Nat)
    (h : (decide (e > lo) && (text.getD (e-1) 0 == 45)) = false) :
    EmailScanner.trimHyphensLoop text lo fuel e = e := by
  cases fuel with
  | zero => rfl
  | succ fuel => exact trimHyphensLoop_stop text lo fuel e h

theorem leadingDotStrip_stop2 (text : List Nat) (atPos fuel start : Nat)
    (h : (decide (start < atPos) && (text.getD start 0 == 46)) = false) :
    EmailScanner.leadingDotStrip text atPos fuel start = start := by
  cases fuel with
  | zero => rfl
  | succ fuel => exact leadingDotStrip_stop text atPos fuel start h

theorem leftScan_done64_2 (text : List Nat) (atPos effectiveMin e fuel start : Nat)
    (h1 : start > effectiveMin) (h2 : text.getD (start - 1) 0 = 64) :
    EmailScanner.leftScanLoop text atPos effectiveMin e fuel start = .done start := by
  cases fuel with
  | zero => rfl
  | succ fuel => exact leftScan_done64 text atPos effectiveMin e fuel start h1 h2

theorem fe_run_mid (text : List Nat) (hlen : text.length = 100008)
    (hlow : ∀ t, t < 100000 → text.getD t 0 = 64)
    (hv0 : text.getD 100000 0 = 97) (hv1 : text.getD 100001 0 = 98)
    (hv2 : text.getD 100002 0 = 64)
    (j : Nat) (h1 : 1 ≤ j) (h2 : j ≤ 99999) :
    EmailScanner.findEmailBoundaries text j 0 = ⟨j, j, false, j + 1⟩ := by
  simp only [EmailScanner.findEmailBoundaries]
  rw [hlen]
  rw [if_neg (show ¬(j ≥ 100008) from by omega)]
  have hj1val : text.getD (j+1) 0 = 64 ∨ text.getD (j+1) 0 = 97 := by
    by_cases h : j + 1 < 100000
    · exact Or.inl (hlow (j+1) h)
    · right
      rw [show j + 1 = 100000 from by omega]
      exact hv0
  rw [if_neg (show ¬((decide (j + 1 < 100008) && (text.getD (j+1) 0 == 91)) = true) from by
    simp only [Bool.and_eq_true, beq_iff_eq, decide_eq_true_eq]
    rintro ⟨_, hcon⟩
    rcases hj1val with h | h <;> rw [h] at hcon <;> omega)]
  obtain ⟨EM, hEM⟩ : ∃ x, (if j > EmailScanner.MAX_LEFT_SCAN then
      max 0 (j - EmailScanner.MAX_LEFT_SCAN) else 0) = x := ⟨_, rfl⟩
  rw [hEM]
  have hEMlt : EM < j := by
    rw [← hEM]
    by_cases hb : j > EmailScanner.MAX_LEFT_SCAN
    · rw [if_pos hb]
      simp only [EmailScanner.MAX_LEFT_SCAN] at hb ⊢
      omega
    · rw [if_neg hb]
      omega
  have hAR : ∀ e3v, EmailScanner.afterRecovery text j e3v EM 100008 j false =
      ⟨j, j, false, j + 1⟩ := by
    intro e3v
    simp only [EmailScanner.afterRecovery]
    rw [leadingDotStrip_stop2 text j (j+1) j (by
      rw [show decide (j < j) = false from by simp, Bool.false_and])]
    rw [if_neg (show ¬((decide (j < j) && decide (j > EM) && decide (j > 0)) = true) from by
      simp only [Bool.and_eq_true, decide_eq_true_eq]
      rintro ⟨⟨hcon, _⟩, _⟩
      omega)]
    rw [if_pos (show j ≥ j from le_refl j)]
    rw [Nat.min_eq_left (by omega)]
  by_cases hj9 : j + 1 < 100000
  · have hjv : text.getD (j+1) 0 = 64 := hlow _ hj9
    have he1 : EmailScanner.domainEndLoop text 100008 (j+1) = j + 1 := by
      refine domainEndLoop_stop2 text 100008 (j+1) ?_
      rw [hjv, show CharacterClassifier.isDomainChar 64 = false from by decide,
        Bool.and_false]
    rw [he1]
    rw [trimDotsLoop_stop2 text (j+1) (j+1) (j+1) (by
      rw [show decide (j+1 > j+1) = false from by simp, Bool.false_and])]
    rw [if_pos (show (decide (j + 1 < 100008) && (text.getD (j+1) 0 == 64)) = true from by
      simp only [Bool.and_eq_true, beq_iff_eq, decide_eq_true_eq]
      exact ⟨by omega, hjv⟩)]
    rw [trimHyphensLoop_stop2 text (j+1) (j+1) (j+1) (by
      rw [show decide (j+1 > j+1) = false from by simp, Bool.false_and])]
    rw [leftScan_done64_2 text j EM (j+1) (j+1) j hEMlt (hlow (j-1) (by omega))]
    dsimp only
    exact hAR (j+1)
  · have hj99 : j = 99999 := by omega
    subst hj99
    rw [show (99999 : Nat) + 1 = 100000 from by norm_num]
    have he1 : EmailScanner.domainEndLoop text 100008 100000 = 100002 := by
      rw [domainEndLoop_step2 text 100008 100000 (by norm_num)
        (by rw [hlen]; norm_num) (by rw [hv0]; decide)]
      rw [show (100008 : Nat) - 1 = 100007 from by norm_num]
      rw [domainEndLoop_step2 text 100007 100001 (by norm_num)
        (by rw [hlen]; norm_num) (by rw [hv1]; decide)]
      rw [show (100007 : Nat) - 1 = 100006 from by norm_num]
      refine domainEndLoop_stop2 text 100006 100002 ?_
      rw [hv2, show CharacterClassifier.isDomainChar 64 = false from by decide,
        Bool.and_false]
    rw [he1]
    rw [trimDotsLoop_stop2 text 100000 100002 100002 (by
      rw [show (100002 : Nat) - 1 = 100001 from by norm_num, hv1]
      decide)]
    rw [if_pos (show (decide ((100002 : Nat) < 100008) && (text.getD 100002 0 == 64))
        = true from by
      rw [hv2]
      decide)]
    rw [trimHyphensLoop_stop2 text 100000 100002 100002 (by
      rw [show (100002 : Nat) - 1 = 100001 from by norm_num, hv1]
      decide)]
    rw [leftScan_done64_2 text 99999 EM 100002 100000 99999 hEMlt (by
      rw [show (99999 : Nat) - 1 = 99998 from by norm_num]
      exact hlow 99998 (by omega))]
    dsimp only
    exact hAR 100002

theorem scanStep_run_mid (text : List Nat) (hlen : text.length = 100008)
    (hlow : ∀ t, t < 100000 → text.getD t 0 = 64)
    (hv0 : text.getD 100000 0 = 97) (hv1 : text.getD 100001 0 = 98)
    (hv2 : text.getD 100002 0 = 64)
    (j : Nat) (h1 : 1 ≤ j) (h2 : j ≤ 99999) :
    EmailScanner.scanStep text j 0 0 0 = .next (j+1) 0 := by
  simp only [EmailScanner.scanStep]
  have hmc : EmailScanner.memchrFrom text (text.length + 1) j = some j :=
    memchrFrom_complete text j (by rw [hlen]; omega)
      (hlow j (by omega)) 0 j (by omega) (le_refl j)
      (fun t ht1 ht2 => by omega) (text.length + 1) (by rw [hlen]; omega)
  rw [hmc]
  dsimp only
  rw [if_neg (by
    simp only [Bool.or_eq_true, decide_eq_true_eq, hlen]
    omega)]
  rw [if_neg (by omega)]
  rw [fe_run_mid text hlen hlow hv0 hv1 hv2 j h1 h2]
  dsimp only
  rw [if_neg (by
    simp only [EmailScanner.MAX_TOTAL_CHARS_SCANNED]
    omega)]
  rw [if_pos (by decide)]
  rw [if_pos (by omega)]
  rw [show 0 + (j - j) + (j - j) = 0 from by omega]

theorem scanStep_run_zero (text : List Nat) (hlen : text.length = 100008)
    (hlow : ∀ t, t < 100000 → text.getD t 0 = 64) :
    EmailScanner.scanStep text 0 0 0 0 = .next 1 0 := by
  simp only [EmailScanner.scanStep]
  have hmc : EmailScanner.memchrFrom text (text.length + 1) 0 = some 0 :=
    memchrFrom_complete text 0 (by rw [hlen]; omega)
      (hlow 0 (by omega)) 0 0 (by omega) (le_refl 0)
      (fun t ht1 ht2 => by omega) (text.length + 1) (by rw [hlen]; omega)
  rw [hmc]
  dsimp only
  rw [if_pos (by
    simp only [Bool.or_eq_true, decide_eq_true_eq]
    left
    omega)]

theorem leftScan_atext_step2 (text : List Nat) (atPos effectiveMin e fuel start : Nat)
    (hf : fuel ≠ 0) (h1 : start > effectiveMin)
    (h2 : CharacterClassifier.isAtext (text.getD (start - 1) 0) = true)
    (h3 : text.getD (start - 1) 0 ≠ 46)
    (h4 : CharacterClassifier.isQuoteChar (text.getD (start - 1) 0) = false) :
    EmailScanner.leftScanLoop text atPos effectiveMin e fuel start =
      EmailScanner.leftScanLoop text atPos effectiveMin e (fuel - 1) (start - 1) := by
  cases fuel with
  | zero => exact absurd rfl hf
  | succ fuel =>
    rw [leftScan_atext_step text atPos effectiveMin e fuel start h1 h2 h3 h4]
    congr 1

theorem findFirstAlnum_hit2 (text : List Nat) (limit0 fuel pos : Nat)
    (hf : fuel ≠ 0) (hp : pos < min limit0 text.length)
    (hc : CharacterClassifier.isAlphaNum (text.getD pos 0) = true) :
    EmailScanner.findFirstAlnum text limit0 fuel pos = some pos := by
  cases fuel with
  | zero => exact absurd rfl hf
  | succ fuel =>
    simp only [EmailScanner.findFirstAlnum]
    rw [if_pos hp, if_pos hc]

theorem fe_run_found (text : List Nat) (hlen : text.length = 100008)
    (hlow : ∀ t, t < 100000 → text.getD t 0 = 64)
    (hv0 : text.getD 100000 0 = 97) (hv1 : text.getD 100001 0 = 98)
    (hv2 : text.getD 100002 0 = 64) (hv3 : text.getD 100003 0 = 99)
    (hv4 : text.getD 100004 0 = 100) (hv5 : text.getD 100005 0 = 46)
    (hv6 : text.getD 100006 0 = 101) (hv7 : text.getD 100007 0 = 102) :
    EmailScanner.findEmailBoundaries text 100002 0 = ⟨100000, 100008, true, 0⟩ := by
  simp only [EmailScanner.findEmailBoundaries]
  rw [hlen]
  rw [if_neg (show ¬((100002 : Nat) ≥ 100008) from by omega)]
  rw [if_neg (show ¬((decide ((100002 : Nat) + 1 < 100008) &&
      (text.getD (100002 + 1) 0 == 91)) = true) from by
    rw [show (100002 : Nat) + 1 = 100003 from by norm_num, hv3]
    decide)]
  obtain ⟨EM, hEM⟩ : ∃ x, (if (100002 : Nat) > EmailScanner.MAX_LEFT_SCAN then
      max 0 (100002 - EmailScanner.MAX_LEFT_SCAN) else 0) = x := ⟨_, rfl⟩
  rw [hEM]
  have hEMlt : EM < 100000 := by
    rw [← hEM]
    by_cases hb : (100002 : Nat) > EmailScanner.MAX_LEFT_SCAN
    · rw [if_pos hb]
      simp only [EmailScanner.MAX_LEFT_SCAN]
      omega
    · rw [if_neg hb]
      omega
  have he1 : EmailScanner.domainEndLoop text 100008 (100002 + 1) = 100008 := by
    rw [show (100002 : Nat) + 1 = 100003 from by norm_num]
    rw [domainEndLoop_step2 text 100008 100003 (by norm_num)
      (by rw [hlen]; norm_num) (by rw [hv3]; decide)]
    rw [show (100008 : Nat) - 1 = 100007 from by norm_num,
      show (100003 : Nat) + 1 = 100004 from by norm_num]
    rw [domainEndLoop_step2 text 100007 100004 (by norm_num)
      (by rw [hlen]; norm_num) (by rw [hv4]; decide)]
    rw [show (100007 : Nat) - 1 = 100006 from by norm_num,
      show (100004 : Nat) + 1 = 100005 from by norm_num]
    rw [domainEndLoop_step2 text 100006 100005 (by norm_num)
      (by rw [hlen]; norm_num) (by rw [hv5]; decide)]
    rw [show (100006 : Nat) - 1 = 100005 from by norm_num,
      show (100005 : Nat) + 1 = 100006 from by norm_num]
    rw [domainEndLoop_step2 text 100005 100006 (by norm_num)
      (by rw [hlen]; norm_num) (by rw [hv6]; decide)]
    rw [show (100005 : Nat) - 1 = 100004 from by norm_num,
      show (100006 : Nat) + 1 = 100007 from by norm_num]
    rw [domainEndLoop_step2 text 100004 100007 (by norm_num)
      (by rw [hlen]; norm_num) (by rw [hv7]; decide)]
    rw [show (100004 : Nat) - 1 = 100003 from by norm_num,
      show (100007 : Nat) + 1 = 100008 from by norm_num]
    refine domainEndLoop_stop2 text 100003 100008 ?_
    rw [hlen, show decide ((100008 : Nat) < 100008) = false from by simp, Bool.false_and]
  rw [he1]
  rw [trimDotsLoop_stop2 text (100002 + 1) 100008 100008 (by
    rw [show (100008 : Nat) - 1 = 100007 from by norm_num, hv7]
    decide)]
  rw [if_neg (show ¬((decide ((100008 : Nat) < 100008) &&
      (text.getD 100008 0 == 64)) = true) from by
    rw [show decide ((100008 : Nat) < 100008) = false from by simp, Bool.false_and]
    simp)]
  rw [leftScan_atext_step2 text 100002 EM 100008 (100002 + 1) 100002 (by norm_num)
    (by omega)
    (by rw [show (100002 : Nat) - 1 = 100001 from by norm_num, hv1]; decide)
    (by rw [show (100002 : Nat) - 1 = 100001 from by norm_num, hv1]; decide)
    (by rw [show (100002 : Nat) - 1 = 100001 from by norm_num, hv1]; decide)]
  rw [show (100002 : Nat) + 1 - 1 = 100002 from by norm_num,
    show (100002 : Nat) - 1 = 100001 from by norm_num]
  rw [leftScan_atext_step2 text 100002 EM 100008 100002 100001 (by norm_num)
    (by omega)
    (by rw [show (100001 : Nat) - 1 = 100000 from by norm_num, hv0]; decide)
    (by rw [show (100001 : Nat) - 1 = 100000 from by norm_num, hv0]; decide)
    (by rw [show (100001 : Nat) - 1 = 100000 from by norm_num, hv0]; decide)]
  rw [show (100002 : Nat) - 1 = 100001 from by norm_num,
    show (100001 : Nat) - 1 = 100000 from by norm_num]
  rw [leftScan_done64_2 text 100002 EM 100008 100001 100000 (by omega) (by
    rw [show (100000 : Nat) - 1 = 99999 from by norm_num]
    exact hlow 99999 (by omega))]
  dsimp only
  simp only [EmailScanner.afterRecovery]
  rw [leadingDotStrip_stop2 text 100002 (100002 + 1) 100000 (by
    rw [hv0]
    rw [show ((97 : Nat) == 46) = false from by decide, Bool.and_false])]
  rw [if_pos (show (decide ((100000 : Nat) < 100002) && decide (100000 > EM) &&
      decide ((100000 : Nat) > 0)) = true from by
    simp only [Bool.and_eq_true, decide_eq_true_eq]
    omega)]
  rw [if_pos (show CharacterClassifier.isInvalidLocalChar
      (text.getD (100000 - 1) 0) = true from by
    rw [show (100000 : Nat) - 1 = 99999 from by norm_num, hlow 99999 (by omega)]
    decide)]
  have hfa : EmailScanner.findFirstAlnum text 100002 (100008 + 1) 100000 = some 100000 := by
    refine findFirstAlnum_hit2 text 100002 (100008 + 1) 100000 (by norm_num) ?_
      (by rw [hv0]; decide)
    rw [hlen]
    simp only [Nat.min_def]
    norm_num
  rw [hfa]
  dsimp only
  rw [if_neg (show ¬((100000 : Nat) ≥ 100002) from by omega)]
  rw [if_pos (show (decide ((100000 : Nat) > EM) && decide ((100000 : Nat) > 0))
      = true from by
    simp only [Bool.and_eq_true, decide_eq_true_eq]
    omega)]
  rw [if_pos (show CharacterClassifier.isInvalidLocalChar
      (text.getD (100000 - 1) 0) = true from by
    rw [show (100000 : Nat) - 1 = 99999 from by norm_num, hlow 99999 (by omega)]
    decide)]
  rw [show (100000 : Nat) - 1 = 99999 from by norm_num, hlow 99999 (by omega)]
  simp

theorem scanStep_run_found (text : List Nat) (hlen : text.length = 100008)
    (hlow : ∀ t, t < 100000 → text.getD t 0 = 64)
    (hv0 : text.getD 100000 0 = 97) (hv1 : text.getD 100001 0 = 98)
    (hv2 : text.getD 100002 0 = 64) (hv3 : text.getD 100003 0 = 99)
    (hv4 : text.getD 100004 0 = 100) (hv5 : text.getD 100005 0 = 46)
    (hv6 : text.getD 100006 0 = 101) (hv7 : text.getD 100007 0 = 102) :
    EmailScanner.scanStep text 100000 0 0 0 = .found 100002 100000 100008 8 := by
  have hsub1 : subspan text 100000 100002 = [97, 98] := by
    rw [subspan_cons text 100000 100002 (by norm_num) (by rw [hlen]; norm_num), hv0]
    rw [show (100000 : Nat) + 1 = 100001 from by norm_num]
    rw [subspan_cons text 100001 100002 (by norm_num) (by rw [hlen]; norm_num), hv1]
    rw [show (100001 : Nat) + 1 = 100002 from by norm_num]
    rw [subspan_nil text 100002 100002 (le_refl _)]
  have hsub2 : subspan text 100003 100008 = [99, 100, 46, 101, 102] := by
    rw [subspan_cons text 100003 100008 (by norm_num) (by rw [hlen]), hv3]
    rw [show (100003 : Nat) + 1 = 100004 from by norm_num]
    rw [subspan_cons text 100004 100008 (by norm_num) (by rw [hlen]), hv4]
    rw [show (100004 : Nat) + 1 = 100005 from by norm_num]
    rw [subspan_cons text 100005 100008 (by norm_num) (by rw [hlen]), hv5]
    rw [show (100005 : Nat) + 1 = 100006 from by norm_num]
    rw [subspan_cons text 100006 100008 (by norm_num) (by rw [hlen]), hv6]
    rw [show (100006 : Nat) + 1 = 100007 from by norm_num]
    rw [subspan_cons text 100007 100008 (by norm_num) (by rw [hlen]), hv7]
    rw [show (100007 : Nat) + 1 = 100008 from by norm_num]
    rw [subspan_nil text 100008 100008 (le_refl _)]
  have hlocal : LocalPartValidator.validateScanMode text 100000 100002 = true := by
    rw [validateScanMode_eq text 100000 100002 (by rw [hlen]; norm_num), hsub1]
    decide
  have hdomain : DomainPartValidator.validateDomainLabels text 100003 100008 = true := by
    rw [validateDomainLabels_eq_specDomain text 100003 100008 (by norm_num)
      (by rw [hlen]), hsub2]
    decide
  simp only [EmailScanner.scanStep]
  have hmc : EmailScanner.memchrFrom text (text.length + 1) 100000 = some 100002 := by
    refine memchrFrom_complete text 100002 (by rw [hlen]; norm_num) hv2 2 100000
      (by norm_num) (by norm_num) ?_ (text.length + 1) (by rw [hlen]; norm_num)
    intro t ht1 ht2
    have : t = 100000 ∨ t = 100001 := by omega
    rcases this with h | h <;> rw [h]
    · rw [hv0]
      omega
    · rw [hv1]
      omega
  rw [hmc]
  dsimp only
  rw [if_neg (by
    simp only [Bool.or_eq_true, decide_eq_true_eq, hlen]
    omega)]
  rw [if_neg (show ¬((100002 : Nat) < 0) from by omega)]
  rw [fe_run_found text hlen hlow hv0 hv1 hv2 hv3 hv4 hv5 hv6 hv7]
  dsimp only
  rw [if_neg (by
    simp only [EmailScanner.MAX_TOTAL_CHARS_SCANNED]
    omega)]
  rw [if_neg (show ¬((!true) = true) from by decide)]
  rw [if_pos (show (LocalPartValidator.validate text 100000 100002 .SCAN &&
      DomainPartValidator.validate text (100002 + 1) 100008) = true from by
    simp only [Bool.and_eq_true]
    constructor
    · rw [validate_SCAN_eq]
      exact hlocal
    · rw [show (100002 : Nat) + 1 = 100003 from by norm_num]
      unfold DomainPartValidator.validate
      rw [if_neg (by
        simp only [Bool.or_eq_true, decide_eq_true_eq, hlen]
        omega)]
      rw [if_neg (by rw [hv3]; decide)]
      exact hdomain)]

theorem extractLoop_step_next (text : List Nat) (fuel pos ms le cs : Nat)
    (seen emails : List (List Nat)) (spans : List (Nat × Nat)) (cnt p c : Nat)
    (hf : fuel ≠ 0) (hp : pos < text.length) (hc : cnt < EmailScanner.MAX_EMAILS_EXTRACT)
    (hstep : EmailScanner.scanStep text pos ms le cs = .next p c) :
    EmailScanner.extractLoop text fuel pos ms le cs seen emails spans cnt =
      EmailScanner.extractLoop text (fuel - 1) p ms le c seen emails spans cnt := by
  cases fuel with
  | zero => exact absurd rfl hf
  | succ fuel =>
    conv_lhs => rw [EmailScanner.extractLoop]
    rw [if_pos hp]
    dsimp only
    rw [if_neg (by omega), hstep]
    try rfl

theorem extractLoop_fuel0 (text : List Nat) (pos ms le cs : Nat)
    (seen emails : List (List Nat)) (spans : List (Nat × Nat)) (cnt : Nat) :
    EmailScanner.extractLoop text 0 pos ms le cs seen emails spans cnt =
      (emails, spans) := by
  conv_lhs => rw [EmailScanner.extractLoop]
  by_cases hp : pos < text.length
  · rw [if_pos hp]
  · rw [if_neg hp]

theorem extract_run_loop (text : List Nat) (hlen : text.length = 100008)
    (hlow : ∀ t, t < 100000 → text.getD t 0 = 64)
    (hv0 : text.getD 100000 0 = 97) (hv1 : text.getD 100001 0 = 98)
    (hv2 : text.getD 100002 0 = 64) :
    ∀ n j, j + n = 100000 → 1 ≤ j →
      EmailScanner.extractLoop text n j 0 0 0 [] [] [] 0 = ([], []) := by
  intro n
  induction n with
  | zero =>
    intro j h1 h2
    exact extractLoop_fuel0 text j 0 0 0 [] [] [] 0
  | succ n ih =>
    intro j h1 h2
    rw [extractLoop_step_next text (n+1) j 0 0 0 [] [] [] 0 (j+1) 0 (by omega)
      (by rw [hlen]; omega)
      (by simp only [EmailScanner.MAX_EMAILS_EXTRACT]; omega)
      (scanStep_run_mid text hlen hlow hv0 hv1 hv2 j h2 (by omega))]
    rw [show n + 1 - 1 = n from by omega]
    exact ih (j+1) (by omega) (by omega)

theorem extract_run (text : List Nat) (hlen : text.length = 100008)
    (hlow : ∀ t, t < 100000 → text.getD t 0 = 64)
    (hv0 : text.getD 100000 0 = 97) (hv1 : text.getD 100001 0 = 98)
    (hv2 : text.getD 100002 0 = 64) :
    EmailScanner.extractModel text = [] := by
  unfold EmailScanner.extractModel EmailScanner.extractFull
  rw [if_neg (by
    simp only [Bool.or_eq_true, decide_eq_true_eq, hlen, EmailScanner.MAX_INPUT_SIZE]
    omega)]
  rw [if_neg (by simp)]
  rw [show EmailScanner.MAX_SCAN_ITERATIONS = 100000 from rfl]
  rw [extractLoop_step_next text 100000 0 0 0 0 [] [] [] 0 1 0 (by norm_num)
    (by rw [hlen]; norm_num)
    (by simp only [EmailScanner.MAX_EMAILS_EXTRACT]; omega)
    (scanStep_run_zero text hlen hlow)]
  rw [show (100000 : Nat) - 1 = 99999 from by norm_num]
  rw [extract_run_loop text hlen hlow hv0 hv1 hv2 99999 1 (by norm_num) (by norm_num)]

theorem containsLoop_step_next (text : List Nat) (fuel pos ms le cs p c : Nat)
    (hf : fuel ≠ 0) (hp : pos < text.length)
    (hstep : EmailScanner.scanStep text pos ms le cs = .next p c) :
    EmailScanner.containsLoop text fuel pos ms le cs =
      EmailScanner.containsLoop text (fuel - 1) p ms le c := by
  cases fuel with
  | zero => exact absurd rfl hf
  | succ fuel =>
    conv_lhs => rw [EmailScanner.containsLoop]
    rw [if_pos hp]
    rw [hstep]
    try rfl

theorem containsLoop_step_found (text : List Nat) (fuel pos ms le cs a s e c : Nat)
    (hf : fuel ≠ 0) (hp : pos < text.length)
    (hstep : EmailScanner.scanStep text pos ms le cs = .found a s e c) :
    EmailScanner.containsLoop text fuel pos ms le cs = some true := by
  cases fuel with
  | zero => exact absurd rfl hf
  | succ fuel =>
    conv_lhs => rw [EmailScanner.containsLoop]
    rw [if_pos hp]
    rw [hstep]
    try rfl

theorem contains_run_loop (text : List Nat) (hlen : text.length = 100008)
    (hlow : ∀ t, t < 100000 → text.getD t 0 = 64)
    (hv0 : text.getD 100000 0 = 97) (hv1 : text.getD 100001 0 = 98)
    (hv2 : text.getD 100002 0 = 64) :
    ∀ n j, j + n = 100000 → 1 ≤ j →
      EmailScanner.containsLoop text (n + 2) j 0 0 0 =
        EmailScanner.containsLoop text 2 100000 0 0 0 := by
  intro n
  induction n with
  | zero =>
    intro j h1 h2
    rw [show j = 100000 from by omega]
  | succ n ih =>
    intro j h1 h2
    rw [containsLoop_step_next text (n + 1 + 2) j 0 0 0 (j+1) 0 (by omega)
      (by rw [hlen]; omega)
      (scanStep_run_mid text hlen hlow hv0 hv1 hv2 j h2 (by omega))]
    rw [show n + 1 + 2 - 1 = n + 2 from by omega]
    exact ih (j+1) (by omega) (by omega)

theorem contains_run (text : List Nat) (hlen : text.length = 100008)
    (hlow : ∀ t, t < 100000 → text.getD t 0 = 64)
    (hv0 : text.getD 100000 0 = 97) (hv1 : text.getD 100001 0 = 98)
    (hv2 : text.getD 100002 0 = 64) (hv3 : text.getD 100003 0 = 99)
    (hv4 : text.getD 100004 0 = 100) (hv5 : text.getD 100005 0 = 46)
    (hv6 : text.getD 100006 0 = 101) (hv7 : text.getD 100007 0 = 102) :
    EmailScanner.containsModel 100002 text = some true := by
  unfold EmailScanner.containsModel EmailScanner.containsFull
  rw [if_neg (by
    simp only [Bool.or_eq_true, decide_eq_true_eq, hlen, EmailScanner.MAX_INPUT_SIZE]
    omega)]
  rw [if_neg (by simp)]
  rw [containsLoop_step_next text 100002 0 0 0 0 1 0 (by norm_num)
    (by rw [hlen]; norm_num) (scanStep_run_zero text hlen hlow)]
  rw [show (100002 : Nat) - 1 = 100001 from by norm_num,
    show (100001 : Nat) = 99999 + 2 from by norm_num]
  rw [contains_run_loop text hlen hlow hv0 hv1 hv2 99999 1 (by norm_num) (by norm_num)]
  exact containsLoop_step_found text 2 100000 0 0 0 100002 100000 100008 8
    (by norm_num) (by rw [hlen]; norm_num)
    (scanStep_run_found text hlen hlow hv0 hv1 hv2 hv3 hv4 hv5 hv6 hv7)

theorem extractLoop_ne_nil (text : List Nat) :
    ∀ fuel pos ms le cs seen emails spans cnt, emails ≠ [] →
      (EmailScanner.extractLoop text fuel pos ms le cs seen emails spans cnt).1 ≠ [] := by
  intro fuel
  induction fuel with
  | zero =>
    intro pos ms le cs seen emails spans cnt hne
    rw [extractLoop_fuel0]
    exact hne
  | succ fuel ih =>
    intro pos ms le cs seen emails spans cnt hne
    conv_lhs => rw [EmailScanner.extractLoop]
    by_cases hp : pos < text.length
    · rw [if_pos hp]
      try dsimp only
      by_cases hc : cnt ≥ EmailScanner.MAX_EMAILS_EXTRACT
      · rw [if_pos hc]
        exact hne
      · rw [if_neg hc]
        rcases hstep : EmailScanner.scanStep text pos ms le cs with _ | _ | ⟨p, c⟩ | ⟨a, s, e, c⟩
        · exact hne
        · exact hne
        · exact ih p ms le c seen emails spans cnt hne
        · dsimp only
          by_cases hb : (decide (s ≥ text.length) || decide (e > text.length) ||
              decide (s ≥ e)) = true
          · rw [if_pos hb]
            exact ih (a + 1) ms le c seen emails spans cnt hne
          · rw [if_neg hb]
            by_cases hin : (!seen.contains (subspan text s e)) = true
            · simp only [if_pos hin]
              refine ih e (max ms s) (max le e) c _ _ _ _ ?_
              simp
            · simp only [if_neg hin]
              exact ih e (max ms s) (max le e) c _ _ _ _ hne
    · rw [if_neg hp]
      exact hne

theorem containsLoop_true_extractLoop (text : List Nat) :
    ∀ fuel pos ms le cs seen emails spans cnt, ms ≤ pos →
      (emails = [] → seen = []) → cnt ≤ emails.length + 9900 →
      EmailScanner.containsLoop text fuel pos ms le cs = some true →
      (EmailScanner.extractLoop text fuel pos ms le cs seen emails spans cnt).1 ≠ [] := by
  intro fuel
  induction fuel with
  | zero =>
    intro pos ms le cs seen emails spans cnt hmp hes hcnt htrue
    conv at htrue => rw [EmailScanner.containsLoop]
    by_cases hp : pos < text.length
    · rw [if_pos hp] at htrue
      exact absurd htrue (by simp)
    · rw [if_neg hp] at htrue
      exact absurd htrue (by simp)
  | succ fuel ih =>
    intro pos ms le cs seen emails spans cnt hmp hes hcnt htrue
    conv at htrue => rw [EmailScanner.containsLoop]
    by_cases hp : pos < text.length
    · rw [if_pos hp] at htrue
      conv_lhs => rw [EmailScanner.extractLoop]
      rw [if_pos hp]
      try dsimp only
      try (dsimp only at htrue)
      by_cases hc : cnt ≥ EmailScanner.MAX_EMAILS_EXTRACT
      · rw [if_pos hc]
        simp only [EmailScanner.MAX_EMAILS_EXTRACT] at hc
        intro hnil
        have hnil2 : emails = [] := hnil
        rw [hnil2] at hcnt
        simp at hcnt
        omega
      · rw [if_neg hc]
        rcases hstep : EmailScanner.scanStep text pos ms le cs with _ | _ | ⟨p, c⟩ | ⟨a, s, e, c⟩
        · rw [hstep] at htrue
          exact absurd htrue (by simp)
        · rw [hstep] at htrue
          exact absurd htrue (by simp)
        · rw [hstep] at htrue
          exact ih p ms le c seen emails spans cnt
            ((scanStep_cases text pos ms le cs hmp).1 p c hstep) hes hcnt htrue
        · obtain ⟨-, hms, hsa, hae, hel, -, -, -, -, -, -⟩ :=
            (scanStep_cases text pos ms le cs hmp).2 a s e c hstep
          dsimp only
          rw [if_neg (by
            simp only [Bool.or_eq_true, decide_eq_true_eq]
            push_neg
            omega)]
          by_cases hin : (!seen.contains (subspan text s e)) = true
          · simp only [if_pos hin]
            refine extractLoop_ne_nil text fuel e (max ms s) (max le e) c _ _ _ _ ?_
            simp
          · simp only [if_neg hin]
            refine extractLoop_ne_nil text fuel e (max ms s) (max le e) c _ _ _ _ ?_
            intro hnil
            have hseen : seen = [] := hes hnil
            rw [hseen] at hin
            simp at hin
    · rw [if_neg hp] at htrue
      exact absurd htrue (by simp)

theorem extractLoop_ne_containsLoop (text : List Nat) :
    ∀ fuel pos ms le cs spans cnt, ms ≤ pos →
      (EmailScanner.extractLoop text fuel pos ms le cs [] [] spans cnt).1 ≠ [] →
      EmailScanner.containsLoop text fuel pos ms le cs = some true := by
  intro fuel
  induction fuel with
  | zero =>
    intro pos ms le cs spans cnt hmp hne
    rw [extractLoop_fuel0] at hne
    exact absurd rfl hne
  | succ fuel ih =>
    intro pos ms le cs spans cnt hmp hne
    conv at hne => rw [EmailScanner.extractLoop]
    conv_lhs => rw [EmailScanner.containsLoop]
    by_cases hp : pos < text.length
    · rw [if_pos hp] at hne ⊢
      try (dsimp only at hne)
      by_cases hc : cnt ≥ EmailScanner.MAX_EMAILS_EXTRACT
      · rw [if_pos hc] at hne
        exact absurd rfl hne
      · rw [if_neg hc] at hne
        rcases hstep : EmailScanner.scanStep text pos ms le cs with _ | _ | ⟨p, c⟩ | ⟨a, s, e, c⟩
        · rw [hstep] at hne
          exact absurd rfl hne
        · rw [hstep] at hne
          exact absurd rfl hne
        · rw [hstep] at hne
          exact ih p ms le c spans cnt
            ((scanStep_cases text pos ms le cs hmp).1 p c hstep) hne
        · try rfl
    · rw [if_neg hp] at hne
      exact absurd rfl hne

/-- C1 counterexample: `contains` and `extract` share the scan-step logic but
only `extract` is bounded by the 100000-iteration budget, so a text of
100000 at-signs followed by `ab@cd.ef` makes `contains` answer true (the
address is found at iteration 100001) while `extract` exhausts its budget
stepping over the at-sign prefix and returns the empty sequence; hence the
spec sentence "contains(text) = true iff extract(text) is non-empty for
every text within the size limits" is false as stated. -/
theorem C1_counterexample :
    ¬ (∀ text : List Nat, 5 ≤ text.length →
        text.length ≤ EmailScanner.MAX_INPUT_SIZE →
        ((∃ fuel, EmailScanner.containsModel fuel text = some true) ↔
          EmailScanner.extractModel text ≠ [])) := by
  intro h
  have hlen := c1text_length
  obtain ⟨hv0, hv1, hv2, hv3, hv4, hv5, hv6, hv7⟩ := c1text_vals
  have hext : EmailScanner.extractModel c1text = [] :=
    extract_run c1text hlen c1text_getD_low hv0 hv1 hv2
  have hcon : EmailScanner.containsModel 100002 c1text = some true :=
    contains_run c1text hlen c1text_getD_low hv0 hv1 hv2 hv3 hv4 hv5 hv6 hv7
  have hiff := h c1text (by rw [hlen]; norm_num)
    (by rw [hlen]; simp only [EmailScanner.MAX_INPUT_SIZE]; norm_num)
  exact hiff.mp ⟨100002, hcon⟩ hext

/-- C1 (amended): when `contains` is run with the same 100000-iteration
budget that `extract` uses (`MAX_SCAN_ITERATIONS`), the equivalence does
hold for every text, with no size-limit hypothesis needed: the entry guards
agree, and within the shared budget the two loops walk the same scan steps,
`contains` answering true exactly at the first accepted match, which is
also the first string `extract` appends. -/
theorem C1_contains_iff_extract (text : List Nat) :
    EmailScanner.containsModel EmailScanner.MAX_SCAN_ITERATIONS text = some true ↔
      EmailScanner.extractModel text ≠ [] := by
  unfold EmailScanner.containsModel EmailScanner.extractModel
    EmailScanner.containsFull EmailScanner.extractFull
  by_cases hg : (text.length > EmailScanner.MAX_INPUT_SIZE ||
      text.length < 5) = true
  · rw [if_pos hg, if_pos hg]
    simp
  · rw [if_neg hg, if_neg hg]
    rw [if_neg (by simp), if_neg (by simp)]
    constructor
    · intro htrue
      exact containsLoop_true_extractLoop text EmailScanner.MAX_SCAN_ITERATIONS
        0 0 0 0 [] [] [] 0 (le_refl 0) (fun _ => rfl) (by simp) htrue
    · intro hne
      exact extractLoop_ne_containsLoop text EmailScanner.MAX_SCAN_ITERATIONS
        0 0 0 0 [] 0 (le_refl 0) hne

theorem leftScan_dot_step (text : List Nat) (atPos fuel start : Nat)
    (h1 : start > 0)
    (hdot : text.getD (start - 1) 0 = 46)
    (h5 : start ≥ 2 → text.getD (start - 2) 0 ≠ 46) :
    EmailScanner.leftScanLoop text atPos 0 text.length (fuel+1) start =
      EmailScanner.leftScanLoop text atPos 0 text.length fuel (start - 1) := by
  simp only [EmailScanner.leftScanLoop]
  rw [if_pos h1, hdot]
  rw [if_neg (show ¬(((46 : Nat) == 64) = true) from by decide)]
  rw [if_neg (show ¬((((46 : Nat) == 46) && decide (start > 0 + 1) && decide (start ≥ 2) &&
      (text.getD (start - 2) 0 == 46)) = true) from by
    simp only [Bool.and_eq_true, beq_iff_eq, decide_eq_true_eq]
    rintro ⟨⟨⟨-, -⟩, hs2⟩, hdd⟩
    exact h5 hs2 hdd)]
  rw [if_neg (show ¬(CharacterClassifier.isInvalidLocalChar 46 = true) from by decide)]
  rw [if_neg (show ¬(CharacterClassifier.isQuoteChar 46 = true) from by decide)]
  rw [if_pos (show ((46 : Nat) == 46) = true from by decide)]

theorem leftScan_quote_step (text : List Nat) (atPos fuel start : Nat)
    (h2 : start ≥ 2)
    (hq : CharacterClassifier.isQuoteChar (text.getD (start - 1) 0) = true)
    (hne64 : text.getD (start - 1) 0 ≠ 64)
    (hne46 : text.getD (start - 1) 0 ≠ 46)
    (hninv : CharacterClassifier.isInvalidLocalChar (text.getD (start - 1) 0) = false) :
    EmailScanner.leftScanLoop text atPos 0 text.length (fuel+1) start =
      EmailScanner.leftScanLoop text atPos 0 text.length fuel (start - 1) := by
  simp only [EmailScanner.leftScanLoop]
  rw [if_pos (show start > 0 from by omega)]
  rw [if_neg (show ¬((text.getD (start - 1) 0 == 64) = true) from by simpa using hne64)]
  rw [if_neg (show ¬(((text.getD (start - 1) 0 == 46) && decide (start > 0 + 1) &&
      decide (start ≥ 2) && (text.getD (start - 2) 0 == 46)) = true) from by
    simp only [Bool.and_eq_true, beq_iff_eq, decide_eq_true_eq]
    rintro ⟨⟨⟨hcon, -⟩, -⟩, -⟩
    exact hne46 hcon)]
  rw [if_neg (show ¬(CharacterClassifier.isInvalidLocalChar (text.getD (start - 1) 0) = true)
    from by rw [hninv]; simp)]
  rw [if_pos hq]
  by_cases hg1 : (decide (start > 0 + 1) && decide (start ≥ 2) &&
      (text.getD (start - 2) 0 == text.getD (start - 1) 0)) = true
  · rw [if_pos hg1]
  · rw [if_neg hg1]
    rw [if_neg (show ¬((decide (text.length < text.length) &&
        (text.getD text.length 0 == text.getD (start - 1) 0)) = true) from by simp)]
    rw [if_pos (show (decide (start > 0 + 1) && decide (start ≥ 2)) = true from by
      simp only [Bool.and_eq_true, decide_eq_true_eq]
      omega)]
    by_cases hg2 : ((text.getD (start - 2) 0 == 61) || (text.getD (start - 2) 0 == 58) ||
        CharacterClassifier.isScanBoundary (text.getD (start - 2) 0) ||
        CharacterClassifier.isQuoteChar (text.getD (start - 2) 0)) = true
    · rw [if_pos hg2]
    · rw [if_neg hg2]

theorem leftScan_quote_done (text : List Nat) (atPos fuel : Nat)
    (hq : CharacterClassifier.isQuoteChar (text.getD 0 0) = true)
    (hne64 : text.getD 0 0 ≠ 64)
    (hne46 : text.getD 0 0 ≠ 46)
    (hninv : CharacterClassifier.isInvalidLocalChar (text.getD 0 0) = false) :
    EmailScanner.leftScanLoop text atPos 0 text.length (fuel+1) 1 = .done 0 := by
  simp only [EmailScanner.leftScanLoop]
  rw [if_pos (show (1 : Nat) > 0 from by omega)]
  rw [show (1 : Nat) - 1 = 0 from rfl]
  rw [if_neg (show ¬((text.getD 0 0 == 64) = true) from by simpa using hne64)]
  rw [if_neg (show ¬(((text.getD 0 0 == 46) && decide ((1 : Nat) > 0 + 1) &&
      decide ((1 : Nat) ≥ 2) && (text.getD 0 0 == 46)) = true) from by
    simp only [Bool.and_eq_true, beq_iff_eq, decide_eq_true_eq]
    rintro ⟨⟨⟨-, hcon⟩, -⟩, -⟩
    omega)]
  rw [if_neg (show ¬(CharacterClassifier.isInvalidLocalChar (text.getD 0 0) = true)
    from by rw [hninv]; simp)]
  rw [if_pos hq]
  rw [if_neg (show ¬((decide ((1 : Nat) > 0 + 1) && decide ((1 : Nat) ≥ 2) &&
      (text.getD 0 0 == text.getD 0 0)) = true) from by
    simp only [Bool.and_eq_true, beq_iff_eq, decide_eq_true_eq]
    rintro ⟨⟨hcon, -⟩, -⟩
    omega)]
  rw [if_neg (show ¬((decide (text.length < text.length) &&
      (text.getD text.length 0 == text.getD 0 0)) = true) from by simp)]
  rw [if_neg (show ¬((decide ((1 : Nat) > 0 + 1) && decide ((1 : Nat) ≥ 2)) = true) from by
    simp only [Bool.and_eq_true, decide_eq_true_eq]
    rintro ⟨hcon, -⟩
    omega)]
  rw [if_pos (show ((1 : Nat) == 0 + 1) = true from by decide)]

theorem leftScan_walk (text : List Nat) (atPos a : Nat)
    (hch : ∀ t, t < a →
      text.getD t 0 = 46 ∨ CharacterClassifier.isAtext (text.getD t 0) = true)
    (hnd : ∀ t, t + 1 < a → ¬(text.getD t 0 = 46 ∧ text.getD (t + 1) 0 = 46)) :
    ∀ start, start ≤ a → ∀ fuel, start < fuel →
      EmailScanner.leftScanLoop text atPos 0 text.length fuel start = .done 0 := by
  intro start
  induction start with
  | zero =>
    intro _ fuel hf
    cases fuel with
    | zero => omega
    | succ fuel =>
      simp only [EmailScanner.leftScanLoop]
      rw [if_neg (show ¬((0 : Nat) > 0) from by omega)]
  | succ n ih =>
    intro hsa fuel hf
    cases fuel with
    | zero => omega
    | succ fuel =>
      by_cases hc46 : text.getD (n + 1 - 1) 0 = 46
      · rw [leftScan_dot_step text atPos fuel (n+1) (by omega) hc46 (by
          intro hs2 hdd
          have hdd2 : text.getD (n - 1) 0 = 46 := by
            rw [show n - 1 = n + 1 - 2 from by omega]
            exact hdd
          have hcc : text.getD ((n - 1) + 1) 0 = 46 := by
            rw [show (n - 1) + 1 = n + 1 - 1 from by omega]
            exact hc46
          exact hnd (n - 1) (by omega) ⟨hdd2, hcc⟩)]
        rw [show n + 1 - 1 = n from by omega]
        exact ih (by omega) fuel (by omega)
      · have hat : CharacterClassifier.isAtext (text.getD (n + 1 - 1) 0) = true := by
          rw [show n + 1 - 1 = n from by omega]
          rw [show n + 1 - 1 = n from by omega] at hc46
          rcases hch n (by omega) with h | h
          · exact absurd h hc46
          · exact h
        by_cases hqc : CharacterClassifier.isQuoteChar (text.getD (n + 1 - 1) 0) = true
        · cases n with
          | zero =>
            exact leftScan_quote_done text atPos fuel hqc
              (atext_ne_64 _ hat) hc46 (atext_not_invalid _ hat)
          | succ k =>
            rw [leftScan_quote_step text atPos fuel (k + 1 + 1) (by omega) hqc
              (atext_ne_64 _ hat) hc46 (atext_not_invalid _ hat)]
            rw [show k + 1 + 1 - 1 = k + 1 from by omega]
            exact ih (by omega) fuel (by omega)
        · rw [leftScan_atext_step text atPos 0 text.length fuel (n+1) (by omega) hat hc46
            (by simpa using hqc)]
          rw [show n + 1 - 1 = n from by omega]
          exact ih (by omega) fuel (by omega)

theorem domainEndLoop_walk (text : List Nat) :
    ∀ n i, text.length - i = n → i ≤ text.length →
      (∀ t, i ≤ t → t < text.length →
        CharacterClassifier.isDomainChar (text.getD t 0) = true) →
      ∀ fuel, n < fuel →
        EmailScanner.domainEndLoop text fuel i = text.length := by
  intro n
  induction n with
  | zero =>
    intro i h1 hle _ fuel hf
    cases fuel with
    | zero => omega
    | succ fuel =>
      have h2 : i = text.length := by omega
      rw [h2]
      refine domainEndLoop_stop text fuel text.length ?_
      rw [show decide (text.length < text.length) = false from by simp, Bool.false_and]
  | succ n ih =>
    intro i h1 hle hch fuel hf
    cases fuel with
    | zero => omega
    | succ fuel =>
      rw [domainEndLoop_step text fuel i (by omega) (hch i (le_refl i) (by omega))]
      exact ih (i+1) (by omega) (by omega) (fun t ht1 ht2 => hch t (by omega) ht2) fuel
        (by omega)

theorem extractLoop_exit (text : List Nat) (fuel pos ms le cs : Nat)
    (seen emails : List (List Nat)) (spans : List (Nat × Nat)) (cnt : Nat)
    (hp : ¬ pos < text.length) :
    EmailScanner.extractLoop text fuel pos ms le cs seen emails spans cnt =
      (emails, spans) := by
  cases fuel with
  | zero => exact extractLoop_fuel0 text pos ms le cs seen emails spans cnt
  | succ fuel =>
    conv_lhs => rw [EmailScanner.extractLoop]
    rw [if_neg hp]

theorem extractLoop_found_step (text : List Nat) (fuel pos ms le cs : Nat)
    (seen emails : List (List Nat)) (spans : List (Nat × Nat)) (cnt a s e c : Nat)
    (hf : fuel ≠ 0) (hp : pos < text.length) (hc : cnt < EmailScanner.MAX_EMAILS_EXTRACT)
    (hstep : EmailScanner.scanStep text pos ms le cs = .found a s e c)
    (hb : (decide (s ≥ text.length) || decide (e > text.length) || decide (s ≥ e)) = false)
    (hseen : seen.contains (subspan text s e) = false) :
    EmailScanner.extractLoop text fuel pos ms le cs seen emails spans cnt =
      EmailScanner.extractLoop text (fuel - 1) e (max ms s) (max le e) c
        (subspan text s e :: seen) (emails ++ [subspan text s e])
        (spans ++ [(s, e)]) (cnt + 1) := by
  cases fuel with
  | zero => exact absurd rfl hf
  | succ fuel =>
    conv_lhs => rw [EmailScanner.extractLoop]
    rw [if_pos hp]
    try dsimp only
    rw [if_neg (by omega), hstep]
    try dsimp only
    rw [if_neg (show ¬((decide (s ≥ text.length) || decide (e > text.length) ||
        decide (s ≥ e)) = true) from by rw [hb]; simp)]
    have hins : (!seen.contains (subspan text s e)) = true := by rw [hseen]; rfl
    simp only [if_pos hins]
    rfl

theorem fe_perfect (m : List Nat) (a : Nat)
    (ha1 : 1 ≤ a) (h64max : a ≤ 64) (hlt : a + 1 < m.length)
    (hbr : m.getD (a+1) 0 ≠ 91)
    (hloc : LocalPartValidator.validateScanMode m 0 a = true)
    (hdom : DomainPartValidator.validateDomainLabels m (a+1) m.length = true) :
    EmailScanner.findEmailBoundaries m a 0 = ⟨0, m.length, true, 0⟩ := by
  have hspecL : specLocalScan (subspan m 0 a) = true := by
    rw [← validateScanMode_eq m 0 a (by omega)]
    exact hloc
  obtain ⟨-, -, hh34, hh46, hlast46, hncd, hallc⟩ := (specLocalScan_iff _).mp hspecL
  have hch : ∀ t, t < a →
      m.getD t 0 = 46 ∨ CharacterClassifier.isAtext (m.getD t 0) = true := by
    intro t ht
    have hmem : m.getD t 0 ∈ subspan m 0 a := by
      rw [mem_subspan m 0 a _ (by omega)]
      exact ⟨t, by omega, by omega, rfl⟩
    exact specLocalScan_chars _ hspecL _ hmem
  have hnd : ∀ t, t + 1 < a → ¬(m.getD t 0 = 46 ∧ m.getD (t + 1) 0 = 46) := by
    intro t ht
    have hx := (noConsecDots_iff _).mp hncd t (by
      rw [subspan_length m 0 a (by omega)]
      omega)
    rw [subspan_getD m 0 a t 0 (by omega) (by omega),
        subspan_getD m 0 a (t+1) 0 (by omega) (by omega)] at hx
    simpa using hx
  have hh46m : m.getD 0 0 ≠ 46 := by
    rw [← subspan_headD m 0 a (by omega) (by omega)]
    exact hh46
  have hspecD : specDomain (subspan m (a+1) m.length) = true := by
    rw [← validateDomainLabels_eq_specDomain m (a+1) m.length (by omega) (le_refl _)]
    exact hdom
  obtain ⟨-, -, -, -, hdlast46, -, -, -, -⟩ := (specDomain_iff _).mp hspecD
  have hlastm : m.getD (m.length - 1) 0 ≠ 46 := by
    rw [← subspan_getLastD m (a+1) m.length (by omega) (le_refl _)]
    exact hdlast46
  have hdch : ∀ t, a + 1 ≤ t → t < m.length →
      CharacterClassifier.isDomainChar (m.getD t 0) = true := by
    intro t ht1 ht2
    have hmem : m.getD t 0 ∈ subspan m (a+1) m.length := by
      rw [mem_subspan m (a+1) m.length _ (le_refl _)]
      exact ⟨t, ht1, ht2, rfl⟩
    rcases specDomain_chars _ hspecD _ hmem with h | h | h
    · exact alnum_domainChar _ h
    · rw [h]; decide
    · rw [h]; decide
  simp only [EmailScanner.findEmailBoundaries]
  rw [if_neg (show ¬(a ≥ m.length) from by omega)]
  rw [if_neg (show ¬((decide (a + 1 < m.length) && (m.getD (a+1) 0 == 91)) = true) from by
    simp only [Bool.and_eq_true, beq_iff_eq, decide_eq_true_eq]
    rintro ⟨-, hcon⟩
    exact hbr hcon)]
  have he1 : EmailScanner.domainEndLoop m m.length (a + 1) = m.length :=
    domainEndLoop_walk m (m.length - (a+1)) (a+1) rfl (by omega)
      (fun t ht1 ht2 => hdch t ht1 ht2) m.length (by omega)
  rw [he1]
  rw [trimDotsLoop_stop2 m (a+1) m.length m.length (by
    have hx : (m.getD (m.length - 1) 0 == 46) = false := by simpa using hlastm
    rw [hx, Bool.and_false])]
  rw [if_neg (show ¬((decide (m.length < m.length) && (m.getD m.length 0 == 64)) = true)
    from by simp)]
  rw [if_neg (show ¬(a > EmailScanner.MAX_LEFT_SCAN) from by
    simp only [EmailScanner.MAX_LEFT_SCAN]
    omega)]
  rw [leftScan_walk m a a hch hnd a (le_refl a) (a+1) (by omega)]
  dsimp only
  simp only [EmailScanner.afterRecovery]
  rw [leadingDotStrip_stop2 m a (a+1) 0 (by
    have hx : (m.getD 0 0 == 46) = false := by simpa using hh46m
    rw [hx, Bool.and_false])]
  rw [if_neg (show ¬((decide (0 < a) && decide ((0 : Nat) > 0) && decide ((0 : Nat) > 0))
      = true) from by simp)]
  rw [if_neg (show ¬((0 : Nat) ≥ a) from by omega)]
  rw [if_neg (show ¬((decide ((0 : Nat) > 0) && decide ((0 : Nat) > 0)) = true) from by simp)]
  rw [if_neg (show ¬((decide (m.length < m.length) && true) = true) from by simp)]

theorem scanStep_perfect (m : List Nat) (a : Nat)
    (ha1 : 1 ≤ a) (h64max : a ≤ 64) (ha4 : a + 4 ≤ m.length) (h318 : m.length ≤ 318)
    (h64 : m.getD a 0 = 64)
    (huniq : ∀ i, i < m.length → m.getD i 0 = 64 → i = a)
    (hbr : m.getD (a+1) 0 ≠ 91)
    (hloc : LocalPartValidator.validateScanMode m 0 a = true)
    (hdom : DomainPartValidator.validateDomainLabels m (a+1) m.length = true) :
    EmailScanner.scanStep m 0 0 0 0 =
      .found a 0 m.length (0 + (a - 0) + (m.length - a)) := by
  simp only [EmailScanner.scanStep]
  have hmc : EmailScanner.memchrFrom m (m.length + 1) 0 = some a := by
    refine memchrFrom_complete m a (by omega) h64 a 0 (by omega) (by omega) ?_
      (m.length + 1) (by omega)
    intro t ht1 ht2 hcon
    have := huniq t (by omega) hcon
    omega
  rw [hmc]
  dsimp only
  rw [if_neg (show ¬((decide (a < 1) || decide (a ≥ m.length - 3)) = true) from by
    simp only [Bool.or_eq_true, decide_eq_true_eq]
    push_neg
    omega)]
  rw [if_neg (show ¬(a < 0) from by omega)]
  rw [fe_perfect m a ha1 h64max (by omega) hbr hloc hdom]
  dsimp only
  rw [if_neg (show ¬(0 + (a - 0) + (m.length - a) > EmailScanner.MAX_TOTAL_CHARS_SCANNED)
      from by
    simp only [EmailScanner.MAX_TOTAL_CHARS_SCANNED]
    omega)]
  rw [if_neg (show ¬((!true) = true) from by decide)]
  rw [if_pos (show (LocalPartValidator.validate m 0 a .SCAN &&
      DomainPartValidator.validate m (a+1) m.length) = true from by
    simp only [Bool.and_eq_true]
    constructor
    · rw [validate_SCAN_eq]
      exact hloc
    · unfold DomainPartValidator.validate
      rw [if_neg (by
        simp only [Bool.or_eq_true, decide_eq_true_eq]
        push_neg
        omega)]
      rw [if_neg (by simpa using hbr)]
      exact hdom)]

/-- C2 (amended): a string `m` returned by `extract(text)` with at least
three bytes after its at-sign (`a + 4 ≤ |m|` for the unique at-sign
position `a`) rescans to exactly `[m]`: `extract(m) = [m]`.  (The original
claim has counterexamples with one- or two-byte domains, which the scanner
entry guard `atPos ≥ len - 3` rejects on rescan.) -/
theorem C2_extract_idempotent (text m : List Nat)
    (hmem : m ∈ EmailScanner.extractModel text)
    (hdom3 : ∃ a, m.getD a 0 = 64 ∧ a + 4 ≤ m.length) :
    EmailScanner.extractModel m = [m] := by
  obtain ⟨a, ha1, ha64, hal, h318, h64, -, huniq, hbr, hloc, hdom⟩ :=
    goodMatch_props text m (extract_mem_good text m hmem)
  obtain ⟨a2, h64b, ha4⟩ := hdom3
  have haa : a2 = a := by
    refine huniq a2 ?_ h64b
    by_contra hcon
    push_neg at hcon
    rw [List.getD_eq_default _ _ (by omega)] at h64b
    exact absurd h64b (by norm_num)
  rw [haa] at ha4
  unfold EmailScanner.extractModel EmailScanner.extractFull
  rw [if_neg (by
    simp only [Bool.or_eq_true, decide_eq_true_eq, EmailScanner.MAX_INPUT_SIZE]
    push_neg
    omega)]
  rw [if_neg (by simp)]
  rw [extractLoop_found_step m EmailScanner.MAX_SCAN_ITERATIONS 0 0 0 0 [] [] [] 0
    a 0 m.length (0 + (a - 0) + (m.length - a))
    (by simp only [EmailScanner.MAX_SCAN_ITERATIONS]; omega)
    (by omega)
    (by simp only [EmailScanner.MAX_EMAILS_EXTRACT]; omega)
    (scanStep_perfect m a ha1 ha64 ha4 h318 h64 huniq hbr hloc hdom)
    (by
      simp only [Bool.or_eq_false_iff, decide_eq_false_iff_not]
      refine ⟨⟨?_, ?_⟩, ?_⟩ <;> omega)
    (by simp)]
  rw [extractLoop_exit m (EmailScanner.MAX_SCAN_ITERATIONS - 1) m.length _ _ _ _ _ _ _
    (by omega)]
  simp [subspan_full]

theorem C2_extract_idempotent_witness :
    bytes "a@b.co" ∈ EmailScanner.extractModel (bytes "xx a@b.co xx") ∧
    EmailScanner.extractModel (bytes "a@b.co") = [bytes "a@b.co"] :=
  ⟨by decide, C2_extract_idempotent (bytes "xx a@b.co xx") (bytes "a@b.co") (by decide)
    ⟨1, by decide, by decide⟩⟩

/-!  #### C4: the exact validator and unquoted at-signs

`unquotedAtPositions` is a specification-side reading of the claim's
"an at-sign that is not enclosed in an unescaped quoted region": the
positions collected by the same left-to-right quote/escape automaton the
spec describes (quote state toggled by an unescaped double quote, escape
state set by a backslash while inside quotes). -/

theorem atScanLoop_eq_atResult :
    ∀ (l : List Nat) (i : Nat) (atP : Option Nat) (inQuotes escaped : Bool),
      EmailValidator.atScanLoop l i atP inQuotes escaped =
        atResult atP (unquotedAtPositions l i inQuotes escaped) := by
  intro l
  induction l with
  | nil =>
    intro i atP inQ esc
    cases atP <;> rfl
  | cons c rest ih =>
    intro i atP inQ esc
    simp only [EmailValidator.atScanLoop, unquotedAtPositions]
    by_cases h1 : esc = true
    · subst h1; simp only [if_true]; exact ih _ _ _ _
    · replace h1 : esc = false := by revert h1; cases esc <;> simp
      subst h1
      simp only [if_false, Bool.false_eq_true]
      by_cases h2 : (c == 92 && inQ) = true
      · simp only [h2, if_true]; exact ih _ _ _ _
      · simp only [h2]
        rw [Bool.not_eq_true] at h2
        simp only [h2, Bool.false_eq_true, if_false]
        by_cases h3 : (c == 34) = true
        · simp only [h3, if_true]; exact ih _ _ _ _
        · rw [Bool.not_eq_true] at h3
          simp only [h3, Bool.false_eq_true, if_false]
          by_cases h4 : (c == 64 && !inQ) = true
          · simp only [h4, if_true]
            cases atP with
            | some a => rfl
            | none =>
              rw [ih (i+1) (some i) inQ false]
              rcases unquotedAtPositions rest (i + 1) inQ false with _ | ⟨b, t⟩ <;> rfl
          · rw [Bool.not_eq_true] at h4
            simp only [h4, Bool.false_eq_true, if_false]
            exact ih _ _ _ _

/-- C4: a string accepted by `EmailValidator::isValid` is 5 to 320 bytes
long and carries exactly one at-sign outside unescaped quoted regions,
and that at-sign is neither the first nor the last byte. -/
theorem C4_isValid_unquoted_at (s : List Nat) (h : EmailValidator.isValid s = true) :
    5 ≤ s.length ∧ s.length ≤ 320 ∧
    ∃ a, unquotedAtPositions s 0 false false = [a] ∧ 1 ≤ a ∧ a + 1 < s.length := by
  unfold EmailValidator.isValid at h
  rw [atScanLoop_eq_atResult] at h
  simp only [] at h
  by_cases hlen : s.length < EmailValidator.MIN_EMAIL_SIZE ∨ s.length > EmailValidator.MAX_EMAIL_SIZE
  · exfalso
    have : (s.length < EmailValidator.MIN_EMAIL_SIZE || s.length > EmailValidator.MAX_EMAIL_SIZE) = true := by
      simp only [Bool.or_eq_true, decide_eq_true_eq]; exact hlen
    rw [this] at h
    simp at h
  · push_neg at hlen
    have hg : (s.length < EmailValidator.MIN_EMAIL_SIZE || s.length > EmailValidator.MAX_EMAIL_SIZE) = false := by
      simp only [Bool.or_eq_false_iff, decide_eq_false_iff_not]
      constructor <;> omega
    rw [hg] at h
    simp only [Bool.false_eq_true, if_false] at h
    rcases hps : unquotedAtPositions s 0 false false with _ | ⟨a, _ | ⟨b, t⟩⟩ <;> rw [hps] at h
    · simp [atResult] at h
    · refine ⟨by simpa [EmailValidator.MIN_EMAIL_SIZE] using hlen.1,
              by simpa [EmailValidator.MAX_EMAIL_SIZE] using hlen.2, a, rfl, ?_, ?_⟩
      · simp only [atResult] at h
        by_cases ha : (a == 0 || a ≥ s.length - 1) = true
        · rw [ha] at h; simp at h
        · rw [Bool.not_eq_true] at ha
          simp only [Bool.or_eq_false_iff] at ha
          have := ha.1
          simp only [beq_eq_false_iff_ne, ne_eq] at this
          omega
      · simp only [atResult] at h
        by_cases ha : (a == 0 || a ≥ s.length - 1) = true
        · rw [ha] at h; simp at h
        · rw [Bool.not_eq_true] at ha
          simp only [Bool.or_eq_false_iff] at ha
          have h2 := ha.2
          simp only [decide_eq_false_iff_not, not_le] at h2
          have h5 := hlen.1
          unfold EmailValidator.MIN_EMAIL_SIZE at h5
          omega
    · simp [atResult] at h

/-- C4 witness at `user@example.com`. -/
theorem C4_isValid_unquoted_at_witness :
    5 ≤ (bytes "user@example.com").length ∧ (bytes "user@example.com").length ≤ 320 ∧
    ∃ a, unquotedAtPositions (bytes "user@example.com") 0 false false = [a] ∧
      1 ≤ a ∧ a + 1 < (bytes "user@example.com").length :=
  C4_isValid_unquoted_at (bytes "user@example.com") (by decide)

/-- C2 as stated is false: `xx a@bc xx` yields the 4-byte match `a@bc`,
which is below the scanner's minimum input length, so re-extracting from it
yields the empty sequence rather than the singleton. -/
theorem C2_counterexample :
    ¬ (∀ (text m : List Nat), m ∈ EmailScanner.extractModel text →
        EmailScanner.extractModel m = [m]) := by
  intro h
  have hmem : bytes "a@bc" ∈ EmailScanner.extractModel (bytes "xx a@bc xx") := by
    rw [show EmailScanner.extractModel (bytes "xx a@bc xx") = [bytes "a@bc"] from by decide]
    exact List.mem_singleton.mpr rfl
  have := h (bytes "xx a@bc xx") (bytes "a@bc") hmem
  rw [show EmailScanner.extractModel (bytes "a@bc") = [] from by decide] at this
  exact absurd this (by decide)
